import Mathlib

/-!
# redis-lite: the RESP codec, the commands, the store and the connection loop

A shallow embedding of `pkg/resp` (`types.go`, `parser.go`, `serializer.go`),
`pkg/storage/store.go`, `pkg/commands` (`interface.go`, `ping.go`, `echo.go`,
`get.go`, `set.go`) and `pkg/server` (`connection.go`, `NewServer` of
`server.go`), followed by theorems about the wire format, the dispatch of
commands, the four commands and the connection loop.

Conventions.
* A Go `string` / `[]byte` is a `List Nat`; a byte is a natural number (the
  values below 256 are the ones a Go byte can take; no definition depends on
  the bound).
* The parser owns a `bufio.Reader`; its state is the list of bytes not yet
  read.  The stream is a finite byte sequence followed by end-of-stream,
  which is what `ParseString` (a `strings.Reader`) provides.
* A function returning `(T, error)` returns `Except _ T`.
* Go `int` is 64 bits wide (`strconv.IntSize = 64`); `int` and `int64` values
  are integers in `[-2^63, 2^63)`.
* A Go `error` is its text, and `nil` is `none`.  A method that changes the
  store returns the new store.  An index out of range is the outcome `Panic`.
* The parser calls `make` with a length that the input declares.  `Parse`,
  `parseBulkString`, `parseArray` and `Connection.Handle` are the methods on a
  run in which these calls return; `Runtime.Parse`, `Runtime.parseBulkString`,
  `Runtime.parseArray` and `Runtime.Handle` carry the outcome of `make`, given
  by a `Runtime`, and panic where `make` does not return.
-/

namespace Resp

/-- The bytes of an ASCII string literal. -/
def ascii (s : String) : List Nat := s.toList.map Char.toNat

/-- The byte `'\r'`. -/
abbrev CR : Nat := 13

/-- The byte `'\n'`. -/
abbrev LF : Nat := 10

/-! ## `types.go` -/

/-- The `MessageType` enumeration of `types.go`. -/
inductive MessageType where
  | SimpleString
  | Error
  | Integer
  | BulkString
  | Array
  deriving DecidableEq, Repr

/-- A `Message` as the constructors of `types.go` build it: the `Type` tag
together with a `Value` of the matching dynamic type.  `none` is the `nil`
value of a null bulk string / null array. -/
inductive Message where
  | SimpleString (value : List Nat)
  | Error (value : List Nat)
  | Integer (value : Int)
  | BulkString (value : Option (List Nat))
  | Array (value : Option (List Message))

/-- The constructor `NewSimpleString`. -/
def NewSimpleString (value : List Nat) : Message := .SimpleString value

/-- The constructor `NewError`. -/
def NewError (value : List Nat) : Message := .Error value

/-- The constructor `NewInteger`. -/
def NewInteger (value : Int) : Message := .Integer value

/-- The constructor `NewBulkString`. -/
def NewBulkString (value : List Nat) : Message := .BulkString (some value)

/-- The constructor `NewNullBulkString`. -/
def NewNullBulkString : Message := .BulkString none

/-- The constructor `NewArray`. -/
def NewArray (value : List Message) : Message := .Array (some value)

/-- The constructor `NewNullArray`. -/
def NewNullArray : Message := .Array none

/-- The field `Type` of a message. -/
def Message.Type : Message → MessageType
  | .SimpleString _ => .SimpleString
  | .Error _ => .Error
  | .Integer _ => .Integer
  | .BulkString _ => .BulkString
  | .Array _ => .Array

/-- The method `IsNull`: `m.Value == nil`. -/
def Message.IsNull : Message → Bool
  | .BulkString none => true
  | .Array none => true
  | _ => false

/-! ## Library functions used by the codec -/

/-- The two end-of-stream errors of package `io`. -/
inductive IOError where
  | EOF
  | ErrUnexpectedEOF
  deriving DecidableEq, Repr

/-- The two errors of package `strconv`. -/
inductive NumError where
  | ErrSyntax
  | ErrRange
  deriving DecidableEq, Repr

/-- The method `bufio.Reader.ReadByte`: the next byte, or `EOF`. -/
def ReadByte : List Nat → Except IOError (Nat × List Nat)
  | [] => .error .EOF
  | b :: rest => .ok (b, rest)

/-- The method `bufio.Reader.ReadString`: the bytes up to and including the
first `delim`, or `EOF` when the stream ends before a `delim` (the bytes read
so far are returned with the error in Go; the only caller drops them). -/
def ReadString (delim : Nat) : List Nat → Except IOError (List Nat × List Nat)
  | [] => .error .EOF
  | b :: rest =>
    if b = delim then .ok ([b], rest)
    else
      match ReadString delim rest with
      | .error e => .error e
      | .ok (line, rest1) => .ok (b :: line, rest1)

/-- The function `io.ReadFull` on a buffer of `n` bytes: exactly `n` bytes, or
`EOF` when none could be read, or `ErrUnexpectedEOF` when only some could. -/
def ReadFull (n : Nat) (input : List Nat) : Except IOError (List Nat × List Nat) :=
  if n ≤ input.length then .ok (input.take n, input.drop n)
  else if input.length = 0 then .error .EOF
  else .error .ErrUnexpectedEOF

/-- The digit loop of `strconv.ParseUint(s, 10, 64)`, with `n` the value
accumulated so far in a `uint64`. -/
def parseUintLoop : List Nat → Nat → Except NumError Nat
  | [], n => .ok n
  | c :: cs, n =>
    if 48 ≤ c ∧ c ≤ 57 then
      let d := c - 48
      -- cutoff = maxUint64/10 + 1
      if n ≥ (2 ^ 64 - 1) / 10 + 1 then .error .ErrRange
      else
        let n10 := (n * 10) % 2 ^ 64
        let n1 := (n10 + d) % 2 ^ 64
        if n1 < n10 ∨ n1 > 2 ^ 64 - 1 then .error .ErrRange
        else parseUintLoop cs n1
    else .error .ErrSyntax

/-- The function `strconv.ParseUint(s, 10, 64)`. -/
def ParseUint (s : List Nat) : Except NumError Nat :=
  if s = [] then .error .ErrSyntax else parseUintLoop s 0

/-- The function `strconv.ParseInt(s, 10, 64)`: an optional sign, then
`ParseUint`, then the range check against `cutoff = 2^63`. -/
def ParseInt (s : List Nat) : Except NumError Int :=
  match s with
  | [] => .error .ErrSyntax
  | c :: cs =>
    let neg := decide (c = 45)
    let s1 := if c = 43 then cs else if c = 45 then cs else c :: cs
    match ParseUint s1 with
    | .error e => .error e
    | .ok un =>
      if neg = false ∧ un ≥ 2 ^ 63 then .error .ErrRange
      else if neg = true ∧ un > 2 ^ 63 then .error .ErrRange
      else if neg then .ok (-(un : Int)) else .ok (un : Int)

/-- The function `strconv.Atoi`: `ParseInt(s, 10, 0)` converted to `int`,
with `int` 64 bits wide. -/
def Atoi (s : List Nat) : Except NumError Int := ParseInt s

/-- The canonical decimal numeral of a natural number, most significant digit
first; `fuel` bounds the number of digits. -/
def decimalAux : Nat → Nat → List Nat
  | 0, _ => []
  | fuel + 1, n =>
    if n < 10 then [48 + n] else decimalAux fuel (n / 10) ++ [48 + n % 10]

/-- The canonical decimal numeral of a natural number. -/
def decimal (n : Nat) : List Nat := decimalAux (n + 1) n

/-- The verb `%d` of package `fmt` on a signed integer: a `-` for a negative
value, then the decimal numeral of the magnitude. -/
def formatInt (n : Int) : List Nat :=
  if n < 0 then 45 :: decimal n.natAbs else decimal n.natAbs

/-- The function `strings.ContainsAny(value, "\r\n")`. -/
def containsCRLF (value : List Nat) : Bool :=
  value.any (fun b => b = CR || b = LF)

/-! ## `parser.go` -/

/-- The errors of `readLine`. -/
inductive LineError where
  | read (err : IOError)
  | notCRLF (line : List Nat)
  deriving DecidableEq, Repr

/-- The errors of `expectCRLF`. -/
inductive CRLFError where
  | read (err : IOError)
  | expectedCR (got : Nat)
  | expectedLF (got : Nat)
  deriving DecidableEq, Repr

/-- The errors of `Parse`, one constructor for each `fmt.Errorf` of
`parser.go`; a wrapped error (`%w`) is the argument.  `depthExhausted` is not
an error of the program: it marks a run of `ParseN` whose depth bound was
reached. -/
inductive ParseError where
  | readMessageType (err : IOError)
  | invalidMessageType (typeByte : Nat)
  | readSimpleString (err : LineError)
  | readErrorMessage (err : LineError)
  | readInteger (err : LineError)
  | invalidIntegerFormat (line : List Nat)
  | readBulkStringLength (err : LineError)
  | invalidBulkStringLengthText (line : List Nat)
  | invalidBulkStringLength (length : Int)
  | readBulkStringData (err : IOError)
  | missingCRLF (err : CRLFError)
  | readArrayLength (err : LineError)
  | invalidArrayLengthText (line : List Nat)
  | invalidArrayLength (length : Int)
  | arrayElement (i : Nat) (err : ParseError)
  | depthExhausted
  deriving DecidableEq, Repr

/-- The result of a parsing step: a value and the bytes left unread. -/
abbrev ParseResult (α : Type) := Except ParseError (α × List Nat)

/-- The method `readLine`: the bytes before the first LF, which must end the
line as CR LF; the content is returned without the two terminator bytes. -/
def readLine (input : List Nat) : Except LineError (List Nat × List Nat) :=
  match ReadString LF input with
  | .error e => .error (.read e)
  | .ok (line, rest) =>
    if line.length < 2 ∨ line.drop (line.length - 2) ≠ [CR, LF] then
      .error (.notCRLF line)
    else .ok (line.take (line.length - 2), rest)

/-- The method `expectCRLF`: the next two bytes must be CR and LF. -/
def expectCRLF (input : List Nat) : Except CRLFError (List Nat) :=
  match ReadByte input with
  | .error e => .error (.read e)
  | .ok (cr, rest) =>
    if cr ≠ CR then .error (.expectedCR cr)
    else
      match ReadByte rest with
      | .error e => .error (.read e)
      | .ok (lf, rest1) =>
        if lf ≠ LF then .error (.expectedLF lf) else .ok rest1

/-- The method `parseSimpleString`. -/
def parseSimpleString (input : List Nat) : ParseResult Message :=
  match readLine input with
  | .error e => .error (.readSimpleString e)
  | .ok (line, rest) => .ok (NewSimpleString line, rest)

/-- The method `parseError`. -/
def parseError (input : List Nat) : ParseResult Message :=
  match readLine input with
  | .error e => .error (.readErrorMessage e)
  | .ok (line, rest) => .ok (NewError line, rest)

/-- The method `parseInteger`. -/
def parseInteger (input : List Nat) : ParseResult Message :=
  match readLine input with
  | .error e => .error (.readInteger e)
  | .ok (line, rest) =>
    match ParseInt line with
    | .error _ => .error (.invalidIntegerFormat line)
    | .ok value => .ok (NewInteger value, rest)

/-- The method `parseBulkString` on a run in which `make([]byte, length)`
returns the buffer.  `Runtime.parseBulkString` is the method with the outcome
of `make`: it panics where `make` does not return and is this function where
it does (`Runtime_parseBulkString_cases`). -/
def parseBulkString (input : List Nat) : ParseResult Message :=
  match readLine input with
  | .error e => .error (.readBulkStringLength e)
  | .ok (line, rest) =>
    match Atoi line with
    | .error _ => .error (.invalidBulkStringLengthText line)
    | .ok length =>
      if length = -1 then .ok (NewNullBulkString, rest)
      else if length < 0 then .error (.invalidBulkStringLength length)
      else
        match ReadFull length.toNat rest with
        | .error e => .error (.readBulkStringData e)
        | .ok (data, rest1) =>
          match expectCRLF rest1 with
          | .error e => .error (.missingCRLF e)
          | .ok rest2 => .ok (NewBulkString data, rest2)

/-- The loop of `parseArray`: `n` more elements are parsed with `parse`, the
next one having index `i`. -/
def parseElements (parse : List Nat → ParseResult Message) :
    Nat → Nat → List Nat → ParseResult (List Message)
  | 0, _, input => .ok ([], input)
  | n + 1, i, input =>
    match parse input with
    | .error e => .error (.arrayElement i e)
    | .ok (element, rest) =>
      match parseElements parse n (i + 1) rest with
      | .error e => .error e
      | .ok (elements, rest1) => .ok (element :: elements, rest1)

/-- The method `parseArray` on a run in which `make([]*Message, length)`
returns the slice, with `parse` the method `Parse` it calls for each element.
`Runtime.parseArray` is the method with the outcome of `make`: it panics
where `make` does not return and is this function where it does
(`Runtime_parseArray_cases`). -/
def parseArray (parse : List Nat → ParseResult Message) (input : List Nat) :
    ParseResult Message :=
  match readLine input with
  | .error e => .error (.readArrayLength e)
  | .ok (line, rest) =>
    match Atoi line with
    | .error _ => .error (.invalidArrayLengthText line)
    | .ok length =>
      if length = -1 then .ok (NewNullArray, rest)
      else if length < 0 then .error (.invalidArrayLength length)
      else
        match parseElements parse length.toNat 0 rest with
        | .error e => .error e
        | .ok (elements, rest1) => .ok (NewArray elements, rest1)

/-- The body of the method `Parse`, with `parse` standing for the method
itself where `parseArray` calls it. -/
def parseMessage (parse : List Nat → ParseResult Message) (input : List Nat) :
    ParseResult Message :=
  match ReadByte input with
  | .error e => .error (.readMessageType e)
  | .ok (typeByte, rest) =>
    if typeByte = 43 then parseSimpleString rest
    else if typeByte = 45 then parseError rest
    else if typeByte = 58 then parseInteger rest
    else if typeByte = 36 then parseBulkString rest
    else if typeByte = 42 then parseArray parse rest
    else .error (.invalidMessageType typeByte)

/-- The method `Parse` with the nesting of arrays bounded by `depth`. -/
def ParseN : Nat → List Nat → ParseResult Message
  | 0 => fun _ => .error .depthExhausted
  | depth + 1 => parseMessage (ParseN depth)

/-- The method `Parse` of a parser whose unread stream is `input`, on a run in
which every `make` returns: the parsed message and the stream left unread.
An array header takes at least one byte, so the nesting is below the length
of the input.  `Runtime.Parse` is the method with the outcome of `make`
(`Runtime_Parse_cases`, `Runtime_Parse_granted`). -/
def Parse (input : List Nat) : ParseResult Message :=
  ParseN (input.length + 1) input

/-- The function `ParseString`. -/
def ParseString (input : List Nat) : Except ParseError Message :=
  match Parse input with
  | .error e => .error e
  | .ok (m, _) => .ok m

/-! ## `serializer.go` -/

/-- The errors of `Serialize`. -/
inductive SerializeError where
  | simpleStringCRLF
  | errorCRLF
  | arrayElement (i : Nat) (err : SerializeError)
  deriving DecidableEq, Repr

/-- The method `serializeSimpleString`; `w` is what the writer holds. -/
def serializeSimpleString (value : List Nat) (w : List Nat) :
    List Nat × Option SerializeError :=
  if containsCRLF value then (w, some .simpleStringCRLF)
  else (w ++ (43 :: value ++ [CR, LF]), none)

/-- The method `serializeError`. -/
def serializeError (value : List Nat) (w : List Nat) :
    List Nat × Option SerializeError :=
  if containsCRLF value then (w, some .errorCRLF)
  else (w ++ (45 :: value ++ [CR, LF]), none)

/-- The method `serializeInteger`. -/
def serializeInteger (value : Int) (w : List Nat) : List Nat × Option SerializeError :=
  (w ++ (58 :: formatInt value ++ [CR, LF]), none)

/-- The method `serializeBulkString`. -/
def serializeBulkString (value : Option (List Nat)) (w : List Nat) :
    List Nat × Option SerializeError :=
  match value with
  | none => (w ++ [36, 45, 49, CR, LF], none)
  | some str =>
    let w1 := w ++ (36 :: formatInt str.length ++ [CR, LF])
    let w2 := w1 ++ str
    (w2 ++ [CR, LF], none)

mutual
/-- The method `Serialize` on a writer that accepts every write (a
`strings.Builder`): the content of the writer afterwards, and the error. -/
def Serialize : Message → List Nat → List Nat × Option SerializeError
  | .SimpleString value, w => serializeSimpleString value w
  | .Error value, w => serializeError value w
  | .Integer value, w => serializeInteger value w
  | .BulkString value, w => serializeBulkString value w
  | .Array none, w => (w ++ [42, 45, 49, CR, LF], none)
  | .Array (some array), w =>
    serializeElements array 0 (w ++ (42 :: formatInt array.length ++ [CR, LF]))
/-- The loop of `serializeArray` over the elements from index `i` on. -/
def serializeElements : List Message → Nat → List Nat → List Nat × Option SerializeError
  | [], _, w => (w, none)
  | element :: rest, i, w =>
    match Serialize element w with
    | (w1, some err) => (w1, some (.arrayElement i err))
    | (w1, none) => serializeElements rest (i + 1) w1
end

/-- The function `SerializeToString`; `.error err` is the pair of the empty
string and the error. -/
def SerializeToString (message : Message) : Except SerializeError (List Nat) :=
  match Serialize message [] with
  | (_, some err) => .error err
  | (w, none) => .ok w

/-! ## Notions used to state the properties -/

/-- A decimal digit, `'0'` to `'9'`. -/
def IsDigit (c : Nat) : Prop := 48 ≤ c ∧ c ≤ 57

/-- The number a sequence of decimal digits denotes, continuing from `n`. -/
def digitsValueFrom (n : Nat) (s : List Nat) : Nat :=
  s.foldl (fun acc c => acc * 10 + (c - 48)) n

/-- The number a sequence of decimal digits denotes. -/
def digitsValue (s : List Nat) : Nat := digitsValueFrom 0 s

/-- The text `line` is an optionally signed (`+` or `-`), non-empty sequence of
decimal digits that denotes the integer `v`. -/
def Numeral (line : List Nat) (v : Int) : Prop :=
  ∃ digits, digits ≠ [] ∧ (∀ c ∈ digits, IsDigit c) ∧
    (((line = digits ∨ line = 43 :: digits) ∧ v = (digitsValue digits : Int)) ∨
      (line = 45 :: digits ∧ v = -(digitsValue digits : Int)))

/-- The values of a Go `int64` (and of a Go `int`). -/
def IsInt64 (v : Int) : Prop := -2 ^ 63 ≤ v ∧ v < 2 ^ 63

mutual
/-- The messages of the round-trip law: built with the constructors, the text
of a simple string or error free of CR and LF, an integer payload an `int64`,
and the length of a bulk string and of an array a Go `int` (as `len` returns
it). -/
def Message.WF : Message → Prop
  | .SimpleString value => CR ∉ value ∧ LF ∉ value
  | .Error value => CR ∉ value ∧ LF ∉ value
  | .Integer value => IsInt64 value
  | .BulkString none => True
  | .BulkString (some value) => value.length < 2 ^ 63
  | .Array none => True
  | .Array (some array) => array.length < 2 ^ 63 ∧ WFList array
/-- Every message of the list satisfies `Message.WF`. -/
def WFList : List Message → Prop
  | [] => True
  | m :: ms => m.WF ∧ WFList ms
end

/-- The frames `ms` parse one after the other from `body`, leaving `rest`. -/
def Frames : List Nat → List Message → List Nat → Prop
  | body, [], rest => body = rest
  | body, m :: ms, rest => ∃ r, Parse body = .ok (m, r) ∧ Frames r ms rest

/-! ## `types.go`: the typed accessors -/

/-- The method `MessageType.String`. -/
def MessageType.String : MessageType → List Nat
  | .SimpleString => ascii "SimpleString"
  | .Error => ascii "Error"
  | .Integer => ascii "Integer"
  | .BulkString => ascii "BulkString"
  | .Array => ascii "Array"

/-- The method `AsString`; a Go `error` is its text. -/
def Message.AsString : Message → Except (List Nat) (List Nat)
  | .SimpleString value => .ok value
  | .Error value => .ok value
  | .BulkString none => .error (ascii "null bulk string")
  | .BulkString (some value) => .ok value
  | m => .error (ascii "message type " ++ m.Type.String ++
      ascii " cannot be converted to string")

/-- The method `AsInteger`. -/
def Message.AsInteger : Message → Except (List Nat) Int
  | .Integer value => .ok value
  | m => .error (ascii "message type " ++ m.Type.String ++
      ascii " cannot be converted to integer")

/-- The method `AsArray`. -/
def Message.AsArray : Message → Except (List Nat) (List Message)
  | .Array none => .error (ascii "null array")
  | .Array (some value) => .ok value
  | m => .error (ascii "message type " ++ m.Type.String ++
      ascii " cannot be converted to array")

/-! ## `storage/store.go` -/

/-- The struct `MemoryStore`: the field `data`, a Go `map[string]string`, as
the list of its entries, one for each key.  The mutex is not modelled: the
methods run one at a time. -/
structure MemoryStore where
  data : AList (fun _ : List Nat => List Nat)

/-- The function `NewMemoryStore`. -/
def NewMemoryStore : MemoryStore := ⟨∅⟩

/-- The method `Set`: the new state and the error, which is always `nil`. -/
def MemoryStore.Set (s : MemoryStore) (key value : List Nat) :
    MemoryStore × Option (List Nat) :=
  (⟨s.data.insert key value⟩, none)

/-- The method `Get`: the value (the empty string for a missing key) and
whether the key exists. -/
def MemoryStore.Get (s : MemoryStore) (key : List Nat) : List Nat × Bool :=
  match s.data.lookup key with
  | some value => (value, true)
  | none => ([], false)

/-- The method `Delete`: the new state and whether the key existed. -/
def MemoryStore.Delete (s : MemoryStore) (key : List Nat) : MemoryStore × Bool :=
  match s.data.lookup key with
  | some _ => (⟨s.data.erase key⟩, true)
  | none => (s, false)

/-- The method `Exists`. -/
def MemoryStore.Exists (s : MemoryStore) (key : List Nat) : Bool :=
  (s.data.lookup key).isSome

/-- The method `Size`. -/
def MemoryStore.Size (s : MemoryStore) : Nat := s.data.keys.length

/-- The method `Clear`. -/
def MemoryStore.Clear (_s : MemoryStore) : MemoryStore := ⟨∅⟩

/-! ## `commands/interface.go` -/

/-- A run-time panic of the Go program.  `makeslice` is a `make` that does not
return: the panic `makeslice: len out of range`, or the fatal error
`out of memory` of the runtime. -/
inductive Panic where
  | indexOutOfRange (index length : Nat)
  | nilPointerDereference
  | closeOfClosedChannel
  | makeslice
  deriving DecidableEq, Repr

/-- A returned pair `(*resp.Message, error)`; `none` is `nil`, an error is its
text. -/
structure Reply where
  message : Option Message
  err : Option (List Nat)

/-- What a call of an `Execute` method does: it panics, or it returns a pair
and leaves the store in a state. -/
abbrev Outcome := Except Panic (Reply × MemoryStore)

/-- The interface `Command`; the store a command receives is the
`MemoryStore`, the implementation of `storage.Store` in the repository. -/
structure Command where
  Name : List Nat
  Execute : List Message → MemoryStore → Outcome
  Validate : List Message → Option (List Nat)

/-- The struct `CommandHandler`: the field `commands`, a Go
`map[string]Command`, as its lookup function. -/
structure CommandHandler where
  commands : List Nat → Option Command

/-- The function `NewCommandHandler`. -/
def NewCommandHandler : CommandHandler := ⟨fun _ => none⟩

/-- The method `Register`: `h.commands[command.Name()] = command`. -/
def CommandHandler.Register (h : CommandHandler) (command : Command) : CommandHandler :=
  ⟨fun name => if name = command.Name then some command else h.commands name⟩

/-- The method `CommandHandler.Execute`. -/
def CommandHandler.Execute (h : CommandHandler) (commandName : List Nat)
    (args : List Message) (store : MemoryStore) : Outcome :=
  match h.commands commandName with
  | none =>
    .ok (⟨some (NewError (ascii "ERR unknown command '" ++ commandName ++ ascii "'")), none⟩,
      store)
  | some command =>
    match command.Validate args with
    | some err => .ok (⟨some (NewError (ascii "ERR " ++ err)), none⟩, store)
    | none => command.Execute args store

/-- The method `GetCommand` of the handler: the command, and whether it
exists (`none` is the pair `(nil, false)`). -/
def CommandHandler.GetCommand (h : CommandHandler) (name : List Nat) : Option Command :=
  h.commands name

/-! ## `commands/ping.go`, `echo.go`, `get.go`, `set.go` -/

/-- The method `PingCommand.Name`. -/
def PingCommand.Name : List Nat := ascii "PING"

/-- The method `PingCommand.Validate`. -/
def PingCommand.Validate (args : List Message) : Option (List Nat) :=
  if args.length > 1 then some (ascii "wrong number of arguments for 'ping' command")
  else none

/-- The method `EchoCommand.Name`. -/
def EchoCommand.Name : List Nat := ascii "ECHO"

/-- The method `EchoCommand.Validate`. -/
def EchoCommand.Validate (args : List Message) : Option (List Nat) :=
  if args.length ≠ 1 then some (ascii "wrong number of arguments for 'echo' command")
  else none

/-- The method `GetCommand.Name`. -/
def GetCommand.Name : List Nat := ascii "GET"

/-- The method `GetCommand.Validate`. -/
def GetCommand.Validate (args : List Message) : Option (List Nat) :=
  if args.length ≠ 1 then some (ascii "wrong number of arguments for 'get' command")
  else none

/-- The conversion of the key argument in `GetCommand.Execute` and
`SetCommand.Execute`: the key, or the error message returned at once. -/
def keyOf (keyArg : Message) : Except Message (List Nat) :=
  match keyArg with
  | .BulkString none => .error (NewError (ascii "ERR key cannot be null"))
  | .BulkString (some value) => .ok value
  | .SimpleString value => .ok value
  | _ => .error (NewError (ascii "ERR invalid key type"))

/-- The method `GetCommand.Execute`. -/
def GetCommand.Execute (args : List Message) (store : MemoryStore) : Outcome :=
  match args with
  | [] => .error (.indexOutOfRange 0 0)
  | keyArg :: _ =>
    match keyOf keyArg with
    | .error response => .ok (⟨some response, none⟩, store)
    | .ok key =>
      match store.Get key with
      | (_, false) => .ok (⟨some NewNullBulkString, none⟩, store)
      | (value, true) => .ok (⟨some (NewBulkString value), none⟩, store)

/-- The method `SetCommand.Name`. -/
def SetCommand.Name : List Nat := ascii "SET"

/-- The method `SetCommand.Validate`. -/
def SetCommand.Validate (args : List Message) : Option (List Nat) :=
  if args.length ≠ 2 then some (ascii "wrong number of arguments for 'set' command")
  else none

/-- The conversion of the value argument in `SetCommand.Execute`: the text to
store, or the error message returned at once. -/
def valueOf (valueArg : Message) : Except Message (List Nat) :=
  match valueArg with
  | .BulkString none => .ok []
  | .BulkString (some value) => .ok value
  | .SimpleString value => .ok value
  | .Integer value => .ok (formatInt value)
  | _ => .error (NewError (ascii "ERR invalid value type"))

/-- The method `SetCommand.Execute`. -/
def SetCommand.Execute (args : List Message) (store : MemoryStore) : Outcome :=
  match args with
  | [] => .error (.indexOutOfRange 0 0)
  | [_] => .error (.indexOutOfRange 1 1)
  | keyArg :: valueArg :: _ =>
    match keyOf keyArg with
    | .error response => .ok (⟨some response, none⟩, store)
    | .ok key =>
      match valueOf valueArg with
      | .error response => .ok (⟨some response, none⟩, store)
      | .ok value =>
        match store.Set key value with
        | (store1, some err) => .ok (⟨some (NewError (ascii "ERR " ++ err)), none⟩, store1)
        | (store1, none) => .ok (⟨some (NewSimpleString (ascii "OK")), none⟩, store1)

/-- The command `GET` as the handler registers it. -/
def GetCommand.command : Command := ⟨GetCommand.Name, GetCommand.Execute, GetCommand.Validate⟩

/-- The command `SET` as the handler registers it. -/
def SetCommand.command : Command := ⟨SetCommand.Name, SetCommand.Execute, SetCommand.Validate⟩

/-! ## `commands/ping.go`, `echo.go`: `Execute` -/

/-- The method `PingCommand.Execute`; it has no store parameter. -/
def PingCommand.Execute (args : List Message) : Except Panic Reply :=
  match args with
  | [] => .ok ⟨some (NewSimpleString (ascii "PONG")), none⟩
  | arg :: _ =>
    match arg with
    | .BulkString none => .ok ⟨some NewNullBulkString, none⟩
    | .BulkString (some value) => .ok ⟨some (NewBulkString value), none⟩
    | .SimpleString value => .ok ⟨some (NewSimpleString value), none⟩
    | _ => .ok ⟨some (NewError (ascii "ERR invalid argument type for PING")), none⟩

/-- The method `EchoCommand.Execute`; it has no store parameter. -/
def EchoCommand.Execute (args : List Message) : Except Panic Reply :=
  match args with
  | [] => .error (.indexOutOfRange 0 0)
  | arg :: _ =>
    match arg with
    | .BulkString none => .ok ⟨some NewNullBulkString, none⟩
    | .BulkString (some value) => .ok ⟨some (NewBulkString value), none⟩
    | .SimpleString value => .ok ⟨some (NewBulkString value), none⟩
    | .Integer value => .ok ⟨some (NewBulkString (formatInt value)), none⟩
    | _ => .ok ⟨some (NewError (ascii "ERR invalid argument type for ECHO")), none⟩

/-- A command whose `Execute` has no store parameter, as the handler calls it:
the store it is called with is left as it is. -/
def withoutStore (execute : List Message → Except Panic Reply) (args : List Message)
    (store : MemoryStore) : Outcome :=
  match execute args with
  | .error p => .error p
  | .ok reply => .ok (reply, store)

/-- The command `PING` as the handler registers it. -/
def PingCommand.command : Command :=
  ⟨PingCommand.Name, withoutStore PingCommand.Execute, PingCommand.Validate⟩

/-- The command `ECHO` as the handler registers it. -/
def EchoCommand.command : Command :=
  ⟨EchoCommand.Name, withoutStore EchoCommand.Execute, EchoCommand.Validate⟩

/-! ## `server/connection.go` -/

/-- The upper-casing of the ASCII letters of a string, byte by byte. -/
def asciiUpper (s : List Nat) : List Nat :=
  s.map (fun c => if 97 ≤ c ∧ c ≤ 122 then c - 32 else c)

/-- The function `strings.ToUpper`: a string of ASCII bytes has its letters
`a` to `z` upper-cased; for a string with a byte from `0x80` on the result is
`mapUpper s`, which stands for `strings.Map(unicode.ToUpper, s)`, the Unicode
tables being no part of the repository. -/
def ToUpper (mapUpper : List Nat → List Nat) (s : List Nat) : List Nat :=
  if s.all (fun c => decide (c < 128)) then asciiUpper s else mapUpper s

/-- The struct `Connection`: of the `net.Conn`, the bytes the parser has not
read yet and the bytes the serializer has written; the command handler. -/
structure Connection where
  input : List Nat
  output : List Nat
  commandHandler : CommandHandler

/-- The function `NewConnection` on a connection whose peer sends `input`. -/
def NewConnection (input : List Nat) (commandHandler : CommandHandler) : Connection :=
  ⟨input, [], commandHandler⟩

/-- What `processCommand` does with the pair that `commandHandler.Execute`
returns: a Go error becomes the error message "ERR " + text. -/
def responseOf (outcome : Outcome) : Except Panic (Option Message × MemoryStore) :=
  match outcome with
  | .error p => .error p
  | .ok (reply, store) =>
    match reply.err with
    | some err => .ok (some (NewError (ascii "ERR " ++ err)), store)
    | none => .ok (reply.message, store)

/-- The method `processCommand`: the response (`none` is a nil pointer) and
the store afterwards, or a panic of the command.  `connection.go` calls
`commandHandler.Execute` without the store that `interface.go` declares: the
store is the parameter `store`. -/
def Connection.processCommand (mapUpper : List Nat → List Nat) (c : Connection)
    (store : MemoryStore) (message : Message) : Except Panic (Option Message × MemoryStore) :=
  match message with
  | .Array none => .ok (some (NewError (ascii "ERR Protocol error: null array")), store)
  | .Array (some args) =>
    match args with
    | [] => .ok (some (NewError (ascii "ERR Protocol error: empty array")), store)
    | commandNameMsg :: commandArgs =>
      match commandNameMsg with
      | .BulkString none =>
        .ok (some (NewError (ascii "ERR Protocol error: null command name")), store)
      | .BulkString (some commandName) =>
        responseOf (c.commandHandler.Execute (ToUpper mapUpper commandName) commandArgs store)
      | .SimpleString commandName =>
        responseOf (c.commandHandler.Execute (ToUpper mapUpper commandName) commandArgs store)
      | _ =>
        .ok (some (NewError (ascii "ERR Protocol error: command name must be a string")),
          store)
  | _ => .ok (some (NewError (ascii "ERR Protocol error: expected array")), store)

/-- How the loop of `Handle` ends. -/
inductive HandleEnd where
  | parseError (err : ParseError)
  | serializeError (err : SerializeError)
  | panic (p : Panic)
  | stepsExhausted
  deriving DecidableEq, Repr

/-- The state in which `Handle` leaves the connection and the store. -/
structure HandleResult where
  output : List Nat
  store : MemoryStore
  ended : HandleEnd

/-- The loop of `Handle`, at most `steps` iterations: parse a message, process
it, serialize the response; a failing parse or a failing serialization ends
the loop.  The writes to the connection are taken to succeed. -/
def Connection.handleLoop (mapUpper : List Nat → List Nat) (commandHandler : CommandHandler) :
    Nat → List Nat → List Nat → MemoryStore → HandleResult
  | 0, _, output, store => ⟨output, store, .stepsExhausted⟩
  | steps + 1, input, output, store =>
    match Parse input with
    | .error err => ⟨output, store, .parseError err⟩
    | .ok (message, rest) =>
      match Connection.processCommand mapUpper ⟨rest, output, commandHandler⟩ store message with
      | .error p => ⟨output, store, .panic p⟩
      | .ok (none, store1) => ⟨output, store1, .panic .nilPointerDereference⟩
      | .ok (some response, store1) =>
        match Serialize response output with
        | (output1, some err) => ⟨output1, store1, .serializeError err⟩
        | (output1, none) => Connection.handleLoop mapUpper commandHandler steps rest output1 store1

/-- The method `Handle` on a run in which every `make` of the parser returns
(`Runtime.Handle` is the method with the outcome of `make`).  Every iteration
but the last reads at least one byte, so the loop makes at most
`length of the input + 1` iterations. -/
def Connection.Handle (mapUpper : List Nat → List Nat) (c : Connection)
    (store : MemoryStore) : HandleResult :=
  Connection.handleLoop mapUpper c.commandHandler (c.input.length + 1) c.input c.output store

/-! ## `server/server.go` -/

/-- The struct `Server`: the listener (`none` is `nil`), the tracked
connections by their handles, whether the channel `shutdown` is closed. -/
structure Server where
  address : List Nat
  port : Int
  listener : Option Nat
  commandHandler : CommandHandler
  connections : List Nat
  shutdownClosed : Bool
  running : Bool

/-- The function `NewServer`. -/
def NewServer (address : List Nat) (port : Int) : Server where
  address := address
  port := port
  listener := none
  commandHandler :=
    (NewCommandHandler.Register PingCommand.command).Register EchoCommand.command
  connections := []
  shutdownClosed := false
  running := false

/-! ## `server/server.go`: `Stop`; `serializer.go`: `SerializeToBytes` -/

/-- The method `Stop`: the server afterwards and the error returned, or the
panic of closing the closed channel `shutdown`.  `closeListener` is the result
of `Close` on the listener (`none` is `nil`).  `Close` on the tracked
connections acts on the connections, which are no part of the `Server`. -/
def Server.Stop (closeListener : Nat → Option (List Nat)) (s : Server) :
    Except Panic (Server × Option (List Nat)) :=
  if s.running = false then .ok (s, none)
  else
    match s.listener.bind closeListener with
    | some err =>
      .ok ({ s with running := false }, some (ascii "failed to close listener: " ++ err))
    | none =>
      if s.shutdownClosed then .error .closeOfClosedChannel
      else .ok ({ s with running := false, shutdownClosed := true }, none)

/-- The function `SerializeToBytes`: the bytes of `SerializeToString`; with
an error the result is `nil`. -/
def SerializeToBytes (message : Message) : Except SerializeError (List Nat) :=
  match SerializeToString message with
  | .error err => .error err
  | .ok str => .ok str

/-- The error is, or wraps, the mark of a run of `ParseN` that reached its
depth bound. -/
def ParseError.reachedDepth : ParseError → Bool
  | .depthExhausted => true
  | .arrayElement _ err => err.reachedDepth
  | _ => false

/-! ## `parser.go` and `connection.go` with the outcome of `make` -/

/-- What the Go runtime does when the parser calls `make` with a declared
length: `true` when `make` returns the slice, `false` when it does not return
(the panic `makeslice: len out of range`, or the fatal error `out of memory`).
The runtime is no part of the repository. -/
structure Runtime where
  /-- Whether `make([]byte, n)` returns. -/
  makeBytes : Nat → Bool
  /-- Whether `make([]*Message, n)` returns. -/
  makeMessages : Nat → Bool

/-- The check of `runtime.makeslice` on a 64-bit platform whose allocation
limit is `maxAlloc` bytes: the size of the slice, `len` times the size of an
element (1 for a byte, 8 for a pointer), must fit a `uintptr` and must not
exceed `maxAlloc`.  The memory of a slice that passes the check is taken to
be there. -/
def Runtime.ofMaxAlloc (maxAlloc : Nat) : Runtime where
  makeBytes := fun n => decide (n < 2 ^ 64 ∧ n ≤ maxAlloc)
  makeMessages := fun n => decide (8 * n < 2 ^ 64 ∧ 8 * n ≤ maxAlloc)

/-- The runtime of linux/amd64: 48 bits of heap address, `maxAlloc = 2^48`. -/
def Runtime.amd64 : Runtime := Runtime.ofMaxAlloc (2 ^ 48)

/-- The method `parseBulkString` with the outcome of `make([]byte, length)`:
the panic, or what the method returns. -/
def Runtime.parseBulkString (rt : Runtime) (input : List Nat) :
    Except Panic (ParseResult Message) :=
  match readLine input with
  | .error e => .ok (.error (.readBulkStringLength e))
  | .ok (line, rest) =>
    match Atoi line with
    | .error _ => .ok (.error (.invalidBulkStringLengthText line))
    | .ok length =>
      if length = -1 then .ok (.ok (NewNullBulkString, rest))
      else if length < 0 then .ok (.error (.invalidBulkStringLength length))
      else if rt.makeBytes length.toNat = false then .error .makeslice
      else
        match ReadFull length.toNat rest with
        | .error e => .ok (.error (.readBulkStringData e))
        | .ok (data, rest1) =>
          match expectCRLF rest1 with
          | .error e => .ok (.error (.missingCRLF e))
          | .ok rest2 => .ok (.ok (NewBulkString data, rest2))

/-- The loop of `parseArray` where `parse` may panic: `n` more elements, the
next one having index `i`. -/
def Runtime.parseElements (parse : List Nat → Except Panic (ParseResult Message)) :
    Nat → Nat → List Nat → Except Panic (ParseResult (List Message))
  | 0, _, input => .ok (.ok ([], input))
  | n + 1, i, input =>
    match parse input with
    | .error p => .error p
    | .ok (.error e) => .ok (.error (.arrayElement i e))
    | .ok (.ok (element, rest)) =>
      match Runtime.parseElements parse n (i + 1) rest with
      | .error p => .error p
      | .ok (.error e) => .ok (.error e)
      | .ok (.ok (elements, rest1)) => .ok (.ok (element :: elements, rest1))

/-- The method `parseArray` with the outcome of `make([]*Message, length)`,
which precedes the loop; `parse` is the method `Parse` it calls for each
element. -/
def Runtime.parseArray (rt : Runtime) (parse : List Nat → Except Panic (ParseResult Message))
    (input : List Nat) : Except Panic (ParseResult Message) :=
  match readLine input with
  | .error e => .ok (.error (.readArrayLength e))
  | .ok (line, rest) =>
    match Atoi line with
    | .error _ => .ok (.error (.invalidArrayLengthText line))
    | .ok length =>
      if length = -1 then .ok (.ok (NewNullArray, rest))
      else if length < 0 then .ok (.error (.invalidArrayLength length))
      else if rt.makeMessages length.toNat = false then .error .makeslice
      else
        match Runtime.parseElements parse length.toNat 0 rest with
        | .error p => .error p
        | .ok (.error e) => .ok (.error e)
        | .ok (.ok (elements, rest1)) => .ok (.ok (NewArray elements, rest1))

/-- The body of the method `Parse` with the outcome of `make`; `parse` stands
for the method itself where `parseArray` calls it. -/
def Runtime.parseMessage (rt : Runtime) (parse : List Nat → Except Panic (ParseResult Message))
    (input : List Nat) : Except Panic (ParseResult Message) :=
  match ReadByte input with
  | .error e => .ok (.error (.readMessageType e))
  | .ok (typeByte, rest) =>
    if typeByte = 43 then .ok (parseSimpleString rest)
    else if typeByte = 45 then .ok (parseError rest)
    else if typeByte = 58 then .ok (parseInteger rest)
    else if typeByte = 36 then rt.parseBulkString rest
    else if typeByte = 42 then rt.parseArray parse rest
    else .ok (.error (.invalidMessageType typeByte))

/-- The method `Parse` with the outcome of `make`, the nesting of arrays
bounded by `depth`. -/
def Runtime.ParseN (rt : Runtime) : Nat → List Nat → Except Panic (ParseResult Message)
  | 0 => fun _ => .ok (.error .depthExhausted)
  | depth + 1 => rt.parseMessage (Runtime.ParseN rt depth)

/-- The method `Parse` with the outcome of `make`: the panic of a `make` that
does not return, or the error or the message (with the stream left unread)
that `Parse` returns. -/
def Runtime.Parse (rt : Runtime) (input : List Nat) : Except Panic (ParseResult Message) :=
  rt.ParseN (input.length + 1) input

/-- The function `ParseString` with the outcome of `make`. -/
def Runtime.ParseString (rt : Runtime) (input : List Nat) :
    Except Panic (Except ParseError Message) :=
  match rt.Parse input with
  | .error p => .error p
  | .ok (.error e) => .ok (.error e)
  | .ok (.ok (m, _)) => .ok (.ok m)

/-- The loop of `Handle` with the outcome of `make`: `Handle` has no
`recover`, so a panic inside `Parse` ends the loop, and the process, as a
panic. -/
def Runtime.handleLoop (rt : Runtime) (mapUpper : List Nat → List Nat)
    (commandHandler : CommandHandler) : Nat → List Nat → List Nat → MemoryStore → HandleResult
  | 0, _, output, store => ⟨output, store, .stepsExhausted⟩
  | steps + 1, input, output, store =>
    match rt.Parse input with
    | .error p => ⟨output, store, .panic p⟩
    | .ok (.error err) => ⟨output, store, .parseError err⟩
    | .ok (.ok (message, rest)) =>
      match Connection.processCommand mapUpper ⟨rest, output, commandHandler⟩ store message with
      | .error p => ⟨output, store, .panic p⟩
      | .ok (none, store1) => ⟨output, store1, .panic .nilPointerDereference⟩
      | .ok (some response, store1) =>
        match Serialize response output with
        | (output1, some err) => ⟨output1, store1, .serializeError err⟩
        | (output1, none) =>
          Runtime.handleLoop rt mapUpper commandHandler steps rest output1 store1

/-- The method `Handle` with the outcome of `make`. -/
def Runtime.Handle (rt : Runtime) (mapUpper : List Nat → List Nat) (c : Connection)
    (store : MemoryStore) : HandleResult :=
  rt.handleLoop mapUpper c.commandHandler (c.input.length + 1) c.input c.output store

/-- The frames `ms` are parsed one after the other from `body` by `Parse` with
the outcome of `make`, none of them with a panic, leaving `rest`. -/
def Runtime.Frames (rt : Runtime) : List Nat → List Message → List Nat → Prop
  | body, [], rest => body = rest
  | body, m :: ms, rest => ∃ r, rt.Parse body = .ok (.ok (m, r)) ∧ Runtime.Frames rt r ms rest

/-! ## Notions used to state the properties of the connection loop -/

/-- The serialized responses to the requests `ms`, processed in order, each
against the store the previous ones left, and the store left at the end;
`none` when a command panics or a response is missing or is refused by the
serializer. -/
def responses (mapUpper : List Nat → List Nat) (commandHandler : CommandHandler) :
    List Message → MemoryStore → Option (List (List Nat) × MemoryStore)
  | [], store => some ([], store)
  | m :: ms, store =>
    match Connection.processCommand mapUpper ⟨[], [], commandHandler⟩ store m with
    | .ok (some response, store1) =>
      match SerializeToString response with
      | .ok s =>
        match responses mapUpper commandHandler ms store1 with
        | some (outs, store2) => some (s :: outs, store2)
        | none => none
      | .error _ => none
    | _ => none

/-! ## Notions used to state the properties of the serializer -/

mutual
/-- No simple string and no error inside the message, at any depth, contains
CR or LF. -/
def Message.Serializable : Message → Prop
  | .SimpleString value => ¬ (CR ∈ value ∨ LF ∈ value)
  | .Error value => ¬ (CR ∈ value ∨ LF ∈ value)
  | .Integer _ => True
  | .BulkString _ => True
  | .Array none => True
  | .Array (some array) => SerializableList array
/-- Every message of the list satisfies `Message.Serializable`. -/
def SerializableList : List Message → Prop
  | [] => True
  | m :: ms => m.Serializable ∧ SerializableList ms
end

/-! ## Decimal numerals -/

theorem digitsValueFrom_append (n : Nat) (s : List Nat) (c : Nat) :
    digitsValueFrom n (s ++ [c]) = digitsValueFrom n s * 10 + (c - 48) := by
  simp [digitsValueFrom, List.foldl_append]

theorem digitsValueFrom_cons (n : Nat) (s : List Nat) (c : Nat) :
    digitsValueFrom n (c :: s) = digitsValueFrom (n * 10 + (c - 48)) s := by
  simp [digitsValueFrom]

theorem le_digitsValueFrom (n : Nat) (s : List Nat) : n ≤ digitsValueFrom n s := by
  induction s generalizing n with
  | nil => simp [digitsValueFrom]
  | cons c cs ih =>
    rw [digitsValueFrom_cons]
    have := ih (n * 10 + (c - 48))
    omega

theorem parseUintLoop_digits (cs : List Nat) (n : Nat) (hn : n < 2 ^ 64)
    (hd : ∀ c ∈ cs, IsDigit c) :
    parseUintLoop cs n =
      if digitsValueFrom n cs < 2 ^ 64 then .ok (digitsValueFrom n cs) else .error .ErrRange := by
  induction cs generalizing n with
  | nil =>
    simp only [parseUintLoop, digitsValueFrom, List.foldl_nil]
    rw [if_pos hn]
  | cons c cs ih =>
    have hc : 48 ≤ c ∧ c ≤ 57 := hd c (List.mem_cons_self _ _)
    have hc1 : 48 ≤ c := hc.1
    have hc2 : c ≤ 57 := hc.2
    have hd2 : ∀ x ∈ cs, IsDigit x := fun x hx => hd x (List.mem_cons_of_mem _ hx)
    have hle := le_digitsValueFrom (n * 10 + (c - 48)) cs
    rw [digitsValueFrom_cons]
    unfold parseUintLoop
    simp only [hc, and_self, if_true]
    norm_num at hn ⊢
    by_cases h1 : 1844674407370955162 ≤ n
    · have : ¬ digitsValueFrom (n * 10 + (c - 48)) cs < 18446744073709551616 := by omega
      simp [h1, this]
    · simp only [h1, if_false]
      have e10 : n * 10 % 18446744073709551616 = n * 10 := Nat.mod_eq_of_lt (by omega)
      rw [e10]
      by_cases h2 : n * 10 + (c - 48) < 18446744073709551616
      · have e1 : (n * 10 + (c - 48)) % 18446744073709551616 = n * 10 + (c - 48) :=
          Nat.mod_eq_of_lt h2
        rw [e1]
        have h3 : ¬ (n * 10 + (c - 48) < n * 10 ∨ 18446744073709551615 < n * 10 + (c - 48)) := by
          omega
        simp only [h3, if_false]
        have := ih (n * 10 + (c - 48)) (by norm_num; exact h2) hd2
        norm_num at this
        exact this
      · have h3 : (n * 10 + (c - 48)) % 18446744073709551616 < n * 10 ∨
            18446744073709551615 < (n * 10 + (c - 48)) % 18446744073709551616 := by
          left; omega
        have : ¬ digitsValueFrom (n * 10 + (c - 48)) cs < 18446744073709551616 := by omega
        simp [h3, this]

theorem parseUintLoop_ok_digits (cs : List Nat) (n v : Nat)
    (h : parseUintLoop cs n = .ok v) : ∀ c ∈ cs, IsDigit c := by
  induction cs generalizing n with
  | nil => simp
  | cons c cs ih =>
    unfold parseUintLoop at h
    by_cases hc : 48 ≤ c ∧ c ≤ 57
    · simp only [hc, and_self, if_true] at h
      split at h
      · cases h
      · split at h
        · cases h
        · intro x hx
          rcases List.mem_cons.1 hx with rfl | hx
          · exact hc
          · exact ih _ h x hx
    · simp only [hc, if_false] at h
      cases h

theorem ParseUint_ok_iff (s : List Nat) (v : Nat) :
    ParseUint s = .ok v ↔
      s ≠ [] ∧ (∀ c ∈ s, IsDigit c) ∧ digitsValue s = v ∧ v < 2 ^ 64 := by
  unfold ParseUint
  by_cases hs : s = []
  · simp [hs]
  · simp only [hs, if_false, ne_eq, not_false_eq_true, true_and]
    constructor
    · intro h
      have hd := parseUintLoop_ok_digits s 0 v h
      rw [parseUintLoop_digits s 0 (by norm_num) hd] at h
      split at h
      · rename_i hlt
        simp only [Except.ok.injEq] at h
        exact ⟨hd, h, by rw [← h]; exact hlt⟩
      · cases h
    · rintro ⟨hd, rfl, hv⟩
      rw [parseUintLoop_digits s 0 (by norm_num) hd]
      simp only [digitsValue] at hv
      rw [if_pos hv]
      rfl

theorem ParseInt_ok_iff (s : List Nat) (v : Int) :
    ParseInt s = .ok v ↔ Numeral s v ∧ IsInt64 v := by
  constructor
  · intro h
    cases s with
    | nil => simp [ParseInt] at h
    | cons c cs =>
      simp only [ParseInt] at h
      cases hu : ParseUint (if c = 43 then cs else if c = 45 then cs else c :: cs) with
      | error e => rw [hu] at h; cases h
      | ok un =>
        rw [hu] at h
        obtain ⟨hne, hd, hval, _⟩ := (ParseUint_ok_iff _ un).1 hu
        simp only [decide_eq_false_iff_not, decide_eq_true_eq] at h
        by_cases h43 : c = 43
        · subst h43
          simp only [if_true] at hne hd hval
          norm_num at h
          split at h
          · cases h
          · rename_i hlt
            simp only [Except.ok.injEq] at h
            subst h
            refine ⟨⟨cs, hne, hd, Or.inl ⟨Or.inr rfl, by rw [hval]⟩⟩, ?_⟩
            unfold IsInt64
            omega
        · by_cases h45 : c = 45
          · subst h45
            simp only [if_true] at hne hd hval
            norm_num at h hne hd hval
            split at h
            · cases h
            · rename_i hlt
              simp only [Except.ok.injEq] at h
              subst h
              refine ⟨⟨cs, hne, hd, Or.inr ⟨rfl, by rw [hval]⟩⟩, ?_⟩
              unfold IsInt64
              omega
          · simp only [h43, h45, if_false] at hne hd hval
            simp only [h45, false_and, if_false, not_false_eq_true, true_and] at h
            split at h
            · cases h
            · rename_i hlt
              simp only [Bool.false_eq_true, if_false, Except.ok.injEq] at h
              subst h
              refine ⟨⟨c :: cs, hne, hd, Or.inl ⟨Or.inl rfl, by rw [hval]⟩⟩, ?_⟩
              unfold IsInt64
              omega
  · rintro ⟨⟨digits, hne, hd, hcase⟩, hlo, hhi⟩
    obtain ⟨c, cs, rfl⟩ := List.exists_cons_of_ne_nil hne
    have hc : 48 ≤ c ∧ c ≤ 57 := hd c (List.mem_cons_self _ _)
    have hc43 : ¬ c = 43 := by omega
    have hc45 : ¬ c = 45 := by omega
    have hu : ParseUint (c :: cs) = .ok (digitsValue (c :: cs)) := by
      refine (ParseUint_ok_iff _ _).2 ⟨hne, hd, rfl, ?_⟩
      rcases hcase with ⟨_, rfl⟩ | ⟨_, rfl⟩ <;> omega
    rcases hcase with ⟨hline | hline, rfl⟩ | ⟨hline, rfl⟩
    · subst hline
      have h9 : digitsValue (c :: cs) < 9223372036854775808 := by omega
      simp [ParseInt, hc43, hc45, hu, h9]
    · subst hline
      have h9 : digitsValue (c :: cs) < 9223372036854775808 := by omega
      simp [ParseInt, hu, h9]
    · subst hline
      have h9 : ¬ (9223372036854775808 < digitsValue (c :: cs)) := by omega
      simp [ParseInt, hu, h9]

theorem decimalAux_spec (fuel n : Nat) (h : n < fuel) :
    decimalAux fuel n ≠ [] ∧ (∀ c ∈ decimalAux fuel n, IsDigit c) ∧
      digitsValue (decimalAux fuel n) = n := by
  induction fuel generalizing n with
  | zero => omega
  | succ fuel ih =>
    unfold decimalAux
    by_cases h10 : n < 10
    · simp only [h10, if_true]
      refine ⟨by simp, ?_, ?_⟩
      · intro c hc
        simp only [List.mem_singleton] at hc
        subst hc
        unfold IsDigit
        omega
      · simp [digitsValue, digitsValueFrom]
    · simp only [h10, if_false]
      obtain ⟨_, hd, hv⟩ := ih (n / 10) (by omega)
      refine ⟨by simp, ?_, ?_⟩
      · intro c hc
        rcases List.mem_append.1 hc with hc | hc
        · exact hd c hc
        · simp only [List.mem_singleton] at hc
          subst hc
          unfold IsDigit
          omega
      · unfold digitsValue at hv ⊢
        rw [digitsValueFrom_append, hv]
        omega

theorem decimal_ne_nil (n : Nat) : decimal n ≠ [] :=
  (decimalAux_spec (n + 1) n (Nat.lt_succ_self n)).1

theorem decimal_digits (n : Nat) : ∀ c ∈ decimal n, IsDigit c :=
  (decimalAux_spec (n + 1) n (Nat.lt_succ_self n)).2.1

theorem digitsValue_decimal (n : Nat) : digitsValue (decimal n) = n :=
  (decimalAux_spec (n + 1) n (Nat.lt_succ_self n)).2.2

theorem Numeral_formatInt (n : Int) : Numeral (formatInt n) n := by
  unfold formatInt
  by_cases hn : n < 0
  · simp only [hn, if_true]
    exact ⟨decimal n.natAbs, decimal_ne_nil _, decimal_digits _,
      Or.inr ⟨rfl, by rw [digitsValue_decimal]; omega⟩⟩
  · simp only [hn, if_false]
    exact ⟨decimal n.natAbs, decimal_ne_nil _, decimal_digits _,
      Or.inl ⟨Or.inl rfl, by rw [digitsValue_decimal]; omega⟩⟩

theorem Numeral_unique (line : List Nat) (v w : Int) (hv : Numeral line v)
    (hw : Numeral line w) : v = w := by
  obtain ⟨d1, hne1, hd1, h1⟩ := hv
  obtain ⟨d2, hne2, hd2, h2⟩ := hw
  obtain ⟨c1, t1, rfl⟩ := List.exists_cons_of_ne_nil hne1
  obtain ⟨c2, t2, rfl⟩ := List.exists_cons_of_ne_nil hne2
  have hc1 : 48 ≤ c1 ∧ c1 ≤ 57 := hd1 c1 (List.mem_cons_self _ _)
  have hc2 : 48 ≤ c2 ∧ c2 ≤ 57 := hd2 c2 (List.mem_cons_self _ _)
  rcases h1 with ⟨rfl | rfl, rfl⟩ | ⟨rfl, rfl⟩ <;>
    rcases h2 with ⟨h | h, rfl⟩ | ⟨h, rfl⟩ <;>
    simp at h <;>
    first
      | (obtain ⟨rfl, rfl⟩ := h; rfl)
      | (exfalso; obtain ⟨h3, _⟩ := h; omega)

theorem ParseInt_formatInt (n : Int) (h : IsInt64 n) : ParseInt (formatInt n) = .ok n :=
  (ParseInt_ok_iff _ _).2 ⟨Numeral_formatInt n, h⟩

theorem ParseInt_formatInt_error (n : Int) (h : ¬ IsInt64 n) :
    ∃ e, ParseInt (formatInt n) = .error e := by
  cases hp : ParseInt (formatInt n) with
  | error e => exact ⟨e, rfl⟩
  | ok v =>
    obtain ⟨hnum, hr⟩ := (ParseInt_ok_iff _ _).1 hp
    rw [Numeral_unique _ _ _ hnum (Numeral_formatInt n)] at hr
    exact absurd hr h

theorem Numeral_not_mem (line : List Nat) (v : Int) (h : Numeral line v) (b : Nat)
    (hb : b ≠ 43 ∧ b ≠ 45 ∧ ¬ IsDigit b) : b ∉ line := by
  obtain ⟨digits, _, hd, hcase⟩ := h
  have hnd : b ∉ digits := fun hm => hb.2.2 (hd b hm)
  rcases hcase with ⟨rfl | rfl, _⟩ | ⟨rfl, _⟩
  · exact hnd
  · simp only [List.mem_cons, not_or]; exact ⟨hb.1, hnd⟩
  · simp only [List.mem_cons, not_or]; exact ⟨hb.2.1, hnd⟩

theorem formatInt_not_mem_LF (n : Int) : LF ∉ formatInt n :=
  Numeral_not_mem _ _ (Numeral_formatInt n) LF (by unfold IsDigit LF; omega)

/-! ## Reading lines -/

theorem ReadString_append (d : Nat) (s rest : List Nat) (h : d ∉ s) :
    ReadString d (s ++ d :: rest) = .ok (s ++ [d], rest) := by
  induction s with
  | nil => simp [ReadString]
  | cons b bs ih =>
    simp only [List.mem_cons, not_or] at h
    have hb : ¬ b = d := fun e => h.1 e.symm
    simp [ReadString, hb, ih h.2]

theorem ReadString_not_mem (d : Nat) (input : List Nat) (h : d ∉ input) :
    ReadString d input = .error .EOF := by
  induction input with
  | nil => simp [ReadString]
  | cons b bs ih =>
    simp only [List.mem_cons, not_or] at h
    have hb : ¬ b = d := fun e => h.1 e.symm
    simp [ReadString, hb, ih h.2]

theorem ReadString_ok_iff (d : Nat) (input line rest : List Nat) :
    ReadString d input = .ok (line, rest) ↔
      ∃ s, line = s ++ [d] ∧ d ∉ s ∧ input = s ++ d :: rest := by
  constructor
  · intro h
    by_cases hm : d ∈ input
    · obtain ⟨s, r, rfl, hs⟩ := List.eq_append_cons_of_mem hm
      rw [ReadString_append d s r hs] at h
      simp only [Except.ok.injEq, Prod.mk.injEq] at h
      exact ⟨s, h.1.symm, hs, by rw [h.2]⟩
    · rw [ReadString_not_mem d input hm] at h
      cases h
  · rintro ⟨s, rfl, hs, rfl⟩
    exact ReadString_append d s rest hs

theorem readLine_append (line rest : List Nat) (h : LF ∉ line) :
    readLine (line ++ CR :: LF :: rest) = .ok (line, rest) := by
  have h1 : LF ∉ line ++ [CR] := by simp [h]
  have h2 : line ++ CR :: LF :: rest = (line ++ [CR]) ++ LF :: rest := by simp
  unfold readLine
  rw [h2, ReadString_append LF _ rest h1]
  simp

theorem readLine_ok_iff (input line rest : List Nat) :
    readLine input = .ok (line, rest) ↔ LF ∉ line ∧ input = line ++ CR :: LF :: rest := by
  constructor
  · intro h
    unfold readLine at h
    cases hrs : ReadString LF input with
    | error e => rw [hrs] at h; cases h
    | ok r =>
      obtain ⟨l, r1⟩ := r
      rw [hrs] at h
      obtain ⟨s, rfl, hs, rfl⟩ := (ReadString_ok_iff LF input l r1).1 hrs
      simp only at h
      split at h
      · cases h
      · rename_i hc
        simp only [not_or, not_lt, ne_eq, not_not] at hc
        simp only [Except.ok.injEq, Prod.mk.injEq] at h
        obtain ⟨h1, rfl⟩ := h
        rcases List.eq_nil_or_concat s with rfl | ⟨t, c, rfl⟩
        · simp at hc
        · have hl : (t.concat c ++ [LF]).length - 2 = t.length := by simp
          have he : t.concat c ++ [LF] = t ++ [c, LF] := by simp
          have hd := hc.2
          rw [hl, he, List.drop_left] at hd
          rw [hl, he, List.take_left] at h1
          simp only [List.cons.injEq, and_true] at hd
          subst hd
          subst h1
          simp only [List.concat_eq_append, List.mem_append, not_or] at hs
          exact ⟨hs.1, by simp⟩
  · rintro ⟨h, rfl⟩
    exact readLine_append line rest h

theorem readLine_error_of_not_mem (input : List Nat) (h : LF ∉ input) :
    readLine input = .error (.read .EOF) := by
  unfold readLine
  rw [ReadString_not_mem LF input h]

/-! ## The depth bound of `ParseN` is never reached by `Parse` -/

theorem readLine_length (input line rest : List Nat) (h : readLine input = .ok (line, rest)) :
    rest.length + 2 ≤ input.length := by
  obtain ⟨_, rfl⟩ := (readLine_ok_iff input line rest).1 h
  simp

theorem parseSimpleString_length (input : List Nat) (m : Message) (r : List Nat)
    (h : parseSimpleString input = .ok (m, r)) : r.length ≤ input.length := by
  unfold parseSimpleString at h
  cases hl : readLine input with
  | error e => rw [hl] at h; cases h
  | ok p =>
    obtain ⟨line, rest⟩ := p
    rw [hl] at h
    simp only [Except.ok.injEq, Prod.mk.injEq] at h
    have := readLine_length _ _ _ hl
    rw [← h.2]; omega

theorem parseError_length (input : List Nat) (m : Message) (r : List Nat)
    (h : parseError input = .ok (m, r)) : r.length ≤ input.length := by
  unfold parseError at h
  cases hl : readLine input with
  | error e => rw [hl] at h; cases h
  | ok p =>
    obtain ⟨line, rest⟩ := p
    rw [hl] at h
    simp only [Except.ok.injEq, Prod.mk.injEq] at h
    have := readLine_length _ _ _ hl
    rw [← h.2]; omega

theorem parseInteger_length (input : List Nat) (m : Message) (r : List Nat)
    (h : parseInteger input = .ok (m, r)) : r.length ≤ input.length := by
  unfold parseInteger at h
  cases hl : readLine input with
  | error e => rw [hl] at h; cases h
  | ok p =>
    obtain ⟨line, rest⟩ := p
    rw [hl] at h
    have := readLine_length _ _ _ hl
    cases hp : ParseInt line with
    | error e => simp only [hp] at h; cases h
    | ok v =>
      simp only [hp, Except.ok.injEq, Prod.mk.injEq] at h
      rw [← h.2]; omega

theorem expectCRLF_ok_iff (input rest : List Nat) :
    expectCRLF input = .ok rest ↔ input = CR :: LF :: rest := by
  unfold expectCRLF ReadByte
  cases input with
  | nil => simp
  | cons a t =>
    cases t with
    | nil =>
      by_cases ha : a = CR <;> simp [ha]
    | cons b u =>
      by_cases ha : a = CR <;> by_cases hb : b = LF <;> simp [ha, hb]

theorem ReadFull_ok_iff (n : Nat) (input data rest : List Nat) :
    ReadFull n input = .ok (data, rest) ↔ data.length = n ∧ input = data ++ rest := by
  unfold ReadFull
  by_cases h : n ≤ input.length
  · simp only [h, if_true, Except.ok.injEq, Prod.mk.injEq]
    constructor
    · rintro ⟨rfl, rfl⟩
      exact ⟨by simp [h], (List.take_append_drop n input).symm⟩
    · rintro ⟨rfl, rfl⟩
      simp
  · simp only [h, if_false]
    constructor
    · intro h2
      split at h2 <;> cases h2
    · rintro ⟨rfl, rfl⟩
      simp at h

theorem parseBulkString_length (input : List Nat) (m : Message) (r : List Nat)
    (h : parseBulkString input = .ok (m, r)) : r.length ≤ input.length := by
  unfold parseBulkString at h
  cases hl : readLine input with
  | error e => rw [hl] at h; cases h
  | ok p =>
    obtain ⟨line, rest⟩ := p
    rw [hl] at h
    have := readLine_length _ _ _ hl
    cases hp : Atoi line with
    | error e => simp only [hp] at h; cases h
    | ok v =>
      simp only [hp] at h
      split at h
      · simp only [Except.ok.injEq, Prod.mk.injEq] at h
        rw [← h.2]; omega
      · split at h
        · cases h
        · cases hf : ReadFull v.toNat rest with
          | error e => simp only [hf] at h; cases h
          | ok q =>
            obtain ⟨data, rest1⟩ := q
            simp only [hf] at h
            obtain ⟨_, rfl⟩ := (ReadFull_ok_iff _ _ _ _).1 hf
            cases hc : expectCRLF rest1 with
            | error e => simp only [hc] at h; cases h
            | ok rest2 =>
              simp only [hc, Except.ok.injEq, Prod.mk.injEq] at h
              have hr := (expectCRLF_ok_iff _ _).1 hc
              subst hr
              simp only [List.length_append, List.length_cons] at this
              rw [← h.2]; omega

theorem parseElements_length (p : List Nat → ParseResult Message)
    (hp : ∀ y m r, p y = .ok (m, r) → r.length ≤ y.length)
    (n i : Nat) (input : List Nat) (ms : List Message) (r : List Nat)
    (h : parseElements p n i input = .ok (ms, r)) : r.length ≤ input.length := by
  induction n generalizing i input ms r with
  | zero =>
    simp only [parseElements, Except.ok.injEq, Prod.mk.injEq] at h
    rw [← h.2]
  | succ n ih =>
    unfold parseElements at h
    cases h1 : p input with
    | error e => simp only [h1] at h; cases h
    | ok q =>
      obtain ⟨element, rest⟩ := q
      simp only [h1] at h
      cases h2 : parseElements p n (i + 1) rest with
      | error e => simp only [h2] at h; cases h
      | ok q2 =>
        obtain ⟨elements, rest1⟩ := q2
        simp only [h2, Except.ok.injEq, Prod.mk.injEq] at h
        have a := hp _ _ _ h1
        have b := ih _ _ _ _ h2
        rw [← h.2]; omega

theorem parseArray_length (p : List Nat → ParseResult Message)
    (hp : ∀ y m r, p y = .ok (m, r) → r.length ≤ y.length)
    (input : List Nat) (m : Message) (r : List Nat)
    (h : parseArray p input = .ok (m, r)) : r.length ≤ input.length := by
  unfold parseArray at h
  cases hl : readLine input with
  | error e => rw [hl] at h; cases h
  | ok q =>
    obtain ⟨line, rest⟩ := q
    rw [hl] at h
    have := readLine_length _ _ _ hl
    cases ha : Atoi line with
    | error e => simp only [ha] at h; cases h
    | ok v =>
      simp only [ha] at h
      split at h
      · simp only [Except.ok.injEq, Prod.mk.injEq] at h
        rw [← h.2]; omega
      · split at h
        · cases h
        · cases he : parseElements p v.toNat 0 rest with
          | error e => simp only [he] at h; cases h
          | ok q2 =>
            obtain ⟨elements, rest1⟩ := q2
            simp only [he, Except.ok.injEq, Prod.mk.injEq] at h
            have := parseElements_length p hp _ _ _ _ _ he
            rw [← h.2]; omega

theorem parseMessage_length (p : List Nat → ParseResult Message)
    (hp : ∀ y m r, p y = .ok (m, r) → r.length ≤ y.length)
    (input : List Nat) (m : Message) (r : List Nat)
    (h : parseMessage p input = .ok (m, r)) : r.length < input.length := by
  cases input with
  | nil => simp [parseMessage, ReadByte] at h
  | cons b rest =>
    simp only [parseMessage, ReadByte] at h
    simp only [List.length_cons]
    apply Nat.lt_succ_of_le
    split at h
    · exact parseSimpleString_length _ _ _ h
    · split at h
      · exact parseError_length _ _ _ h
      · split at h
        · exact parseInteger_length _ _ _ h
        · split at h
          · exact parseBulkString_length _ _ _ h
          · split at h
            · exact parseArray_length _ hp _ _ _ h
            · cases h

theorem ParseN_length (d : Nat) (input : List Nat) (m : Message) (r : List Nat)
    (h : ParseN d input = .ok (m, r)) : r.length < input.length := by
  induction d generalizing input m r with
  | zero => simp [ParseN] at h
  | succ d ih =>
    exact parseMessage_length _ (fun y m r hy => Nat.le_of_lt (ih y m r hy)) _ _ _ h

theorem parseElements_congr (p q : List Nat → ParseResult Message) (L : Nat)
    (hpq : ∀ y, y.length ≤ L → p y = q y)
    (hp : ∀ y m r, p y = .ok (m, r) → r.length ≤ y.length)
    (n i : Nat) (input : List Nat) (hL : input.length ≤ L) :
    parseElements p n i input = parseElements q n i input := by
  induction n generalizing i input with
  | zero => simp [parseElements]
  | succ n ih =>
    unfold parseElements
    rw [← hpq input hL]
    cases h1 : p input with
    | error e => rfl
    | ok r =>
      obtain ⟨element, rest⟩ := r
      have := hp _ _ _ h1
      simp only
      rw [ih (i + 1) rest (by omega)]

theorem parseArray_congr (p q : List Nat → ParseResult Message) (input : List Nat)
    (hpq : ∀ y, y.length ≤ input.length → p y = q y)
    (hp : ∀ y m r, p y = .ok (m, r) → r.length ≤ y.length) :
    parseArray p input = parseArray q input := by
  unfold parseArray
  cases hl : readLine input with
  | error e => rfl
  | ok r =>
    obtain ⟨line, rest⟩ := r
    have := readLine_length _ _ _ hl
    have he : ∀ n, parseElements p n 0 rest = parseElements q n 0 rest :=
      fun n => parseElements_congr p q input.length hpq hp n 0 rest (by omega)
    simp only [he]

theorem parseMessage_congr (p q : List Nat → ParseResult Message) (input : List Nat)
    (hpq : ∀ y, y.length < input.length → p y = q y)
    (hp : ∀ y m r, p y = .ok (m, r) → r.length ≤ y.length) :
    parseMessage p input = parseMessage q input := by
  cases input with
  | nil => rfl
  | cons b rest =>
    simp only [parseMessage, ReadByte]
    rw [parseArray_congr p q rest
      (fun y hy => hpq y (by simp only [List.length_cons]; omega)) hp]

theorem ParseN_succ (d : Nat) (input : List Nat) (h : input.length < d) :
    ParseN (d + 1) input = ParseN d input := by
  induction d generalizing input with
  | zero => omega
  | succ d ih =>
    show parseMessage (ParseN (d + 1)) input = parseMessage (ParseN d) input
    exact parseMessage_congr _ _ input (fun y hy => ih y (by omega))
      (fun y m r hy => Nat.le_of_lt (ParseN_length _ y m r hy))

/-- Every depth bound above the length of the input gives the result of `Parse`. -/
theorem ParseN_eq_Parse (d : Nat) (input : List Nat) (h : input.length < d) :
    ParseN d input = Parse input := by
  unfold Parse
  induction d with
  | zero => omega
  | succ d ih =>
    by_cases hd : input.length < d
    · rw [ParseN_succ d input hd, ih hd]
    · have : d = input.length := by omega
      subst this
      rfl

/-- The method `Parse` satisfies the defining equation of `parser.go`: the
calls that `parseArray` makes are calls of `Parse` itself. -/
theorem Parse_eq (input : List Nat) : Parse input = parseMessage Parse input := by
  show parseMessage (ParseN input.length) input = parseMessage Parse input
  exact parseMessage_congr _ _ input (fun y hy => ParseN_eq_Parse _ y hy)
    (fun y m r hy => Nat.le_of_lt (ParseN_length _ y m r hy))

theorem Parse_nil : Parse [] = .error (.readMessageType .EOF) := rfl

theorem Parse_cons (typeByte : Nat) (rest : List Nat) :
    Parse (typeByte :: rest) =
      if typeByte = 43 then parseSimpleString rest
      else if typeByte = 45 then parseError rest
      else if typeByte = 58 then parseInteger rest
      else if typeByte = 36 then parseBulkString rest
      else if typeByte = 42 then parseArray Parse rest
      else .error (.invalidMessageType typeByte) := by
  rw [Parse_eq]
  rfl

theorem Parse_length (input : List Nat) (m : Message) (r : List Nat)
    (h : Parse input = .ok (m, r)) : r.length < input.length :=
  ParseN_length _ input m r h


/-! ## Parsing what the serializer writes -/

theorem containsCRLF_eq_false (value : List Nat) (h : CR ∉ value ∧ LF ∉ value) :
    containsCRLF value = false := by
  unfold containsCRLF
  rw [List.any_eq_false]
  intro b hb
  have h1 : b ≠ CR := fun e => h.1 (e ▸ hb)
  have h2 : b ≠ LF := fun e => h.2 (e ▸ hb)
  simp [h1, h2]

theorem containsCRLF_eq_true (value : List Nat) (h : CR ∈ value ∨ LF ∈ value) :
    containsCRLF value = true := by
  unfold containsCRLF
  rw [List.any_eq_true]
  rcases h with h | h
  · exact ⟨CR, h, by simp⟩
  · exact ⟨LF, h, by simp⟩

theorem parseSimpleString_append (line rest : List Nat) (h : LF ∉ line) :
    parseSimpleString (line ++ CR :: LF :: rest) = .ok (NewSimpleString line, rest) := by
  simp [parseSimpleString, readLine_append line rest h]

theorem parseError_append (line rest : List Nat) (h : LF ∉ line) :
    parseError (line ++ CR :: LF :: rest) = .ok (NewError line, rest) := by
  simp [parseError, readLine_append line rest h]

theorem parseInteger_append (line rest : List Nat) (h : LF ∉ line) :
    parseInteger (line ++ CR :: LF :: rest) =
      match ParseInt line with
      | .error _ => .error (.invalidIntegerFormat line)
      | .ok value => .ok (NewInteger value, rest) := by
  simp [parseInteger, readLine_append line rest h]

theorem parseBulkString_append (line rest : List Nat) (h : LF ∉ line) :
    parseBulkString (line ++ CR :: LF :: rest) =
      match Atoi line with
      | .error _ => .error (.invalidBulkStringLengthText line)
      | .ok length =>
        if length = -1 then .ok (NewNullBulkString, rest)
        else if length < 0 then .error (.invalidBulkStringLength length)
        else
          match ReadFull length.toNat rest with
          | .error e => .error (.readBulkStringData e)
          | .ok (data, rest1) =>
            match expectCRLF rest1 with
            | .error e => .error (.missingCRLF e)
            | .ok rest2 => .ok (NewBulkString data, rest2) := by
  simp [parseBulkString, readLine_append line rest h]

theorem parseArray_append (parse : List Nat → ParseResult Message) (line rest : List Nat)
    (h : LF ∉ line) :
    parseArray parse (line ++ CR :: LF :: rest) =
      match Atoi line with
      | .error _ => .error (.invalidArrayLengthText line)
      | .ok length =>
        if length = -1 then .ok (NewNullArray, rest)
        else if length < 0 then .error (.invalidArrayLength length)
        else
          match parseElements parse length.toNat 0 rest with
          | .error e => .error e
          | .ok (elements, rest1) => .ok (NewArray elements, rest1) := by
  simp [parseArray, readLine_append line rest h]

theorem Atoi_formatInt_length (n : Nat) (h : n < 2 ^ 63) :
    Atoi (formatInt (n : Int)) = .ok (n : Int) :=
  ParseInt_formatInt _ ⟨by omega, by omega⟩

theorem Parse_bulkString (value rest : List Nat) (h : value.length < 2 ^ 63) :
    Parse (36 :: formatInt value.length ++ [CR, LF] ++ value ++ [CR, LF] ++ rest) =
      .ok (NewBulkString value, rest) := by
  have e : 36 :: formatInt value.length ++ [CR, LF] ++ value ++ [CR, LF] ++ rest =
      36 :: (formatInt value.length ++ CR :: LF :: (value ++ CR :: LF :: rest)) := by simp
  have h1 : ¬ ((value.length : Int) = -1) := by omega
  have h2 : ¬ ((value.length : Int) < 0) := by omega
  have h3 : ReadFull value.length (value ++ CR :: LF :: rest) = .ok (value, CR :: LF :: rest) :=
    (ReadFull_ok_iff _ _ _ _).2 ⟨rfl, rfl⟩
  have h4 : expectCRLF (CR :: LF :: rest) = .ok rest := (expectCRLF_ok_iff _ _).2 rfl
  rw [e, Parse_cons]
  simp only [show ¬ (36 = 43) by decide, show ¬ (36 = 45) by decide,
    show ¬ (36 = 58) by decide, if_false, if_true]
  rw [parseBulkString_append _ _ (formatInt_not_mem_LF _), Atoi_formatInt_length _ h]
  simp only [h1, h2, if_false, Int.toNat_ofNat, h3, h4]

theorem parseElements_nil_error (parse : List Nat → ParseResult Message) (n i : Nat)
    (e : ParseError) (input : List Nat) (h : parse input = .error e) :
    parseElements parse (n + 1) i input = .error (.arrayElement i e) := by
  simp [parseElements, h]

theorem parseElements_cons (parse : List Nat → ParseResult Message) (n i : Nat)
    (m : Message) (input r : List Nat) (h : parse input = .ok (m, r)) :
    parseElements parse (n + 1) i input =
      match parseElements parse n (i + 1) r with
      | .error e => .error e
      | .ok (elements, rest1) => .ok (m :: elements, rest1) := by
  simp [parseElements, h]

theorem parseElements_of_Frames (ms : List Message) (i : Nat) (body rest : List Nat)
    (h : Frames body ms rest) :
    parseElements Parse ms.length i body = .ok (ms, rest) := by
  induction ms generalizing i body with
  | nil =>
    simp only [Frames] at h
    simp [parseElements, h]
  | cons m ms ih =>
    obtain ⟨r, h1, h2⟩ := h
    simp only [List.length_cons]
    rw [parseElements_cons Parse _ _ m body r h1, ih (i + 1) r h2]

theorem Parse_array_of_Frames (ms : List Message) (body rest : List Nat)
    (hlen : ms.length < 2 ^ 63) (h : Frames body ms rest) :
    Parse (42 :: formatInt ms.length ++ [CR, LF] ++ body) = .ok (NewArray ms, rest) := by
  have e : 42 :: formatInt ms.length ++ [CR, LF] ++ body =
      42 :: (formatInt ms.length ++ CR :: LF :: body) := by simp
  have h1 : ¬ ((ms.length : Int) = -1) := by omega
  have h2 : ¬ ((ms.length : Int) < 0) := by omega
  rw [e, Parse_cons]
  simp only [show ¬ (42 = 43) by decide, show ¬ (42 = 45) by decide,
    show ¬ (42 = 58) by decide, show ¬ (42 = 36) by decide, if_false, if_true]
  rw [parseArray_append _ _ _ (formatInt_not_mem_LF _), Atoi_formatInt_length _ hlen]
  simp only [h1, h2, if_false, Int.toNat_ofNat, parseElements_of_Frames ms 0 body rest h]

theorem Frames_append (ms ns : List Message) (a b c : List Nat)
    (h1 : Frames a ms b) (h2 : Frames b ns c) : Frames a (ms ++ ns) c := by
  induction ms generalizing a with
  | nil =>
    simp only [Frames] at h1
    subst h1
    exact h2
  | cons m ms ih =>
    obtain ⟨r, hp, hf⟩ := h1
    exact ⟨r, hp, ih r hf⟩

mutual
/-- The serializer accepts a well-formed message, appends a frame `s` to the
writer, and `Parse` reads the message back from `s` followed by anything. -/
theorem Serialize_Parse : ∀ (m : Message), m.WF →
    ∃ s, (∀ w, Serialize m w = (w ++ s, none)) ∧ ∀ rest, Parse (s ++ rest) = .ok (m, rest)
  | .SimpleString value, h => by
    simp only [Message.WF] at h
    refine ⟨43 :: value ++ [CR, LF], ?_, ?_⟩
    · intro w
      simp [Serialize, serializeSimpleString, containsCRLF_eq_false value h]
    · intro rest
      have e : 43 :: value ++ [CR, LF] ++ rest = 43 :: (value ++ CR :: LF :: rest) := by simp
      rw [e, Parse_cons, if_pos rfl, parseSimpleString_append _ _ h.2]
      rfl
  | .Error value, h => by
    simp only [Message.WF] at h
    refine ⟨45 :: value ++ [CR, LF], ?_, ?_⟩
    · intro w
      simp [Serialize, serializeError, containsCRLF_eq_false value h]
    · intro rest
      have e : 45 :: value ++ [CR, LF] ++ rest = 45 :: (value ++ CR :: LF :: rest) := by simp
      rw [e, Parse_cons, if_neg (by decide), if_pos rfl, parseError_append _ _ h.2]
      rfl
  | .Integer value, h => by
    simp only [Message.WF] at h
    refine ⟨58 :: formatInt value ++ [CR, LF], ?_, ?_⟩
    · intro w
      simp [Serialize, serializeInteger]
    · intro rest
      have e : 58 :: formatInt value ++ [CR, LF] ++ rest =
          58 :: (formatInt value ++ CR :: LF :: rest) := by simp
      rw [e, Parse_cons, if_neg (by decide), if_neg (by decide), if_pos rfl,
        parseInteger_append _ _ (formatInt_not_mem_LF _), ParseInt_formatInt _ h]
      rfl
  | .BulkString none, _ => by
    refine ⟨[36, 45, 49, CR, LF], ?_, ?_⟩
    · intro w
      simp [Serialize, serializeBulkString]
    · intro rest
      have e : [36, 45, 49, CR, LF] ++ rest = 36 :: ([45, 49] ++ CR :: LF :: rest) := by simp
      rw [e, Parse_cons, if_neg (by decide), if_neg (by decide), if_neg (by decide), if_pos rfl,
        parseBulkString_append _ _ (by decide)]
      rfl
  | .BulkString (some value), h => by
    simp only [Message.WF] at h
    refine ⟨36 :: formatInt value.length ++ [CR, LF] ++ value ++ [CR, LF], ?_, ?_⟩
    · intro w
      simp [Serialize, serializeBulkString]
    · intro rest
      exact Parse_bulkString value rest h
  | .Array none, _ => by
    refine ⟨[42, 45, 49, CR, LF], ?_, ?_⟩
    · intro w
      simp [Serialize]
    · intro rest
      have e : [42, 45, 49, CR, LF] ++ rest = 42 :: ([45, 49] ++ CR :: LF :: rest) := by simp
      rw [e, Parse_cons, if_neg (by decide), if_neg (by decide), if_neg (by decide),
        if_neg (by decide), if_pos rfl, parseArray_append _ _ _ (by decide)]
      rfl
  | .Array (some array), h => by
    simp only [Message.WF] at h
    obtain ⟨s, hs, hp⟩ := serializeElements_Frames array h.2
    refine ⟨42 :: formatInt array.length ++ [CR, LF] ++ s, ?_, ?_⟩
    · intro w
      simp [Serialize, hs]
    · intro rest
      have e : 42 :: formatInt array.length ++ [CR, LF] ++ s ++ rest =
          42 :: formatInt array.length ++ [CR, LF] ++ (s ++ rest) := by simp
      rw [e]
      exact Parse_array_of_Frames array (s ++ rest) rest h.1 (hp rest)
/-- The loop of `serializeArray` appends frames that parse back one after the
other. -/
theorem serializeElements_Frames : ∀ (ms : List Message), WFList ms →
    ∃ s, (∀ i w, serializeElements ms i w = (w ++ s, none)) ∧
      ∀ rest, Frames (s ++ rest) ms rest
  | [], _ => ⟨[], by intro i w; simp [serializeElements], by intro rest; simp [Frames]⟩
  | m :: ms, h => by
    simp only [WFList] at h
    obtain ⟨s1, hs1, hp1⟩ := Serialize_Parse m h.1
    obtain ⟨s2, hs2, hp2⟩ := serializeElements_Frames ms h.2
    refine ⟨s1 ++ s2, ?_, ?_⟩
    · intro i w
      simp [serializeElements, hs1, hs2]
    · intro rest
      refine ⟨s2 ++ rest, ?_, hp2 rest⟩
      rw [List.append_assoc]
      exact hp1 (s2 ++ rest)
end


theorem formatInt_natCast (n : Nat) : formatInt (n : Int) = decimal n := by
  unfold formatInt
  have h : ¬ ((n : Int) < 0) := by omega
  simp [h]

theorem decimal_not_mem_LF (n : Nat) : LF ∉ decimal n := by
  rw [← formatInt_natCast]
  exact formatInt_not_mem_LF _

theorem Atoi_decimal (n : Nat) (h : n < 2 ^ 63) : Atoi (decimal n) = .ok (n : Int) := by
  rw [← formatInt_natCast]
  exact Atoi_formatInt_length n h

theorem Atoi_decimal_error (n : Nat) (h : 2 ^ 63 ≤ n) : ∃ e, Atoi (decimal n) = .error e := by
  rw [← formatInt_natCast]
  exact ParseInt_formatInt_error _ (by unfold IsInt64; omega)

theorem Frames_of_parseElements (n i : Nat) (body : List Nat) (ms : List Message)
    (rest : List Nat) (h : parseElements Parse n i body = .ok (ms, rest)) :
    ms.length = n ∧ Frames body ms rest := by
  induction n generalizing i body ms with
  | zero =>
    simp only [parseElements, Except.ok.injEq, Prod.mk.injEq] at h
    obtain ⟨rfl, rfl⟩ := h
    exact ⟨rfl, rfl⟩
  | succ n ih =>
    unfold parseElements at h
    cases h1 : Parse body with
    | error e => simp only [h1] at h; cases h
    | ok q =>
      obtain ⟨element, r⟩ := q
      simp only [h1] at h
      cases h2 : parseElements Parse n (i + 1) r with
      | error e => simp only [h2] at h; cases h
      | ok q2 =>
        obtain ⟨elements, rest1⟩ := q2
        simp only [h2, Except.ok.injEq, Prod.mk.injEq] at h
        obtain ⟨rfl, rfl⟩ := h
        obtain ⟨hl, hf⟩ := ih _ _ _ h2
        exact ⟨by simp [hl], r, h1, hf⟩

theorem parseElements_error_of_Frames (ms : List Message) (n i : Nat) (body r : List Nat)
    (e : ParseError) (hf : Frames body ms r) (he : Parse r = .error e) (hn : ms.length < n) :
    parseElements Parse n i body = .error (.arrayElement (i + ms.length) e) := by
  induction ms generalizing n i body with
  | nil =>
    simp only [Frames] at hf
    subst hf
    obtain ⟨k, rfl⟩ : ∃ k, n = k + 1 := ⟨n - 1, by simp at hn; omega⟩
    simp [parseElements, he]
  | cons m ms ih =>
    obtain ⟨r1, h1, h2⟩ := hf
    simp only [List.length_cons] at hn
    obtain ⟨k, rfl⟩ : ∃ k, n = k + 1 := ⟨n - 1, by omega⟩
    rw [parseElements_cons Parse _ _ m body r1 h1, ih k (i + 1) r1 h2 (by omega)]
    simp only [List.length_cons]
    have : i + 1 + ms.length = i + (ms.length + 1) := by omega
    rw [this]

theorem Frames_length (ms : List Message) (body rest : List Nat) (h : Frames body ms rest) :
    ms.length + rest.length ≤ body.length := by
  induction ms generalizing body with
  | nil =>
    simp only [Frames] at h
    subst h
    simp
  | cons m ms ih =>
    obtain ⟨r, h1, h2⟩ := h
    have a := Parse_length _ _ _ h1
    have b := ih r h2
    simp only [List.length_cons]
    omega

theorem drop_eq_cons_cons (data : List Nat) (n a b : Nat) (rest : List Nat) :
    data.drop n = a :: b :: rest ↔
      data[n]? = some a ∧ data[n + 1]? = some b ∧ rest = data.drop (n + 2) := by
  induction n generalizing data with
  | zero =>
    cases data with
    | nil => simp
    | cons x t =>
      cases t with
      | nil => simp
      | cons y u =>
        simp only [List.drop_zero, List.cons.injEq, List.getElem?_cons_zero, Option.some.injEq,
          zero_add, List.getElem?_cons_succ, List.drop_succ_cons]
        constructor
        · rintro ⟨rfl, rfl, rfl⟩; exact ⟨rfl, rfl, rfl⟩
        · rintro ⟨rfl, rfl, rfl⟩; exact ⟨rfl, rfl, rfl⟩
  | succ n ih =>
    cases data with
    | nil => simp
    | cons x t =>
      simp only [List.drop_succ_cons, List.getElem?_cons_succ]
      exact ih t

theorem parseMessage_error_of_readLine (marker : Nat) (hm : marker ∈ [43, 45, 58, 36, 42])
    (tail : List Nat) (e : LineError) (h : readLine tail = .error e) :
    ∃ e1, Parse (marker :: tail) = .error e1 := by
  rw [Parse_cons]
  simp only [List.mem_cons, List.mem_singleton, List.not_mem_nil, or_false] at hm
  rcases hm with rfl | rfl | rfl | rfl | rfl
  · exact ⟨.readSimpleString e, by simp [parseSimpleString, h]⟩
  · exact ⟨.readErrorMessage e, by simp [parseError, h]⟩
  · exact ⟨.readInteger e, by simp [parseInteger, h]⟩
  · exact ⟨.readBulkStringLength e, by simp [parseBulkString, h]⟩
  · exact ⟨.readArrayLength e, by simp [parseArray, h]⟩

theorem readLine_first_LF (pre post : List Nat) (h : LF ∉ pre)
    (hcr : pre.getLast? ≠ some CR) :
    readLine (pre ++ LF :: post) = .error (.notCRLF (pre ++ [LF])) := by
  unfold readLine
  rw [ReadString_append LF pre post h]
  rcases List.eq_nil_or_concat pre with rfl | ⟨t, c, rfl⟩
  · simp
  · have hc : c ≠ CR := by
      intro hc
      apply hcr
      simp [hc]
    have hl : (t.concat c ++ [LF]).length - 2 = t.length := by simp
    have he : t.concat c ++ [LF] = t ++ [c, LF] := by simp
    simp only
    rw [hl, he, List.drop_left]
    simp [hc]


/-! ## The wire format: round trip and framing -/

/-- C1. Round trip: every message built from the constructors (simple string
and error text free of CR and LF, any `int64`, any bulk string, the null bulk
string, the null array, arrays of such messages nested to any depth) is
accepted by `SerializeToString`, and `ParseString` of the output returns the
same message. -/
theorem roundtrip_SerializeToString_ParseString (m : Message) (h : m.WF) :
    ∃ s, SerializeToString m = .ok s ∧ ParseString s = .ok m := by
  obtain ⟨s, hs, hp⟩ := Serialize_Parse m h
  refine ⟨s, ?_, ?_⟩
  · have := hs []
    simp only [List.nil_append] at this
    simp [SerializeToString, this]
  · have := hp []
    simp only [List.append_nil] at this
    simp [ParseString, this]

theorem roundtrip_SerializeToString_ParseString_witness :
    (NewArray [NewSimpleString (ascii "OK"), NewError (ascii "ERR x"), NewInteger (-42),
        NewBulkString (ascii "a\r\nb"), NewNullBulkString, NewNullArray, NewArray [],
        NewBulkString []]).WF ∧
      ∃ s, SerializeToString (NewArray [NewSimpleString (ascii "OK"), NewError (ascii "ERR x"),
          NewInteger (-42), NewBulkString (ascii "a\r\nb"), NewNullBulkString, NewNullArray,
          NewArray [], NewBulkString []]) = .ok s ∧
        ParseString s = .ok (NewArray [NewSimpleString (ascii "OK"), NewError (ascii "ERR x"),
          NewInteger (-42), NewBulkString (ascii "a\r\nb"), NewNullBulkString, NewNullArray,
          NewArray [], NewBulkString []]) :=
  have hwf : (NewArray [NewSimpleString (ascii "OK"), NewError (ascii "ERR x"), NewInteger (-42),
      NewBulkString (ascii "a\r\nb"), NewNullBulkString, NewNullArray, NewArray [],
      NewBulkString []]).WF := by
    simp only [NewArray, NewSimpleString, NewError, NewInteger, NewBulkString, NewNullBulkString,
      NewNullArray, Message.WF, WFList, IsInt64]
    decide
  ⟨hwf, roundtrip_SerializeToString_ParseString _ hwf⟩

/-- C2. Frame consumption: for every well-formed message `m` and every byte
sequence `rest`, one `Parse` call on the frame of `m` followed by `rest`
returns `m` and leaves exactly `rest` unread. -/
theorem Parse_consumes_exactly_one_frame (m : Message) (h : m.WF) :
    ∃ s, SerializeToString m = .ok s ∧ ∀ rest, Parse (s ++ rest) = .ok (m, rest) := by
  obtain ⟨s, hs, hp⟩ := Serialize_Parse m h
  refine ⟨s, ?_, hp⟩
  have := hs []
  simp only [List.nil_append] at this
  simp [SerializeToString, this]

theorem Parse_consumes_exactly_one_frame_witness :
    (NewArray [NewBulkString (ascii "GET"), NewBulkString (ascii "k")]).WF ∧
      ∃ s, SerializeToString (NewArray [NewBulkString (ascii "GET"), NewBulkString (ascii "k")])
          = .ok s ∧
        ∀ rest, Parse (s ++ rest) =
          .ok (NewArray [NewBulkString (ascii "GET"), NewBulkString (ascii "k")], rest) :=
  have hwf : (NewArray [NewBulkString (ascii "GET"), NewBulkString (ascii "k")]).WF := by
    simp only [NewArray, NewBulkString, Message.WF, WFList]
    decide
  ⟨hwf, Parse_consumes_exactly_one_frame _ hwf⟩


theorem Parse_bulk_header (N : Nat) (data : List Nat) (hN : N < 2 ^ 63) :
    Parse (36 :: decimal N ++ [CR, LF] ++ data) =
      match ReadFull N data with
      | .error e => .error (.readBulkStringData e)
      | .ok (d, rest1) =>
        match expectCRLF rest1 with
        | .error e => .error (.missingCRLF e)
        | .ok rest2 => .ok (NewBulkString d, rest2) := by
  have e : 36 :: decimal N ++ [CR, LF] ++ data = 36 :: (decimal N ++ CR :: LF :: data) := by simp
  have h1 : ¬ ((N : Int) = -1) := by omega
  have h2 : ¬ ((N : Int) < 0) := by omega
  rw [e, Parse_cons]
  simp only [show ¬ (36 = 43) by decide, show ¬ (36 = 45) by decide,
    show ¬ (36 = 58) by decide, if_false, if_true]
  rw [parseBulkString_append _ _ (decimal_not_mem_LF _), Atoi_decimal _ hN]
  simp only [h1, h2, if_false, Int.toNat_ofNat]

theorem Parse_bulk_header_range (N : Nat) (data : List Nat) (hN : 2 ^ 63 ≤ N) :
    Parse (36 :: decimal N ++ [CR, LF] ++ data) =
      .error (.invalidBulkStringLengthText (decimal N)) := by
  have e : 36 :: decimal N ++ [CR, LF] ++ data = 36 :: (decimal N ++ CR :: LF :: data) := by simp
  obtain ⟨err, herr⟩ := Atoi_decimal_error N hN
  rw [e, Parse_cons]
  simp only [show ¬ (36 = 43) by decide, show ¬ (36 = 45) by decide,
    show ¬ (36 = 58) by decide, if_false, if_true]
  rw [parseBulkString_append _ _ (decimal_not_mem_LF _), herr]

theorem Parse_bulk_iff (N : Nat) (data : List Nat)
    (hlen : data.length < 2 ^ 63) :
    ((∃ r, Parse (36 :: decimal N ++ [CR, LF] ++ data) = .ok r) ↔
        (N + 2 ≤ data.length ∧ data[N]? = some CR ∧ data[N + 1]? = some LF)) ∧
      (∀ r, Parse (36 :: decimal N ++ [CR, LF] ++ data) = .ok r →
        r = (NewBulkString (data.take N), data.drop (N + 2))) := by
  by_cases hN : N < 2 ^ 63
  · rw [Parse_bulk_header N data hN]
    by_cases hle : N ≤ data.length
    · have hrf : ReadFull N data = .ok (data.take N, data.drop N) := by
        simp [ReadFull, hle]
      rw [hrf]
      simp only
      cases hc : expectCRLF (data.drop N) with
      | error e =>
        simp only [false_and, exists_false, false_iff, not_and, IsEmpty.forall_iff,
          implies_true, and_true, reduceCtorEq]
        intro _ h1 h2
        have := (drop_eq_cons_cons data N CR LF (data.drop (N + 2))).2 ⟨h1, h2, rfl⟩
        rw [(expectCRLF_ok_iff _ _).2 this] at hc
        cases hc
      | ok rest2 =>
        have hd := (expectCRLF_ok_iff _ _).1 hc
        obtain ⟨h1, h2, h3⟩ := (drop_eq_cons_cons data N CR LF rest2).1 hd
        have hlt : N + 1 < data.length := by
          by_contra hcon
          rw [List.getElem?_eq_none (by omega)] at h2
          cases h2
        refine ⟨⟨fun _ => ⟨by omega, h1, h2⟩, fun _ => ⟨_, rfl⟩⟩, ?_⟩
        intro r hr
        simp only [Except.ok.injEq] at hr
        rw [← hr, h3]
    · have hne : ¬ (N + 2 ≤ data.length) := by omega
      obtain ⟨e, hrf⟩ : ∃ e, ReadFull N data = .error e := by
        unfold ReadFull
        simp only [hle, if_false]
        split
        · exact ⟨_, rfl⟩
        · exact ⟨_, rfl⟩
      rw [hrf]
      simp [hne]
  · have hN2 : 2 ^ 63 ≤ N := by omega
    rw [Parse_bulk_header_range N data hN2]
    have hne : ¬ (N + 2 ≤ data.length) := by omega
    simp [hne]

theorem Atoi_of_Numeral (line : List Nat) (N : Int) (hnum : Numeral line N) :
    (∃ e, Atoi line = .error e) ∨ (Atoi line = .ok N) := by
  cases h : Atoi line with
  | error e => exact Or.inl ⟨e, rfl⟩
  | ok v =>
    obtain ⟨hv, _⟩ := (ParseInt_ok_iff line v).1 h
    rw [Numeral_unique _ _ _ hv hnum]
    exact Or.inr rfl

theorem Parse_bulk_negative (line : List Nat) (N : Int) (rest : List Nat)
    (hnum : Numeral line N) (hN : N < -1) :
    ∃ e, Parse (36 :: line ++ [CR, LF] ++ rest) = .error e := by
  have e : 36 :: line ++ [CR, LF] ++ rest = 36 :: (line ++ CR :: LF :: rest) := by simp
  have hlf : LF ∉ line := Numeral_not_mem _ _ hnum LF (by unfold IsDigit LF; omega)
  have h1 : ¬ (N = -1) := by omega
  have h2 : N < 0 := by omega
  rw [e, Parse_cons]
  simp only [show ¬ (36 = 43) by decide, show ¬ (36 = 45) by decide,
    show ¬ (36 = 58) by decide, if_false, if_true]
  rw [parseBulkString_append _ _ hlf]
  rcases Atoi_of_Numeral line N hnum with ⟨err, h⟩ | h
  · rw [h]; exact ⟨_, rfl⟩
  · rw [h]
    simp only [h1, h2, if_false, if_true]
    exact ⟨_, rfl⟩

theorem Parse_array_negative (line : List Nat) (N : Int) (rest : List Nat)
    (hnum : Numeral line N) (hN : N < -1) :
    ∃ e, Parse (42 :: line ++ [CR, LF] ++ rest) = .error e := by
  have e : 42 :: line ++ [CR, LF] ++ rest = 42 :: (line ++ CR :: LF :: rest) := by simp
  have hlf : LF ∉ line := Numeral_not_mem _ _ hnum LF (by unfold IsDigit LF; omega)
  have h1 : ¬ (N = -1) := by omega
  have h2 : N < 0 := by omega
  rw [e, Parse_cons]
  simp only [show ¬ (42 = 43) by decide, show ¬ (42 = 45) by decide,
    show ¬ (42 = 58) by decide, show ¬ (42 = 36) by decide, if_false, if_true]
  rw [parseArray_append _ _ _ hlf]
  rcases Atoi_of_Numeral line N hnum with ⟨err, h⟩ | h
  · rw [h]; exact ⟨_, rfl⟩
  · rw [h]
    simp only [h1, h2, if_false, if_true]
    exact ⟨_, rfl⟩

theorem Parse_null (rest : List Nat) :
    Parse (36 :: 45 :: 49 :: CR :: LF :: rest) = .ok (NewNullBulkString, rest) ∧
      Parse (42 :: 45 :: 49 :: CR :: LF :: rest) = .ok (NewNullArray, rest) := by
  have e : (45 :: 49 :: CR :: LF :: rest) = [45, 49] ++ CR :: LF :: rest := rfl
  constructor
  · rw [Parse_cons, if_neg (by decide), if_neg (by decide), if_neg (by decide), if_pos rfl, e,
      parseBulkString_append _ _ (by decide)]
    rfl
  · rw [Parse_cons, if_neg (by decide), if_neg (by decide), if_neg (by decide),
      if_neg (by decide), if_pos rfl, e, parseArray_append _ _ _ (by decide)]
    rfl

/-- C4. Null and negative lengths: for the `$` and the `*` marker a declared
length of -1 parses to the message of `NewNullBulkString` / `NewNullArray`
(`IsNull` is true), which differs from the empty bulk string parsed from
"$0\r\n\r\n" and the empty array parsed from "*0\r\n" (`IsNull` is false);
every declared length `N < -1`, written canonically or as any other signed
numeral, makes `Parse` fail. -/
theorem Parse_null_and_negative_lengths :
    (∀ rest, Parse (ascii "$-1\r\n" ++ rest) = .ok (NewNullBulkString, rest)) ∧
      (∀ rest, Parse (ascii "*-1\r\n" ++ rest) = .ok (NewNullArray, rest)) ∧
      NewNullBulkString.IsNull = true ∧ NewNullArray.IsNull = true ∧
      ParseString (ascii "$0\r\n\r\n") = .ok (NewBulkString []) ∧
      ParseString (ascii "*0\r\n") = .ok (NewArray []) ∧
      (NewBulkString []).IsNull = false ∧ (NewArray []).IsNull = false ∧
      NewNullBulkString ≠ NewBulkString [] ∧ NewNullArray ≠ NewArray [] ∧
      (∀ (N : Int) (rest : List Nat), N < -1 →
        (∃ e, Parse (36 :: formatInt N ++ [CR, LF] ++ rest) = .error e) ∧
          (∃ e, Parse (42 :: formatInt N ++ [CR, LF] ++ rest) = .error e)) ∧
      (∀ (line : List Nat) (N : Int) (rest : List Nat), Numeral line N → N < -1 →
        (∃ e, Parse (36 :: line ++ [CR, LF] ++ rest) = .error e) ∧
          (∃ e, Parse (42 :: line ++ [CR, LF] ++ rest) = .error e)) := by
  refine ⟨fun rest => (Parse_null rest).1, fun rest => (Parse_null rest).2, rfl, rfl, rfl,
    rfl, rfl, rfl, ?_, ?_, ?_, ?_⟩
  · intro h; cases h
  · intro h; cases h
  · intro N rest hN
    exact ⟨Parse_bulk_negative _ N rest (Numeral_formatInt N) hN,
      Parse_array_negative _ N rest (Numeral_formatInt N) hN⟩
  · intro line N rest hnum hN
    exact ⟨Parse_bulk_negative line N rest hnum hN, Parse_array_negative line N rest hnum hN⟩

theorem Parse_null_and_negative_lengths_witness :
    (-2 : Int) < -1 ∧
      (∃ e, Parse (36 :: formatInt (-2) ++ [CR, LF] ++ []) = .error e) ∧
      (∃ e, Parse (42 :: formatInt (-2) ++ [CR, LF] ++ []) = .error e) :=
  ⟨by decide, Parse_null_and_negative_lengths.2.2.2.2.2.2.2.2.2.2.1 (-2) [] (by decide)⟩


theorem Parse_array_header (N : Nat) (body : List Nat) (hN : N < 2 ^ 63) :
    Parse (42 :: decimal N ++ [CR, LF] ++ body) =
      match parseElements Parse N 0 body with
      | .error e => .error e
      | .ok (elements, rest1) => .ok (NewArray elements, rest1) := by
  have e : 42 :: decimal N ++ [CR, LF] ++ body = 42 :: (decimal N ++ CR :: LF :: body) := by simp
  have h1 : ¬ ((N : Int) = -1) := by omega
  have h2 : ¬ ((N : Int) < 0) := by omega
  rw [e, Parse_cons]
  simp only [show ¬ (42 = 43) by decide, show ¬ (42 = 45) by decide,
    show ¬ (42 = 58) by decide, show ¬ (42 = 36) by decide, if_false, if_true]
  rw [parseArray_append _ _ _ (decimal_not_mem_LF _), Atoi_decimal _ hN]
  simp only [h1, h2, if_false, Int.toNat_ofNat]

theorem Parse_array_header_range (N : Nat) (body : List Nat) (hN : 2 ^ 63 ≤ N) :
    Parse (42 :: decimal N ++ [CR, LF] ++ body) =
      .error (.invalidArrayLengthText (decimal N)) := by
  have e : 42 :: decimal N ++ [CR, LF] ++ body = 42 :: (decimal N ++ CR :: LF :: body) := by simp
  obtain ⟨err, herr⟩ := Atoi_decimal_error N hN
  rw [e, Parse_cons]
  simp only [show ¬ (42 = 43) by decide, show ¬ (42 = 45) by decide,
    show ¬ (42 = 58) by decide, show ¬ (42 = 36) by decide, if_false, if_true]
  rw [parseArray_append _ _ _ (decimal_not_mem_LF _), herr]

theorem Parse_integer_line (line rest : List Nat) (h : LF ∉ line) :
    Parse (58 :: line ++ [CR, LF] ++ rest) =
      match ParseInt line with
      | .error _ => .error (.invalidIntegerFormat line)
      | .ok value => .ok (NewInteger value, rest) := by
  have e : 58 :: line ++ [CR, LF] ++ rest = 58 :: (line ++ CR :: LF :: rest) := by simp
  rw [e, Parse_cons, if_neg (by decide), if_neg (by decide), if_pos rfl,
    parseInteger_append _ _ h]

/-- C6. Integer parsing: for every `int64` `n`, `Parse` of
`':' ++ decimal n ++ CRLF` returns `Integer n` (the two bounds included); more
generally every optionally signed digit sequence denoting an `int64` parses to
its value; and for every line (a text without LF) that is not an optionally
signed sequence of decimal digits denoting a value in `[-2^63, 2^63 - 1]`,
`Parse` of `':' ++ line ++ CRLF` fails. -/
theorem parseInteger_int64 :
    (∀ (n : Int) (rest : List Nat), IsInt64 n →
        Parse (58 :: formatInt n ++ [CR, LF] ++ rest) = .ok (NewInteger n, rest)) ∧
      (∀ (line : List Nat) (v : Int) (rest : List Nat), Numeral line v → IsInt64 v →
        Parse (58 :: line ++ [CR, LF] ++ rest) = .ok (NewInteger v, rest)) ∧
      (∀ (line rest : List Nat), LF ∉ line → (¬ ∃ v, Numeral line v ∧ IsInt64 v) →
        Parse (58 :: line ++ [CR, LF] ++ rest) = .error (.invalidIntegerFormat line)) ∧
      ParseString (ascii ":9223372036854775807\r\n") = .ok (NewInteger 9223372036854775807) ∧
      ParseString (ascii ":-9223372036854775808\r\n") = .ok (NewInteger (-9223372036854775808)) ∧
      ParseString (ascii ":abc\r\n") = .error (.invalidIntegerFormat (ascii "abc")) ∧
      ParseString (ascii ":\r\n") = .error (.invalidIntegerFormat []) ∧
      ParseString (ascii ":9223372036854775808\r\n") =
        .error (.invalidIntegerFormat (ascii "9223372036854775808")) := by
  refine ⟨?_, ?_, ?_, rfl, rfl, rfl, rfl, rfl⟩
  · intro n rest hn
    rw [Parse_integer_line _ _ (formatInt_not_mem_LF n), ParseInt_formatInt n hn]
  · intro line v rest hnum hv
    have hlf : LF ∉ line := Numeral_not_mem _ _ hnum LF (by unfold IsDigit LF; omega)
    rw [Parse_integer_line _ _ hlf, (ParseInt_ok_iff line v).2 ⟨hnum, hv⟩]
  · intro line rest hlf hnot
    rw [Parse_integer_line _ _ hlf]
    cases hp : ParseInt line with
    | error e => rfl
    | ok v => exact absurd ⟨v, (ParseInt_ok_iff line v).1 hp⟩ hnot

theorem parseInteger_int64_witness :
    IsInt64 (-42) ∧
      Parse (58 :: formatInt (-42) ++ [CR, LF] ++ ascii "+OK\r\n") =
        .ok (NewInteger (-42), ascii "+OK\r\n") :=
  ⟨by unfold IsInt64; decide,
    parseInteger_int64.1 (-42) (ascii "+OK\r\n") (by unfold IsInt64; decide)⟩

theorem Parse_line_marker_no_LF (marker : Nat) (hm : marker ∈ [43, 45, 58, 36, 42])
    (tail : List Nat) (h : LF ∉ tail) : ∃ e, Parse (marker :: tail) = .error e :=
  parseMessage_error_of_readLine marker hm tail _ (readLine_error_of_not_mem tail h)

/-- C7. Line framing: for every input that starts with one of the markers
`+ - : $ *`, `Parse` fails when no LF follows the marker before the input
ends, and when the first LF is not immediately preceded by CR; `readLine`
accepts a line exactly when the text before the first LF ends with CR, and
the content it returns is that text without the CR (and without the LF). -/
theorem readLine_framing (marker : Nat) (hm : marker ∈ [43, 45, 58, 36, 42]) :
    (∀ tail, LF ∉ tail → ∃ e, Parse (marker :: tail) = .error e) ∧
      (∀ pre post, LF ∉ pre → pre.getLast? ≠ some CR →
        ∃ e, Parse (marker :: (pre ++ LF :: post)) = .error e) ∧
      (∀ input line rest,
        readLine input = .ok (line, rest) ↔ LF ∉ line ∧ input = line ++ CR :: LF :: rest) ∧
      (∃ e, ParseString (ascii "+OK") = .error e) ∧
      (∃ e, ParseString (ascii "+OK\r") = .error e) ∧
      (∃ e, ParseString (ascii "+OK\n") = .error e) := by
  refine ⟨fun tail h => Parse_line_marker_no_LF marker hm tail h, ?_, readLine_ok_iff,
    ⟨_, rfl⟩, ⟨_, rfl⟩, ⟨_, rfl⟩⟩
  intro pre post h hcr
  exact parseMessage_error_of_readLine marker hm _ _ (readLine_first_LF pre post h hcr)

theorem readLine_framing_witness :
    (36 : Nat) ∈ [43, 45, 58, 36, 42] ∧
      (∃ e, Parse (36 :: ascii "3\r") = .error e) ∧
      (∃ e, Parse (36 :: (ascii "3" ++ LF :: ascii "foo\r\n")) = .error e) :=
  ⟨by decide, (readLine_framing 36 (by decide)).1 (ascii "3\r") (by decide),
    (readLine_framing 36 (by decide)).2.1 (ascii "3") (ascii "foo\r\n") (by decide) (by decide)⟩

/-- C8, at the failing input. `Parse` accepts a simple string and an error
whose line holds a bare CR: the payload returned contains CR, and the
serializer of the same package refuses that message. -/
theorem parseSimpleString_accepts_bare_CR :
    ParseString (ascii "+a\rb\r\n") = .ok (NewSimpleString (ascii "a\rb")) ∧
      ParseString (ascii "-a\rb\r\n") = .ok (NewError (ascii "a\rb")) ∧
      ParseString (ascii "*1\r\n+a\rb\r\n") = .ok (NewArray [NewSimpleString (ascii "a\rb")]) ∧
      CR ∈ ascii "a\rb" ∧
      SerializeToString (NewSimpleString (ascii "a\rb")) = .error .simpleStringCRLF ∧
      SerializeToString (NewError (ascii "a\rb")) = .error .errorCRLF :=
  ⟨rfl, rfl, rfl, by decide, rfl, rfl⟩

/-- C9. Unknown marker: `Parse` fails on the empty input, and on every input
whose first byte is not one of `+ - : $ *` it fails with the error about the
message type; it returns no message. -/
theorem Parse_unknown_marker :
    Parse [] = .error (.readMessageType .EOF) ∧
      (∀ (b : Nat) (rest : List Nat), b ∉ [43, 45, 58, 36, 42] →
        Parse (b :: rest) = .error (.invalidMessageType b)) ∧
      (∀ (b : Nat) (rest : List Nat), b ∉ [43, 45, 58, 36, 42] →
        ParseString (b :: rest) = .error (.invalidMessageType b)) ∧
      ParseString [] = .error (.readMessageType .EOF) := by
  have key : ∀ (b : Nat) (rest : List Nat), b ∉ [43, 45, 58, 36, 42] →
      Parse (b :: rest) = .error (.invalidMessageType b) := by
    intro b rest hb
    simp only [List.mem_cons, List.mem_singleton, List.not_mem_nil, or_false, not_or] at hb
    obtain ⟨h1, h2, h3, h4, h5⟩ := hb
    rw [Parse_cons]
    simp [h1, h2, h3, h4, h5]
  refine ⟨rfl, key, ?_, rfl⟩
  intro b rest hb
  simp [ParseString, key b rest hb]

theorem Parse_unknown_marker_witness :
    (63 : Nat) ∉ [43, 45, 58, 36, 42] ∧
      Parse (63 :: ascii "invalid\r\n") = .error (.invalidMessageType 63) :=
  ⟨by decide, Parse_unknown_marker.2.1 63 (ascii "invalid\r\n") (by decide)⟩

/-- C10. Serializing `SimpleString s` or `Error s` fails if and only if `s`
contains a CR or an LF byte; otherwise the output is exactly `'+' ++ s ++ CRLF`
for a simple string and `'-' ++ s ++ CRLF` for an error. -/
theorem SerializeToString_simple (s : List Nat) :
    ((∃ e, SerializeToString (NewSimpleString s) = .error e) ↔ (CR ∈ s ∨ LF ∈ s)) ∧
      ((∃ e, SerializeToString (NewError s) = .error e) ↔ (CR ∈ s ∨ LF ∈ s)) ∧
      (¬ (CR ∈ s ∨ LF ∈ s) →
        SerializeToString (NewSimpleString s) = .ok (43 :: s ++ [CR, LF]) ∧
          SerializeToString (NewError s) = .ok (45 :: s ++ [CR, LF])) ∧
      SerializeToString (NewSimpleString []) = .ok (ascii "+\r\n") ∧
      SerializeToString (NewError []) = .ok (ascii "-\r\n") := by
  by_cases h : CR ∈ s ∨ LF ∈ s
  · have hc := containsCRLF_eq_true s h
    refine ⟨?_, ?_, fun hn => absurd h hn, rfl, rfl⟩
    · simp [SerializeToString, NewSimpleString, Serialize, serializeSimpleString, hc, h]
    · simp [SerializeToString, NewError, Serialize, serializeError, hc, h]
  · have hc := containsCRLF_eq_false s (not_or.1 h)
    refine ⟨?_, ?_, fun _ => ⟨?_, ?_⟩, rfl, rfl⟩
    · simp [SerializeToString, NewSimpleString, Serialize, serializeSimpleString, hc, h]
    · simp [SerializeToString, NewError, Serialize, serializeError, hc, h]
    · simp [SerializeToString, NewSimpleString, Serialize, serializeSimpleString, hc]
    · simp [SerializeToString, NewError, Serialize, serializeError, hc]

theorem SerializeToString_simple_witness :
    ¬ (CR ∈ ascii "OK" ∨ LF ∈ ascii "OK") ∧
      SerializeToString (NewSimpleString (ascii "OK")) = .ok (43 :: ascii "OK" ++ [CR, LF]) ∧
      SerializeToString (NewError (ascii "OK")) = .ok (45 :: ascii "OK" ++ [CR, LF]) :=
  ⟨by decide, (SerializeToString_simple (ascii "OK")).2.2.1 (by decide)⟩


/-! ## The serializer -/

theorem serializeElements_cons_ok (m : Message) (ms : List Message) (i : Nat)
    (w w1 : List Nat) (h : Serialize m w = (w1, none)) :
    serializeElements (m :: ms) i w = serializeElements ms (i + 1) w1 := by
  simp [serializeElements, h]

theorem serializeElements_cons_error (m : Message) (ms : List Message) (i : Nat)
    (w w1 : List Nat) (e : SerializeError) (h : Serialize m w = (w1, some e)) :
    serializeElements (m :: ms) i w = (w1, some (.arrayElement i e)) := by
  simp [serializeElements, h]

mutual
/-- The serializer only appends to the writer, and what it appends and whether
it fails do not depend on what the writer holds. -/
theorem Serialize_writer : ∀ (m : Message) (w : List Nat),
    Serialize m w = (w ++ (Serialize m []).1, (Serialize m []).2)
  | .SimpleString value, w => by
    simp only [Serialize, serializeSimpleString]
    split <;> simp
  | .Error value, w => by
    simp only [Serialize, serializeError]
    split <;> simp
  | .Integer value, w => by simp [Serialize, serializeInteger]
  | .BulkString none, w => by simp [Serialize, serializeBulkString]
  | .BulkString (some value), w => by simp [Serialize, serializeBulkString]
  | .Array none, w => by simp [Serialize]
  | .Array (some array), w => by
    simp only [Serialize, List.nil_append]
    rw [serializeElements_writer array 0 (w ++ (42 :: formatInt array.length ++ [CR, LF])),
      serializeElements_writer array 0 (42 :: formatInt array.length ++ [CR, LF])]
    simp
theorem serializeElements_writer : ∀ (ms : List Message) (i : Nat) (w : List Nat),
    serializeElements ms i w =
      (w ++ (serializeElements ms i []).1, (serializeElements ms i []).2)
  | [], i, w => by simp [serializeElements]
  | m :: ms, i, w => by
    have hm := Serialize_writer m w
    cases he : (Serialize m []).2 with
    | none =>
      have h0 : Serialize m [] = ((Serialize m []).1, none) := by rw [← he]
      rw [he] at hm
      rw [serializeElements_cons_ok m ms i w _ hm, serializeElements_cons_ok m ms i [] _ h0,
        serializeElements_writer ms (i + 1) (w ++ (Serialize m []).1),
        serializeElements_writer ms (i + 1) (Serialize m []).1]
      simp
    | some e =>
      have h0 : Serialize m [] = ((Serialize m []).1, some e) := by rw [← he]
      rw [he] at hm
      rw [serializeElements_cons_error m ms i w _ e hm,
        serializeElements_cons_error m ms i [] _ e h0]
end

theorem SerializeToString_ok_iff (m : Message) (s : List Nat) :
    SerializeToString m = .ok s ↔ Serialize m [] = (s, none) := by
  unfold SerializeToString
  cases h : Serialize m [] with
  | mk w err =>
    cases err with
    | none => simp
    | some e => simp

theorem SerializeToString_error_iff (m : Message) (e : SerializeError) :
    SerializeToString m = .error e ↔ (Serialize m []).2 = some e := by
  unfold SerializeToString
  cases h : Serialize m [] with
  | mk w err =>
    cases err with
    | none => simp
    | some e1 => simp

theorem Serialize_of_ok (m : Message) (s w : List Nat) (h : SerializeToString m = .ok s) :
    Serialize m w = (w ++ s, none) := by
  rw [Serialize_writer m w, (SerializeToString_ok_iff m s).1 h]

theorem Serialize_of_error (m : Message) (e : SerializeError) (w : List Nat)
    (h : SerializeToString m = .error e) :
    Serialize m w = (w ++ (Serialize m []).1, some e) := by
  rw [Serialize_writer m w, (SerializeToString_error_iff m e).1 h]

theorem serializeElements_of_ok (ms : List Message) (outs : List (List Nat))
    (h : List.Forall₂ (fun m s => SerializeToString m = .ok s) ms outs) (i : Nat)
    (w : List Nat) : serializeElements ms i w = (w ++ outs.flatten, none) := by
  induction h generalizing i w with
  | nil => simp [serializeElements]
  | cons hm _ ih =>
    rw [serializeElements_cons_ok _ _ i w _ (Serialize_of_ok _ _ w hm), ih]
    simp

theorem serializeElements_of_error (pre : List Message) (outs : List (List Nat))
    (h : List.Forall₂ (fun m s => SerializeToString m = .ok s) pre outs) (m : Message)
    (e : SerializeError) (hm : SerializeToString m = .error e) (post : List Message) (i : Nat)
    (w : List Nat) :
    serializeElements (pre ++ m :: post) i w =
      (w ++ outs.flatten ++ (Serialize m []).1, some (.arrayElement (i + pre.length) e)) := by
  induction h generalizing i w with
  | nil =>
    rw [List.nil_append, serializeElements_cons_error _ _ i w _ e (Serialize_of_error _ _ w hm)]
    simp
  | cons hx _ ih =>
    rw [List.cons_append, serializeElements_cons_ok _ _ i w _ (Serialize_of_ok _ _ w hx), ih]
    simp only [List.flatten_cons, List.append_assoc, List.length_cons]
    rw [Nat.add_assoc i 1, Nat.add_comm 1]

theorem serializeElements_cases (ms : List Message) :
    (∃ outs, List.Forall₂ (fun m s => SerializeToString m = .ok s) ms outs) ∨
      ∃ pre m post outs e, ms = pre ++ m :: post ∧
        List.Forall₂ (fun m s => SerializeToString m = .ok s) pre outs ∧
        SerializeToString m = .error e := by
  induction ms with
  | nil => exact Or.inl ⟨[], List.Forall₂.nil⟩
  | cons m ms ih =>
    cases hm : SerializeToString m with
    | error e => exact Or.inr ⟨[], m, ms, [], e, rfl, List.Forall₂.nil, hm⟩
    | ok s =>
      rcases ih with ⟨outs, h⟩ | ⟨pre, x, post, outs, e, rfl, h, hx⟩
      · exact Or.inl ⟨s :: outs, List.Forall₂.cons hm h⟩
      · exact Or.inr ⟨m :: pre, x, post, s :: outs, e, rfl, List.Forall₂.cons hm h, hx⟩

theorem serializeElements_ok_mem (ms : List Message) (outs : List (List Nat))
    (h : List.Forall₂ (fun m s => SerializeToString m = .ok s) ms outs) (m : Message)
    (hm : m ∈ ms) : ∃ s, SerializeToString m = .ok s := by
  induction h with
  | nil => cases hm
  | cons hx _ ih =>
    rcases List.mem_cons.1 hm with rfl | hm
    · exact ⟨_, hx⟩
    · exact ih hm

theorem SerializeToString_array_ok (array : List Message) (outs : List (List Nat))
    (h : List.Forall₂ (fun m s => SerializeToString m = .ok s) array outs) :
    SerializeToString (NewArray array) =
      .ok (42 :: decimal array.length ++ [CR, LF] ++ outs.flatten) := by
  rw [SerializeToString_ok_iff]
  simp only [NewArray, Serialize, List.nil_append]
  rw [serializeElements_of_ok array outs h, formatInt_natCast]

theorem SerializeToString_array_error (pre : List Message) (outs : List (List Nat))
    (h : List.Forall₂ (fun m s => SerializeToString m = .ok s) pre outs) (m : Message)
    (e : SerializeError) (hm : SerializeToString m = .error e) (post : List Message) :
    SerializeToString (NewArray (pre ++ m :: post)) = .error (.arrayElement pre.length e) := by
  rw [SerializeToString_error_iff]
  simp only [NewArray, Serialize, List.nil_append]
  rw [serializeElements_of_error pre outs h m e hm post]
  simp


mutual
theorem Serialize_none_iff : ∀ (m : Message),
    (Serialize m []).2 = none ↔ m.Serializable
  | .SimpleString value => by
    simp only [Serialize, serializeSimpleString, Message.Serializable]
    by_cases h : CR ∈ value ∨ LF ∈ value
    · simp [containsCRLF_eq_true value h, h]
    · simp [containsCRLF_eq_false value (not_or.1 h), h]
  | .Error value => by
    simp only [Serialize, serializeError, Message.Serializable]
    by_cases h : CR ∈ value ∨ LF ∈ value
    · simp [containsCRLF_eq_true value h, h]
    · simp [containsCRLF_eq_false value (not_or.1 h), h]
  | .Integer value => by simp [Serialize, serializeInteger, Message.Serializable]
  | .BulkString none => by simp [Serialize, serializeBulkString, Message.Serializable]
  | .BulkString (some value) => by simp [Serialize, serializeBulkString, Message.Serializable]
  | .Array none => by simp [Serialize, Message.Serializable]
  | .Array (some array) => by
    simp only [Serialize, Message.Serializable]
    exact serializeElements_none_iff array 0 _
theorem serializeElements_none_iff : ∀ (ms : List Message) (i : Nat) (w : List Nat),
    (serializeElements ms i w).2 = none ↔ SerializableList ms
  | [], i, w => by simp [serializeElements, SerializableList]
  | m :: ms, i, w => by
    have hm := Serialize_writer m w
    have h1 := Serialize_none_iff m
    simp only [SerializableList]
    cases he : (Serialize m []).2 with
    | none =>
      rw [he] at hm
      rw [serializeElements_cons_ok m ms i w _ hm, serializeElements_none_iff ms (i + 1) _]
      simp [← h1, he]
    | some e =>
      rw [he] at hm
      rw [serializeElements_cons_error m ms i w _ e hm]
      simp [← h1, he]
end

theorem SerializeToString_ok_iff_Serializable (m : Message) :
    (∃ s, SerializeToString m = .ok s) ↔ m.Serializable := by
  rw [← Serialize_none_iff]
  constructor
  · rintro ⟨s, h⟩
    rw [(SerializeToString_ok_iff m s).1 h]
  · intro h
    exact ⟨(Serialize m []).1, (SerializeToString_ok_iff m _).2 (by rw [← h])⟩

theorem SerializeToString_error_iff_not_Serializable (m : Message) :
    (∃ e, SerializeToString m = .error e) ↔ ¬ m.Serializable := by
  rw [← SerializeToString_ok_iff_Serializable]
  cases h : SerializeToString m with
  | error e => simp
  | ok s => simp

theorem decimalAux_head (fuel n : Nat) (h : n < fuel) (hpos : 0 < n) :
    ∃ c cs, decimalAux fuel n = c :: cs ∧ 49 ≤ c ∧ c ≤ 57 := by
  induction fuel generalizing n with
  | zero => omega
  | succ fuel ih =>
    unfold decimalAux
    by_cases h10 : n < 10
    · simp only [h10, if_true]
      exact ⟨48 + n, [], rfl, by omega, by omega⟩
    · simp only [h10, if_false]
      obtain ⟨c, cs, hc, h1, h2⟩ := ih (n / 10) (by omega) (by omega)
      exact ⟨c, cs ++ [48 + n % 10], by rw [hc]; rfl, h1, h2⟩

theorem decimal_zero : decimal 0 = [48] := rfl

theorem decimal_head (n : Nat) (hpos : 0 < n) :
    ∃ c cs, decimal n = c :: cs ∧ 49 ≤ c ∧ c ≤ 57 :=
  decimalAux_head (n + 1) n (Nat.lt_succ_self n) hpos

/-- C11. Serializing a bulk string never fails: the null bulk string gives
exactly "$-1\r\n", and a non-null bulk string with payload `b` gives
`'$' ++ decimal (length of b) ++ CRLF ++ b ++ CRLF`, the payload copied as it
is; the empty string gives "$0\r\n\r\n", which differs from the null
encoding. -/
theorem SerializeToString_bulkString :
    SerializeToString NewNullBulkString = .ok (ascii "$-1\r\n") ∧
      (∀ b : List Nat, SerializeToString (NewBulkString b) =
        .ok (36 :: decimal b.length ++ [CR, LF] ++ b ++ [CR, LF])) ∧
      (∀ (b : Option (List Nat)) (w : List Nat), (Serialize (.BulkString b) w).2 = none) ∧
      SerializeToString (NewBulkString (ascii "hello\r\nworld")) =
        .ok (ascii "$12\r\nhello\r\nworld\r\n") ∧
      SerializeToString (NewBulkString []) = .ok (ascii "$0\r\n\r\n") ∧
      ascii "$0\r\n\r\n" ≠ ascii "$-1\r\n" := by
  refine ⟨rfl, ?_, ?_, rfl, rfl, by decide⟩
  · intro b
    rw [SerializeToString_ok_iff]
    simp [NewBulkString, Serialize, serializeBulkString, formatInt_natCast]
  · intro b w
    cases b <;> simp [Serialize, serializeBulkString]

/-- C12. Serializing an array: the null array gives exactly "*-1\r\n"; a
non-null array of `n` elements whose elements serialize gives
`'*' ++ decimal n ++ CRLF` followed by the serializations of the elements in
order; the serialization of an array fails if and only if the serialization
of one of its elements fails, which is when a simple string or error nested
in it contains CR or LF, and the error then names the index of the first
failing element. -/
theorem SerializeToString_array :
    SerializeToString NewNullArray = .ok (ascii "*-1\r\n") ∧
      (∀ (array : List Message) (outs : List (List Nat)),
        List.Forall₂ (fun m s => SerializeToString m = .ok s) array outs →
        SerializeToString (NewArray array) =
          .ok (42 :: decimal array.length ++ [CR, LF] ++ outs.flatten)) ∧
      (∀ array : List Message, (∃ e, SerializeToString (NewArray array) = .error e) ↔
        ∃ m ∈ array, ∃ e, SerializeToString m = .error e) ∧
      (∀ (pre : List Message) (m : Message) (post : List Message) (e : SerializeError),
        (∀ x ∈ pre, ∃ s, SerializeToString x = .ok s) → SerializeToString m = .error e →
        SerializeToString (NewArray (pre ++ m :: post)) = .error (.arrayElement pre.length e)) ∧
      (∀ m : Message, (∃ e, SerializeToString m = .error e) ↔ ¬ m.Serializable) := by
  refine ⟨rfl, SerializeToString_array_ok, ?_, ?_, SerializeToString_error_iff_not_Serializable⟩
  · intro array
    constructor
    · rintro ⟨e, he⟩
      rcases serializeElements_cases array with ⟨outs, h⟩ | ⟨pre, m, post, outs, e1, rfl, _, hm⟩
      · rw [SerializeToString_array_ok array outs h] at he
        cases he
      · exact ⟨m, by simp, e1, hm⟩
    · rintro ⟨m, hmem, e, hm⟩
      rcases serializeElements_cases array with ⟨outs, h⟩ | ⟨pre, x, post, outs, e1, rfl, h, hx⟩
      · obtain ⟨s, hs⟩ := serializeElements_ok_mem array outs h m hmem
        rw [hs] at hm
        cases hm
      · exact ⟨_, SerializeToString_array_error pre outs h x e1 hx post⟩
  · intro pre m post e hpre hm
    obtain ⟨outs, houts⟩ : ∃ outs,
        List.Forall₂ (fun m s => SerializeToString m = .ok s) pre outs := by
      clear hm
      induction pre with
      | nil => exact ⟨[], List.Forall₂.nil⟩
      | cons x xs ih =>
        obtain ⟨s, hs⟩ := hpre x (List.mem_cons_self _ _)
        obtain ⟨outs, h⟩ := ih (fun y hy => hpre y (List.mem_cons_of_mem _ hy))
        exact ⟨s :: outs, List.Forall₂.cons hs h⟩
    exact SerializeToString_array_error pre outs houts m e hm post


theorem SerializeToString_array_witness :
    List.Forall₂ (fun m s => SerializeToString m = .ok s)
        [NewInteger 1, NewBulkString (ascii "a")] [ascii ":1\r\n", ascii "$1\r\na\r\n"] ∧
      SerializeToString (NewArray [NewInteger 1, NewBulkString (ascii "a")]) =
        .ok (42 :: decimal [NewInteger 1, NewBulkString (ascii "a")].length ++ [CR, LF] ++
          [ascii ":1\r\n", ascii "$1\r\na\r\n"].flatten) ∧
      SerializeToString (NewArray ([NewInteger 1] ++ NewSimpleString (ascii "a\nb") :: [])) =
        .error (.arrayElement [NewInteger 1].length .simpleStringCRLF) :=
  ⟨.cons rfl (.cons rfl .nil),
    SerializeToString_array.2.1 _ _ (.cons rfl (.cons rfl .nil)),
    SerializeToString_array.2.2.2.1 [NewInteger 1] (NewSimpleString (ascii "a\nb")) []
      .simpleStringCRLF
      (fun x hx => by
        rw [List.mem_singleton.1 hx]
        exact ⟨_, rfl⟩)
      rfl⟩

/-- C13. Serializing `Integer n` never fails and writes exactly
`':' ++ numeral ++ CRLF`, the numeral being the canonical decimal numeral of
`n`: a `-` exactly when `n < 0`, no `+`, then the digits of the magnitude with
no leading zero (the single digit `0` for zero). -/
theorem SerializeToString_integer (n : Int) :
    SerializeToString (NewInteger n) = .ok (58 :: formatInt n ++ [CR, LF]) ∧
      (formatInt n = if n < 0 then 45 :: decimal n.natAbs else decimal n.natAbs) ∧
      ((formatInt n).head? = some 45 ↔ n < 0) ∧
      43 ∉ formatInt n ∧
      (∀ c ∈ decimal n.natAbs, IsDigit c) ∧
      digitsValue (decimal n.natAbs) = n.natAbs ∧
      (decimal n.natAbs = [48] ∨ ∃ c cs, decimal n.natAbs = c :: cs ∧ 49 ≤ c ∧ c ≤ 57) ∧
      SerializeToString (NewInteger 0) = .ok (ascii ":0\r\n") ∧
      SerializeToString (NewInteger (-1)) = .ok (ascii ":-1\r\n") ∧
      SerializeToString (NewInteger 9223372036854775807) =
        .ok (ascii ":9223372036854775807\r\n") ∧
      SerializeToString (NewInteger (-9223372036854775808)) =
        .ok (ascii ":-9223372036854775808\r\n") := by
  refine ⟨?_, rfl, ?_, ?_, decimal_digits _, digitsValue_decimal _, ?_, rfl, rfl, rfl, rfl⟩
  · rw [SerializeToString_ok_iff]
    simp [NewInteger, Serialize, serializeInteger]
  · unfold formatInt
    by_cases hn : n < 0
    · simp [hn]
    · simp only [hn, if_false, iff_false]
      intro h
      obtain ⟨c, cs, hc⟩ := List.exists_cons_of_ne_nil (decimal_ne_nil n.natAbs)
      rw [hc] at h
      simp only [List.head?_cons, Option.some.injEq] at h
      have hd := decimal_digits n.natAbs c (by rw [hc]; exact List.mem_cons_self _ _)
      unfold IsDigit at hd
      omega
  · have hd : 43 ∉ decimal n.natAbs := by
      intro h
      have := decimal_digits n.natAbs 43 h
      unfold IsDigit at this
      omega
    unfold formatInt
    by_cases hn : n < 0
    · simp only [hn, if_true, List.mem_cons, not_or]
      exact ⟨by decide, hd⟩
    · simp only [hn, if_false]
      exact hd
  · by_cases h0 : n.natAbs = 0
    · left
      rw [h0]
      rfl
    · right
      exact decimal_head n.natAbs (by omega)

/-- C14. The typed accessors: `AsString` returns the payload of a simple
string, an error and a non-null bulk string and fails for the null bulk
string, an integer and an array; `AsInteger` returns the payload of an integer
and fails for every other variant; `AsArray` returns the elements of a
non-null array (the empty one included) and fails for the null array and
every other variant. -/
theorem typed_accessors :
    (∀ s, (NewSimpleString s).AsString = .ok s) ∧
      (∀ s, (NewError s).AsString = .ok s) ∧
      (∀ b, (NewBulkString b).AsString = .ok b) ∧
      (∃ e, NewNullBulkString.AsString = .error e) ∧
      (∀ n, ∃ e, (NewInteger n).AsString = .error e) ∧
      (∀ v, ∃ e, (Message.Array v).AsString = .error e) ∧
      (∀ n, (NewInteger n).AsInteger = .ok n) ∧
      (∀ m : Message, m.Type ≠ .Integer → ∃ e, m.AsInteger = .error e) ∧
      (∀ xs, (NewArray xs).AsArray = .ok xs) ∧
      (NewArray []).AsArray = .ok [] ∧
      (∃ e, NewNullArray.AsArray = .error e) ∧
      (∀ m : Message, m.Type ≠ .Array → ∃ e, m.AsArray = .error e) ∧
      (∀ (m : Message) (s : List Nat), m.AsString = .ok s ↔
        (m = NewSimpleString s ∨ m = NewError s ∨ m = NewBulkString s)) ∧
      (∀ (m : Message) (n : Int), m.AsInteger = .ok n ↔ m = NewInteger n) ∧
      (∀ (m : Message) (xs : List Message), m.AsArray = .ok xs ↔ m = NewArray xs) := by
  refine ⟨fun _ => rfl, fun _ => rfl, fun _ => rfl, ⟨_, rfl⟩, fun _ => ⟨_, rfl⟩, ?_,
    fun _ => rfl, ?_, fun _ => rfl, rfl, ⟨_, rfl⟩, ?_, ?_, ?_, ?_⟩
  · intro v
    cases v <;> exact ⟨_, rfl⟩
  · intro m hm
    cases m with
    | Integer n => exact absurd rfl hm
    | SimpleString s => exact ⟨_, rfl⟩
    | Error s => exact ⟨_, rfl⟩
    | BulkString b => exact ⟨_, rfl⟩
    | Array v => exact ⟨_, rfl⟩
  · intro m hm
    cases m with
    | Array v => exact absurd rfl hm
    | SimpleString s => exact ⟨_, rfl⟩
    | Error s => exact ⟨_, rfl⟩
    | BulkString b => exact ⟨_, rfl⟩
    | Integer n => exact ⟨_, rfl⟩
  · intro m s
    cases m with
    | SimpleString v => simp [Message.AsString, NewSimpleString, NewError, NewBulkString]
    | Error v => simp [Message.AsString, NewSimpleString, NewError, NewBulkString]
    | Integer n => simp [Message.AsString, NewSimpleString, NewError, NewBulkString]
    | BulkString b =>
      cases b <;> simp [Message.AsString, NewSimpleString, NewError, NewBulkString]
    | Array v =>
      cases v <;> simp [Message.AsString, NewSimpleString, NewError, NewBulkString]
  · intro m n
    cases m with
    | Integer v => simp [Message.AsInteger, NewInteger]
    | SimpleString v => simp [Message.AsInteger, NewInteger]
    | Error v => simp [Message.AsInteger, NewInteger]
    | BulkString b => simp [Message.AsInteger, NewInteger]
    | Array v => simp [Message.AsInteger, NewInteger]
  · intro m xs
    cases m with
    | Array v => cases v <;> simp [Message.AsArray, NewArray]
    | SimpleString v => simp [Message.AsArray, NewArray]
    | Error v => simp [Message.AsArray, NewArray]
    | BulkString b => simp [Message.AsArray, NewArray]
    | Integer n => simp [Message.AsArray, NewArray]

theorem typed_accessors_witness :
    (NewBulkString (ascii "x")).Type ≠ .Integer ∧
      (∃ e, (NewBulkString (ascii "x")).AsInteger = .error e) ∧
      (NewInteger 5).Type ≠ .Array ∧ (∃ e, (NewInteger 5).AsArray = .error e) :=
  ⟨by decide, typed_accessors.2.2.2.2.2.2.2.1 (NewBulkString (ascii "x")) (by decide),
    by decide, typed_accessors.2.2.2.2.2.2.2.2.2.2.2.1 (NewInteger 5) (by decide)⟩


/-! ## Command dispatch -/

/-- C15. Dispatch of an unknown command: for every registry, every name not
registered in it, every argument list and every store, `CommandHandler.Execute`
returns the error message "ERR unknown command '" ++ name ++ "'" with no Go
error, and the store is unchanged. -/
theorem Execute_unknown_command (h : CommandHandler) (commandName : List Nat)
    (args : List Message) (store : MemoryStore) (hn : h.GetCommand commandName = none) :
    h.Execute commandName args store =
      .ok (⟨some (NewError (ascii "ERR unknown command '" ++ commandName ++ ascii "'")), none⟩,
        store) := by
  unfold CommandHandler.GetCommand at hn
  simp [CommandHandler.Execute, hn]

theorem Execute_unknown_command_witness :
    (NewCommandHandler.Register GetCommand.command).GetCommand (ascii "UNKNOWN") = none ∧
      (NewCommandHandler.Register GetCommand.command).Execute (ascii "UNKNOWN")
          [NewBulkString (ascii "k")] NewMemoryStore =
        .ok (⟨some (NewError (ascii "ERR unknown command '" ++ ascii "UNKNOWN" ++ ascii "'")),
          none⟩, NewMemoryStore) :=
  ⟨rfl, Execute_unknown_command _ _ _ _ rfl⟩

/-- C16. Dispatch of a registered command: for every name registered with a
handler `command`, every argument list and every store, `CommandHandler.Execute`
returns the error message "ERR " ++ problem with no Go error and the store
unchanged when `command.Validate` reports a problem, whatever
`command.Execute` would do; otherwise it returns exactly what
`command.Execute` returns on the arguments and the store. -/
theorem Execute_registered_command (h : CommandHandler) (commandName : List Nat)
    (command : Command) (args : List Message) (store : MemoryStore)
    (hreg : h.GetCommand commandName = some command) :
    (∀ problem, command.Validate args = some problem →
        h.Execute commandName args store =
          .ok (⟨some (NewError (ascii "ERR " ++ problem)), none⟩, store)) ∧
      (command.Validate args = none →
        h.Execute commandName args store = command.Execute args store) := by
  unfold CommandHandler.GetCommand at hreg
  constructor
  · intro problem hp
    simp [CommandHandler.Execute, hreg, hp]
  · intro hp
    simp [CommandHandler.Execute, hreg, hp]

theorem Execute_registered_command_witness :
    (NewCommandHandler.Register GetCommand.command).GetCommand (ascii "GET") =
        some GetCommand.command ∧
      GetCommand.command.Validate [] =
        some (ascii "wrong number of arguments for 'get' command") ∧
      (NewCommandHandler.Register GetCommand.command).Execute (ascii "GET") [] NewMemoryStore =
        .ok (⟨some (NewError (ascii "ERR " ++
          ascii "wrong number of arguments for 'get' command")), none⟩, NewMemoryStore) ∧
      GetCommand.command.Validate [NewBulkString (ascii "k")] = none ∧
      (NewCommandHandler.Register GetCommand.command).Execute (ascii "GET")
          [NewBulkString (ascii "k")] NewMemoryStore =
        GetCommand.command.Execute [NewBulkString (ascii "k")] NewMemoryStore :=
  ⟨rfl, rfl,
    (Execute_registered_command (NewCommandHandler.Register GetCommand.command) (ascii "GET")
      GetCommand.command [] NewMemoryStore rfl).1 _ rfl,
    rfl,
    (Execute_registered_command (NewCommandHandler.Register GetCommand.command) (ascii "GET")
      GetCommand.command [NewBulkString (ascii "k")] NewMemoryStore rfl).2 rfl⟩

theorem GetCommand_foldl_Register (cs : List Command) (h : CommandHandler) (name : List Nat)
    (hcs : ∀ c ∈ cs, c.Name ≠ name) :
    (cs.foldl CommandHandler.Register h).GetCommand name = h.GetCommand name := by
  induction cs generalizing h with
  | nil => rfl
  | cons c cs ih =>
    rw [List.foldl_cons, ih (h.Register c) (fun x hx => hcs x (List.mem_cons_of_mem _ hx))]
    have hne : ¬ name = c.Name := fun e => hcs c (List.mem_cons_self _ _) e.symm
    simp [CommandHandler.GetCommand, CommandHandler.Register, hne]

/-- C17. Registration: after `Register c`, `GetCommand` of the name of `c`
returns `c`; a second registration under the same name replaces the first;
the lookup of every other name is unchanged; a name never registered is not
found; the lookup compares names byte for byte, so a command registered as
"PING" is not found as "ping". -/
theorem Register_GetCommand (h : CommandHandler) (c c2 : Command) :
    (h.Register c).GetCommand c.Name = some c ∧
      (c2.Name = c.Name → ((h.Register c).Register c2).GetCommand c.Name = some c2) ∧
      (∀ name, name ≠ c.Name → (h.Register c).GetCommand name = h.GetCommand name) ∧
      (∀ (cs : List Command) (name : List Nat), (∀ x ∈ cs, x.Name ≠ name) →
        (cs.foldl CommandHandler.Register NewCommandHandler).GetCommand name = none) ∧
      (c.Name = ascii "PING" →
        (NewCommandHandler.Register c).GetCommand (ascii "ping") = none) := by
  refine ⟨?_, ?_, ?_, ?_, ?_⟩
  · simp [CommandHandler.GetCommand, CommandHandler.Register]
  · intro hn
    simp [CommandHandler.GetCommand, CommandHandler.Register, hn]
  · intro name hne
    simp [CommandHandler.GetCommand, CommandHandler.Register, hne]
  · intro cs name hcs
    rw [GetCommand_foldl_Register cs NewCommandHandler name hcs]
    rfl
  · intro hn
    have hne : ¬ ascii "ping" = c.Name := by
      rw [hn]
      decide
    simp [CommandHandler.GetCommand, CommandHandler.Register, hne, NewCommandHandler]

theorem Register_GetCommand_witness :
    SetCommand.command.Name = SetCommand.command.Name ∧
      ((NewCommandHandler.Register SetCommand.command).Register SetCommand.command).GetCommand
          SetCommand.command.Name = some SetCommand.command ∧
      ascii "GET" ≠ SetCommand.command.Name ∧
      (NewCommandHandler.Register SetCommand.command).GetCommand (ascii "GET") =
        NewCommandHandler.GetCommand (ascii "GET") ∧
      (∀ x ∈ [GetCommand.command, SetCommand.command], x.Name ≠ ascii "PING") ∧
      ([GetCommand.command, SetCommand.command].foldl CommandHandler.Register
        NewCommandHandler).GetCommand (ascii "PING") = none :=
  have hcs : ∀ x ∈ [GetCommand.command, SetCommand.command], x.Name ≠ ascii "PING" := by
    intro x hx
    simp only [List.mem_cons, List.mem_singleton, List.not_mem_nil, or_false] at hx
    rcases hx with rfl | rfl <;> decide
  ⟨rfl, (Register_GetCommand NewCommandHandler SetCommand.command SetCommand.command).2.1 rfl,
    by decide,
    (Register_GetCommand NewCommandHandler SetCommand.command SetCommand.command).2.2.1
      (ascii "GET") (by decide),
    hcs,
    (Register_GetCommand NewCommandHandler SetCommand.command SetCommand.command).2.2.2.1
      [GetCommand.command, SetCommand.command] (ascii "PING") hcs⟩


theorem Execute_validate_error (h : CommandHandler) (commandName : List Nat)
    (command : Command) (args : List Message) (store : MemoryStore) (problem : List Nat)
    (hreg : h.GetCommand commandName = some command)
    (hp : command.Validate args = some problem) :
    h.Execute commandName args store =
      .ok (⟨some (NewError (ascii "ERR " ++ problem)), none⟩, store) := by
  unfold CommandHandler.GetCommand at hreg
  simp [CommandHandler.Execute, hreg, hp]

/-- C18. Arity enforcement: `Validate` of PING passes iff there are 0 or 1
arguments, of ECHO and of GET iff there is exactly 1, of SET iff there are
exactly 2; dispatching a command that validates as one of these four with a
wrong argument count returns the error message
"ERR wrong number of arguments for '<name>' command" with no Go error and
leaves the store unchanged, whatever its `Execute` does. -/
theorem arity_enforcement (args : List Message) :
    (PingCommand.Validate args = none ↔ (args.length = 0 ∨ args.length = 1)) ∧
      (EchoCommand.Validate args = none ↔ args.length = 1) ∧
      (GetCommand.Validate args = none ↔ args.length = 1) ∧
      (SetCommand.Validate args = none ↔ args.length = 2) ∧
      (∀ (h : CommandHandler) (name : List Nat) (c : Command) (store : MemoryStore),
        h.GetCommand name = some c →
        (c.Validate = PingCommand.Validate → ¬ (args.length = 0 ∨ args.length = 1) →
          h.Execute name args store = .ok (⟨some (NewError
            (ascii "ERR wrong number of arguments for 'ping' command")), none⟩, store)) ∧
        (c.Validate = EchoCommand.Validate → args.length ≠ 1 →
          h.Execute name args store = .ok (⟨some (NewError
            (ascii "ERR wrong number of arguments for 'echo' command")), none⟩, store)) ∧
        (c.Validate = GetCommand.Validate → args.length ≠ 1 →
          h.Execute name args store = .ok (⟨some (NewError
            (ascii "ERR wrong number of arguments for 'get' command")), none⟩, store)) ∧
        (c.Validate = SetCommand.Validate → args.length ≠ 2 →
          h.Execute name args store = .ok (⟨some (NewError
            (ascii "ERR wrong number of arguments for 'set' command")), none⟩, store))) := by
  refine ⟨?_, ?_, ?_, ?_, ?_⟩
  · unfold PingCommand.Validate
    by_cases h : args.length > 1
    · simp only [h, if_true]
      constructor
      · intro hc; cases hc
      · intro hc; omega
    · simp only [h, if_false, true_iff]
      omega
  · unfold EchoCommand.Validate
    by_cases h : args.length = 1 <;> simp [h]
  · unfold GetCommand.Validate
    by_cases h : args.length = 1 <;> simp [h]
  · unfold SetCommand.Validate
    by_cases h : args.length = 2 <;> simp [h]
  · intro h name c store hreg
    refine ⟨?_, ?_, ?_, ?_⟩
    · intro hv hn
      have hp : c.Validate args =
          some (ascii "wrong number of arguments for 'ping' command") := by
        have : args.length > 1 := by omega
        rw [hv]
        simp [PingCommand.Validate, this]
      exact Execute_validate_error h name c args store _ hreg hp
    · intro hv hn
      have hp : c.Validate args =
          some (ascii "wrong number of arguments for 'echo' command") := by
        rw [hv]
        simp [EchoCommand.Validate, hn]
      exact Execute_validate_error h name c args store _ hreg hp
    · intro hv hn
      have hp : c.Validate args =
          some (ascii "wrong number of arguments for 'get' command") := by
        rw [hv]
        simp [GetCommand.Validate, hn]
      exact Execute_validate_error h name c args store _ hreg hp
    · intro hv hn
      have hp : c.Validate args =
          some (ascii "wrong number of arguments for 'set' command") := by
        rw [hv]
        simp [SetCommand.Validate, hn]
      exact Execute_validate_error h name c args store _ hreg hp

theorem arity_enforcement_witness :
    (NewCommandHandler.Register SetCommand.command).GetCommand (ascii "SET") =
        some SetCommand.command ∧
      SetCommand.command.Validate = SetCommand.Validate ∧
      [NewBulkString (ascii "k")].length ≠ 2 ∧
      (NewCommandHandler.Register SetCommand.command).Execute (ascii "SET")
          [NewBulkString (ascii "k")] NewMemoryStore =
        .ok (⟨some (NewError (ascii "ERR wrong number of arguments for 'set' command")), none⟩,
          NewMemoryStore) :=
  ⟨rfl, rfl, by decide,
    ((arity_enforcement [NewBulkString (ascii "k")]).2.2.2.2
      (NewCommandHandler.Register SetCommand.command) (ascii "SET") SetCommand.command
      NewMemoryStore rfl).2.2.2 rfl (by decide)⟩

/-! ## GET and SET -/

theorem keyOf_string (k : List Nat) (keyArg : Message)
    (hk : keyArg = NewSimpleString k ∨ keyArg = NewBulkString k) : keyOf keyArg = .ok k := by
  rcases hk with rfl | rfl <;> rfl

theorem GetCommand_Execute_key (store : MemoryStore) (k : List Nat) (keyArg : Message)
    (hk : keyArg = NewSimpleString k ∨ keyArg = NewBulkString k) (rest : List Message) :
    GetCommand.Execute (keyArg :: rest) store =
      match store.data.lookup k with
      | none => .ok (⟨some NewNullBulkString, none⟩, store)
      | some v => .ok (⟨some (NewBulkString v), none⟩, store) := by
  simp only [GetCommand.Execute, keyOf_string k keyArg hk, MemoryStore.Get]
  cases store.data.lookup k <;> rfl

/-- C19. GET: for every store and every key `k` given as a simple string or a
non-null bulk string, `Execute` of GET returns the null bulk string when `k`
is absent from the store and the non-null bulk string of `v` when the store
maps `k` to `v` (the empty `v` included); it returns no Go error and leaves
the store unchanged. -/
theorem GetCommand_Execute_spec (store : MemoryStore) (k : List Nat) (keyArg : Message)
    (hk : keyArg = NewSimpleString k ∨ keyArg = NewBulkString k) (rest : List Message) :
    (store.Exists k = false →
        GetCommand.Execute (keyArg :: rest) store =
          .ok (⟨some NewNullBulkString, none⟩, store)) ∧
      (∀ v, store.Get k = (v, true) →
        GetCommand.Execute (keyArg :: rest) store =
          .ok (⟨some (NewBulkString v), none⟩, store)) ∧
      (store.Get k = ([], true) →
        GetCommand.Execute (keyArg :: rest) store =
          .ok (⟨some (NewBulkString []), none⟩, store) ∧
        (NewBulkString []).IsNull = false) := by
  have key := GetCommand_Execute_key store k keyArg hk rest
  have hsome : ∀ v, store.Get k = (v, true) →
      GetCommand.Execute (keyArg :: rest) store =
        .ok (⟨some (NewBulkString v), none⟩, store) := by
    intro v hv
    unfold MemoryStore.Get at hv
    cases hl : store.data.lookup k with
    | none => rw [hl] at hv; simp at hv
    | some x =>
      rw [hl] at hv
      simp only [Prod.mk.injEq, and_true] at hv
      rw [key, hl, hv]
  refine ⟨?_, hsome, fun h0 => ⟨hsome [] h0, rfl⟩⟩
  intro hn
  unfold MemoryStore.Exists at hn
  cases hl : store.data.lookup k with
  | none => rw [key, hl]
  | some x => rw [hl] at hn; simp at hn

theorem GetCommand_Execute_spec_witness :
    (NewBulkString (ascii "k") = NewSimpleString (ascii "k") ∨
        NewBulkString (ascii "k") = NewBulkString (ascii "k")) ∧
      NewMemoryStore.Exists (ascii "k") = false ∧
      GetCommand.Execute (NewBulkString (ascii "k") :: []) NewMemoryStore =
        .ok (⟨some NewNullBulkString, none⟩, NewMemoryStore) ∧
      (NewMemoryStore.Set (ascii "k") []).1.Get (ascii "k") = ([], true) ∧
      GetCommand.Execute (NewBulkString (ascii "k") :: [])
          (NewMemoryStore.Set (ascii "k") []).1 =
        .ok (⟨some (NewBulkString []), none⟩, (NewMemoryStore.Set (ascii "k") []).1) :=
  ⟨Or.inr rfl, rfl,
    (GetCommand_Execute_spec NewMemoryStore (ascii "k") (NewBulkString (ascii "k"))
      (Or.inr rfl) []).1 rfl,
    rfl,
    (GetCommand_Execute_spec (NewMemoryStore.Set (ascii "k") []).1 (ascii "k")
      (NewBulkString (ascii "k")) (Or.inr rfl) []).2.1 [] rfl⟩

/-- C20. SET then GET: for every store, every key `k` given as a simple string
or a non-null bulk string, and every value given as a simple string `s`, a
non-null bulk string `b`, an integer `n` or the null bulk string, `Execute`
of SET returns the simple string "OK" and the store then maps `k` to `s`, `b`,
the decimal text of `n`, or the empty string; a following GET of `k`, given in
either string variant, returns the non-null bulk string of that text, and
the mapping of every other key is unchanged. -/
theorem SetCommand_then_GetCommand (store : MemoryStore) (k : List Nat) (keyArg : Message)
    (hk : keyArg = NewSimpleString k ∨ keyArg = NewBulkString k)
    (valueArg : Message) (text : List Nat)
    (hv : valueArg = NewSimpleString text ∨ valueArg = NewBulkString text ∨
      (∃ n : Int, valueArg = NewInteger n ∧ text = formatInt n) ∨
      (valueArg = NewNullBulkString ∧ text = [])) :
    ∃ store1,
      SetCommand.Execute [keyArg, valueArg] store =
          .ok (⟨some (NewSimpleString (ascii "OK")), none⟩, store1) ∧
        store1.Get k = (text, true) ∧
        (∀ keyArg2, keyArg2 = NewSimpleString k ∨ keyArg2 = NewBulkString k →
          GetCommand.Execute [keyArg2] store1 =
            .ok (⟨some (NewBulkString text), none⟩, store1)) ∧
        (∀ k2, k2 ≠ k → store1.Get k2 = store.Get k2 ∧ store1.Exists k2 = store.Exists k2) := by
  have hval : valueOf valueArg = .ok text := by
    rcases hv with rfl | rfl | ⟨n, rfl, rfl⟩ | ⟨rfl, rfl⟩ <;> rfl
  refine ⟨⟨store.data.insert k text⟩, ?_, ?_, ?_, ?_⟩
  · simp [SetCommand.Execute, keyOf_string k keyArg hk, hval, MemoryStore.Set]
  · simp [MemoryStore.Get, AList.lookup_insert]
  · intro keyArg2 hk2
    rw [GetCommand_Execute_key _ k keyArg2 hk2 []]
    simp [AList.lookup_insert]
  · intro k2 hne
    simp [MemoryStore.Get, MemoryStore.Exists, AList.lookup_insert_ne hne]

theorem SetCommand_then_GetCommand_witness :
    (NewSimpleString (ascii "foo") = NewSimpleString (ascii "foo") ∨
        NewSimpleString (ascii "foo") = NewBulkString (ascii "foo")) ∧
      (NewInteger (-42) = NewSimpleString (ascii "-42") ∨
        NewInteger (-42) = NewBulkString (ascii "-42") ∨
        (∃ n : Int, NewInteger (-42) = NewInteger n ∧ ascii "-42" = formatInt n) ∨
        (NewInteger (-42) = NewNullBulkString ∧ ascii "-42" = [])) ∧
      ∃ store1,
        SetCommand.Execute [NewSimpleString (ascii "foo"), NewInteger (-42)] NewMemoryStore =
            .ok (⟨some (NewSimpleString (ascii "OK")), none⟩, store1) ∧
          store1.Get (ascii "foo") = (ascii "-42", true) ∧
          (∀ keyArg2, keyArg2 = NewSimpleString (ascii "foo") ∨
              keyArg2 = NewBulkString (ascii "foo") →
            GetCommand.Execute [keyArg2] store1 =
              .ok (⟨some (NewBulkString (ascii "-42")), none⟩, store1)) ∧
          (∀ k2, k2 ≠ ascii "foo" →
            store1.Get k2 = NewMemoryStore.Get k2 ∧
              store1.Exists k2 = NewMemoryStore.Exists k2) :=
  ⟨Or.inl rfl, Or.inr (Or.inr (Or.inl ⟨-42, rfl, rfl⟩)),
    SetCommand_then_GetCommand NewMemoryStore (ascii "foo") (NewSimpleString (ascii "foo"))
      (Or.inl rfl) (NewInteger (-42)) (ascii "-42")
      (Or.inr (Or.inr (Or.inl ⟨-42, rfl, rfl⟩)))⟩


theorem keyOf_invalid (keyArg : Message)
    (hk : keyArg.Type = .Integer ∨ keyArg.Type = .Error ∨ keyArg.Type = .Array) :
    keyOf keyArg = .error (NewError (ascii "ERR invalid key type")) := by
  cases keyArg with
  | SimpleString v => simp [Message.Type] at hk
  | BulkString v => simp [Message.Type] at hk
  | Error v => rfl
  | Integer v => rfl
  | Array v => rfl

/-- C21. Key type errors: for GET with one argument and SET with two, a key
argument that is the null bulk string gives the error message
"ERR key cannot be null", and one that is an integer, an error or an array
gives "ERR invalid key type"; no Go error is returned and the store is left as
it was. -/
theorem key_type_errors (store : MemoryStore) (keyArg valueArg : Message) :
    (keyArg = NewNullBulkString →
        GetCommand.Execute [keyArg] store =
            .ok (⟨some (NewError (ascii "ERR key cannot be null")), none⟩, store) ∧
          SetCommand.Execute [keyArg, valueArg] store =
            .ok (⟨some (NewError (ascii "ERR key cannot be null")), none⟩, store)) ∧
      (keyArg.Type = .Integer ∨ keyArg.Type = .Error ∨ keyArg.Type = .Array →
        GetCommand.Execute [keyArg] store =
            .ok (⟨some (NewError (ascii "ERR invalid key type")), none⟩, store) ∧
          SetCommand.Execute [keyArg, valueArg] store =
            .ok (⟨some (NewError (ascii "ERR invalid key type")), none⟩, store)) := by
  constructor
  · rintro rfl
    exact ⟨rfl, rfl⟩
  · intro hk
    have h := keyOf_invalid keyArg hk
    constructor
    · simp [GetCommand.Execute, h]
    · simp [SetCommand.Execute, h]

theorem key_type_errors_witness :
    (NewNullBulkString = NewNullBulkString ∧
        SetCommand.Execute [NewNullBulkString, NewBulkString (ascii "v")] NewMemoryStore =
          .ok (⟨some (NewError (ascii "ERR key cannot be null")), none⟩, NewMemoryStore)) ∧
      ((NewInteger 7).Type = .Integer ∨ (NewInteger 7).Type = .Error ∨
          (NewInteger 7).Type = .Array) ∧
      GetCommand.Execute [NewInteger 7] NewMemoryStore =
        .ok (⟨some (NewError (ascii "ERR invalid key type")), none⟩, NewMemoryStore) :=
  ⟨⟨rfl, ((key_type_errors NewMemoryStore NewNullBulkString
      (NewBulkString (ascii "v"))).1 rfl).2⟩,
    Or.inl rfl,
    ((key_type_errors NewMemoryStore (NewInteger 7) (NewInteger 7)).2 (Or.inl rfl)).1⟩

/-- C22. SET value type error: for every key given as a simple string or a
non-null bulk string and every value argument that is an array (null or not)
or an error message, `Execute` of SET returns the error message
"ERR invalid value type" with no Go error, and the store is left as it was:
a value already stored under the key stays. -/
theorem SetCommand_invalid_value (store : MemoryStore) (k : List Nat) (keyArg : Message)
    (hk : keyArg = NewSimpleString k ∨ keyArg = NewBulkString k) (valueArg : Message)
    (hv : valueArg.Type = .Array ∨ valueArg.Type = .Error) :
    SetCommand.Execute [keyArg, valueArg] store =
      .ok (⟨some (NewError (ascii "ERR invalid value type")), none⟩, store) := by
  have hval : valueOf valueArg = .error (NewError (ascii "ERR invalid value type")) := by
    cases valueArg with
    | SimpleString v => simp [Message.Type] at hv
    | BulkString v => simp [Message.Type] at hv
    | Integer v => simp [Message.Type] at hv
    | Error v => rfl
    | Array v => rfl
  simp [SetCommand.Execute, keyOf_string k keyArg hk, hval]

theorem SetCommand_invalid_value_witness :
    (NewBulkString (ascii "k") = NewSimpleString (ascii "k") ∨
        NewBulkString (ascii "k") = NewBulkString (ascii "k")) ∧
      (NewNullArray.Type = .Array ∨ NewNullArray.Type = .Error) ∧
      SetCommand.Execute [NewBulkString (ascii "k"), NewNullArray]
          (NewMemoryStore.Set (ascii "k") (ascii "old")).1 =
        .ok (⟨some (NewError (ascii "ERR invalid value type")), none⟩,
          (NewMemoryStore.Set (ascii "k") (ascii "old")).1) ∧
      (NewMemoryStore.Set (ascii "k") (ascii "old")).1.Get (ascii "k") = (ascii "old", true) :=
  ⟨Or.inr rfl, Or.inl rfl,
    SetCommand_invalid_value _ (ascii "k") (NewBulkString (ascii "k")) (Or.inr rfl)
      NewNullArray (Or.inl rfl),
    rfl⟩

/-! ## PING and ECHO -/

/-- C23. PING: `Execute` with no argument returns the simple string "PONG";
with one argument it returns the message of the same variant and payload when
the argument is a simple string or a bulk string (the null one included), and
the error message "ERR invalid argument type for PING" when it is an integer,
an error or an array; it never returns a Go error. -/
theorem PingCommand_Execute_spec :
    PingCommand.Execute [] = .ok ⟨some (NewSimpleString (ascii "PONG")), none⟩ ∧
      (∀ s, PingCommand.Execute [NewSimpleString s] = .ok ⟨some (NewSimpleString s), none⟩) ∧
      (∀ b, PingCommand.Execute [NewBulkString b] = .ok ⟨some (NewBulkString b), none⟩) ∧
      PingCommand.Execute [NewNullBulkString] = .ok ⟨some NewNullBulkString, none⟩ ∧
      (∀ arg : Message, arg.Type = .Integer ∨ arg.Type = .Error ∨ arg.Type = .Array →
        PingCommand.Execute [arg] =
          .ok ⟨some (NewError (ascii "ERR invalid argument type for PING")), none⟩) ∧
      (∀ args : List Message, ∃ m, PingCommand.Execute args = .ok ⟨some m, none⟩) := by
  refine ⟨rfl, fun _ => rfl, fun _ => rfl, rfl, ?_, ?_⟩
  · intro arg h
    cases arg with
    | SimpleString v => simp [Message.Type] at h
    | BulkString v => simp [Message.Type] at h
    | Error v => rfl
    | Integer v => rfl
    | Array v => rfl
  · intro args
    cases args with
    | nil => exact ⟨_, rfl⟩
    | cons arg rest =>
      cases arg with
      | SimpleString v => exact ⟨_, rfl⟩
      | BulkString v => cases v <;> exact ⟨_, rfl⟩
      | Error v => exact ⟨_, rfl⟩
      | Integer v => exact ⟨_, rfl⟩
      | Array v => exact ⟨_, rfl⟩

theorem PingCommand_Execute_spec_witness :
    ((NewInteger 1).Type = .Integer ∨ (NewInteger 1).Type = .Error ∨
        (NewInteger 1).Type = .Array) ∧
      PingCommand.Execute [NewInteger 1] =
        .ok ⟨some (NewError (ascii "ERR invalid argument type for PING")), none⟩ :=
  ⟨Or.inl rfl, PingCommand_Execute_spec.2.2.2.2.1 (NewInteger 1) (Or.inl rfl)⟩

/-- C24. ECHO: `Execute` with one argument answers with the bulk string of `b`
for a non-null bulk string `b`, the null bulk string for the null bulk
string, the bulk string of `s` for a simple string `s`, the bulk string of
the decimal text of `n` for an integer `n`, and the error message
"ERR invalid argument type for ECHO" for an array or an error; with an
argument it never returns a Go error. -/
theorem EchoCommand_Execute_spec :
    (∀ b, EchoCommand.Execute [NewBulkString b] = .ok ⟨some (NewBulkString b), none⟩) ∧
      EchoCommand.Execute [NewNullBulkString] = .ok ⟨some NewNullBulkString, none⟩ ∧
      (∀ s, EchoCommand.Execute [NewSimpleString s] = .ok ⟨some (NewBulkString s), none⟩) ∧
      (∀ n : Int, EchoCommand.Execute [NewInteger n] =
        .ok ⟨some (NewBulkString (formatInt n)), none⟩) ∧
      EchoCommand.Execute [NewInteger 42] = .ok ⟨some (NewBulkString (ascii "42")), none⟩ ∧
      (∀ arg : Message, arg.Type = .Array ∨ arg.Type = .Error →
        EchoCommand.Execute [arg] =
          .ok ⟨some (NewError (ascii "ERR invalid argument type for ECHO")), none⟩) ∧
      (∀ (arg : Message) (rest : List Message),
        ∃ m, EchoCommand.Execute (arg :: rest) = .ok ⟨some m, none⟩) := by
  refine ⟨fun _ => rfl, rfl, fun _ => rfl, fun _ => rfl, rfl, ?_, ?_⟩
  · intro arg h
    cases arg with
    | SimpleString v => simp [Message.Type] at h
    | BulkString v => simp [Message.Type] at h
    | Integer v => simp [Message.Type] at h
    | Error v => rfl
    | Array v => rfl
  · intro arg rest
    cases arg with
    | SimpleString v => exact ⟨_, rfl⟩
    | BulkString v => cases v <;> exact ⟨_, rfl⟩
    | Error v => exact ⟨_, rfl⟩
    | Integer v => exact ⟨_, rfl⟩
    | Array v => exact ⟨_, rfl⟩

theorem EchoCommand_Execute_spec_witness :
    (NewNullArray.Type = .Array ∨ NewNullArray.Type = .Error) ∧
      EchoCommand.Execute [NewNullArray] =
        .ok ⟨some (NewError (ascii "ERR invalid argument type for ECHO")), none⟩ :=
  ⟨Or.inl rfl, EchoCommand_Execute_spec.2.2.2.2.2.1 NewNullArray (Or.inl rfl)⟩


/-! ## The connection loop -/

/-- C25. Request validation: for every message, every registry and every
store, `processCommand` returns the error message
"ERR Protocol error: expected array" when the message is not an array,
"... null array" when it is the null array, "... empty array" when it has no
elements, "... command name must be a string" when the first element is
neither a bulk string nor a simple string, and "... null command name" when
the first element is the null bulk string; the result does not depend on the
registry, and the store is unchanged. -/
theorem processCommand_protocol_errors (mapUpper : List Nat → List Nat) (c : Connection)
    (store : MemoryStore) :
    (∀ m : Message, m.Type ≠ .Array →
        c.processCommand mapUpper store m =
          .ok (some (NewError (ascii "ERR Protocol error: expected array")), store)) ∧
      c.processCommand mapUpper store NewNullArray =
        .ok (some (NewError (ascii "ERR Protocol error: null array")), store) ∧
      c.processCommand mapUpper store (NewArray []) =
        .ok (some (NewError (ascii "ERR Protocol error: empty array")), store) ∧
      (∀ (first : Message) (rest : List Message),
        first.Type ≠ .BulkString → first.Type ≠ .SimpleString →
        c.processCommand mapUpper store (NewArray (first :: rest)) =
          .ok (some (NewError (ascii "ERR Protocol error: command name must be a string")),
            store)) ∧
      (∀ rest : List Message,
        c.processCommand mapUpper store (NewArray (NewNullBulkString :: rest)) =
          .ok (some (NewError (ascii "ERR Protocol error: null command name")), store)) := by
  refine ⟨?_, rfl, rfl, ?_, fun _ => rfl⟩
  · intro m hm
    cases m with
    | Array v => exact absurd rfl hm
    | SimpleString v => rfl
    | Error v => rfl
    | Integer v => rfl
    | BulkString v => rfl
  · intro first rest h1 h2
    cases first with
    | BulkString v => exact absurd rfl h1
    | SimpleString v => exact absurd rfl h2
    | Error v => rfl
    | Integer v => rfl
    | Array v => rfl

theorem processCommand_protocol_errors_witness :
    (NewSimpleString (ascii "NOT_ARRAY")).Type ≠ .Array ∧
      (NewConnection [] NewCommandHandler).processCommand id NewMemoryStore
          (NewSimpleString (ascii "NOT_ARRAY")) =
        .ok (some (NewError (ascii "ERR Protocol error: expected array")), NewMemoryStore) ∧
      (NewInteger 123).Type ≠ .BulkString ∧ (NewInteger 123).Type ≠ .SimpleString ∧
      (NewConnection [] NewCommandHandler).processCommand id NewMemoryStore
          (NewArray (NewInteger 123 :: [])) =
        .ok (some (NewError (ascii "ERR Protocol error: command name must be a string")),
          NewMemoryStore) :=
  ⟨by decide,
    (processCommand_protocol_errors id (NewConnection [] NewCommandHandler) NewMemoryStore).1
      _ (by decide),
    by decide, by decide,
    (processCommand_protocol_errors id (NewConnection [] NewCommandHandler)
      NewMemoryStore).2.2.2.1 (NewInteger 123) [] (by decide) (by decide)⟩

theorem asciiUpper_all (s : List Nat) :
    (asciiUpper s).all (fun c => decide (c < 128)) = s.all (fun c => decide (c < 128)) := by
  induction s with
  | nil => rfl
  | cons c cs ih =>
    have ih1 : (List.map (fun c => if 97 ≤ c ∧ c ≤ 122 then c - 32 else c) cs).all
        (fun c => decide (c < 128)) = cs.all (fun c => decide (c < 128)) := ih
    simp only [asciiUpper, List.map_cons, List.all_cons, ih1]
    congr 1
    by_cases h : 97 ≤ c ∧ c ≤ 122
    · have h1 : c - 32 < 128 := by omega
      have h2 : c < 128 := by omega
      simp [h, h1, h2]
    · simp [h]

theorem ToUpper_congr (mapUpper : List Nat → List Nat)
    (hmap : ∀ s t, asciiUpper s = asciiUpper t → mapUpper s = mapUpper t)
    (s t : List Nat) (h : asciiUpper s = asciiUpper t) :
    ToUpper mapUpper s = ToUpper mapUpper t := by
  have hall : s.all (fun c => decide (c < 128)) = t.all (fun c => decide (c < 128)) := by
    rw [← asciiUpper_all s, ← asciiUpper_all t, h]
  unfold ToUpper
  rw [hall, h, hmap s t h]

/-- C26. Case-insensitive dispatch: for every registry, store and argument
list, two request arrays whose first elements are command names that differ
only in the case of ASCII letters get the same response from
`processCommand`; the name looked up is the upper-cased first element and the
arguments passed to the dispatch are the remaining elements in order.  The
upper-casing of a name with non-ASCII bytes is the one of the Unicode tables,
assumed to treat the ASCII letters as the ASCII path does. -/
theorem processCommand_case_insensitive (mapUpper : List Nat → List Nat)
    (hmap : ∀ s t, asciiUpper s = asciiUpper t → mapUpper s = mapUpper t)
    (c : Connection) (store : MemoryStore) (name1 name2 : List Nat)
    (hcase : asciiUpper name1 = asciiUpper name2) (args : List Message) :
    c.processCommand mapUpper store (NewArray (NewBulkString name1 :: args)) =
        c.processCommand mapUpper store (NewArray (NewBulkString name2 :: args)) ∧
      c.processCommand mapUpper store (NewArray (NewSimpleString name1 :: args)) =
        c.processCommand mapUpper store (NewArray (NewSimpleString name2 :: args)) ∧
      c.processCommand mapUpper store (NewArray (NewBulkString name1 :: args)) =
        responseOf (c.commandHandler.Execute (ToUpper mapUpper name1) args store) ∧
      c.processCommand mapUpper store (NewArray (NewSimpleString name1 :: args)) =
        responseOf (c.commandHandler.Execute (ToUpper mapUpper name1) args store) ∧
      ToUpper mapUpper (ascii "ping") = ascii "PING" ∧
      ToUpper mapUpper (ascii "PiNg") = ascii "PING" ∧
      ToUpper mapUpper (ascii "PING") = ascii "PING" := by
  have h := ToUpper_congr mapUpper hmap name1 name2 hcase
  refine ⟨?_, ?_, rfl, rfl, rfl, rfl, rfl⟩
  · simp only [Connection.processCommand, NewArray, NewBulkString, h]
  · simp only [Connection.processCommand, NewArray, NewSimpleString, h]

theorem processCommand_case_insensitive_witness :
    (∀ s t, asciiUpper s = asciiUpper t → asciiUpper s = asciiUpper t) ∧
      asciiUpper (ascii "ping") = asciiUpper (ascii "PiNg") ∧
      (NewConnection [] (NewServer [] 6379).commandHandler).processCommand asciiUpper
          NewMemoryStore (NewArray (NewBulkString (ascii "ping") :: [])) =
        (NewConnection [] (NewServer [] 6379).commandHandler).processCommand asciiUpper
          NewMemoryStore (NewArray (NewBulkString (ascii "PiNg") :: [])) ∧
      (NewConnection [] (NewServer [] 6379).commandHandler).processCommand asciiUpper
          NewMemoryStore (NewArray (NewBulkString (ascii "ping") :: [])) =
        .ok (some (NewSimpleString (ascii "PONG")), NewMemoryStore) :=
  ⟨fun _ _ h => h, by decide,
    (processCommand_case_insensitive asciiUpper (fun _ _ h => h)
      (NewConnection [] (NewServer [] 6379).commandHandler) NewMemoryStore (ascii "ping")
      (ascii "PiNg") (by decide) []).1,
    rfl⟩


theorem processCommand_handler (mapUpper : List Nat → List Nat) (c1 c2 : Connection)
    (h : c1.commandHandler = c2.commandHandler) (store : MemoryStore) (m : Message) :
    c1.processCommand mapUpper store m = c2.processCommand mapUpper store m := by
  unfold Connection.processCommand
  rw [h]

theorem responses_cons (mapUpper : List Nat → List Nat) (commandHandler : CommandHandler)
    (m : Message) (ms : List Message) (store store2 : MemoryStore) (outs : List (List Nat))
    (h : responses mapUpper commandHandler (m :: ms) store = some (outs, store2)) :
    ∃ response store1 s outs1,
      Connection.processCommand mapUpper ⟨[], [], commandHandler⟩ store m =
          .ok (some response, store1) ∧
        SerializeToString response = .ok s ∧
        responses mapUpper commandHandler ms store1 = some (outs1, store2) ∧
        outs = s :: outs1 := by
  unfold responses at h
  cases hp : Connection.processCommand mapUpper ⟨[], [], commandHandler⟩ store m with
  | error p => rw [hp] at h; cases h
  | ok r =>
    obtain ⟨resp, store1⟩ := r
    rw [hp] at h
    cases resp with
    | none => cases h
    | some response =>
      simp only at h
      cases hs : SerializeToString response with
      | error e => rw [hs] at h; cases h
      | ok s =>
        rw [hs] at h
        simp only at h
        cases hr : responses mapUpper commandHandler ms store1 with
        | none => rw [hr] at h; cases h
        | some q =>
          obtain ⟨outs1, st⟩ := q
          rw [hr] at h
          simp only [Option.some.injEq, Prod.mk.injEq] at h
          obtain ⟨rfl, rfl⟩ := h
          exact ⟨response, store1, s, outs1, rfl, hs, hr, rfl⟩

/-- The loop of `Handle` on frames that parse and are answered, followed by
bytes on which `Parse` fails: it writes the responses in order and stops at
the failing parse. -/
theorem handleLoop_frames (mapUpper : List Nat → List Nat) (commandHandler : CommandHandler)
    (ms : List Message) (steps : Nat) (input output : List Nat) (store store2 : MemoryStore)
    (rest : List Nat) (e : ParseError) (outs : List (List Nat))
    (hframes : Frames input ms rest) (herr : Parse rest = .error e)
    (hresp : responses mapUpper commandHandler ms store = some (outs, store2))
    (hsteps : ms.length < steps) :
    Connection.handleLoop mapUpper commandHandler steps input output store =
      ⟨output ++ outs.flatten, store2, .parseError e⟩ := by
  induction ms generalizing steps input output store outs with
  | nil =>
    simp only [Frames] at hframes
    subst hframes
    simp only [responses, Option.some.injEq, Prod.mk.injEq] at hresp
    obtain ⟨rfl, rfl⟩ := hresp
    obtain ⟨k, rfl⟩ : ∃ k, steps = k + 1 := ⟨steps - 1, by simp at hsteps; omega⟩
    simp [Connection.handleLoop, herr]
  | cons m ms ih =>
    obtain ⟨r, hparse, hrest⟩ := hframes
    obtain ⟨response, store1, s, outs1, hp, hs, hr, rfl⟩ :=
      responses_cons mapUpper commandHandler m ms store store2 outs hresp
    simp only [List.length_cons] at hsteps
    obtain ⟨k, rfl⟩ : ∃ k, steps = k + 1 := ⟨steps - 1, by omega⟩
    have hp2 : Connection.processCommand mapUpper ⟨r, output, commandHandler⟩ store m =
        .ok (some response, store1) := by
      rw [processCommand_handler mapUpper ⟨r, output, commandHandler⟩
        ⟨[], [], commandHandler⟩ rfl store m, hp]
    have hser := Serialize_of_ok response s output hs
    simp only [Connection.handleLoop, hparse, hp2, hser]
    rw [ih k r (output ++ s) store1 outs1 hrest hr (by omega)]
    simp

theorem Handle_frames (mapUpper : List Nat → List Nat) (c : Connection)
    (store store2 : MemoryStore) (ms : List Message) (rest : List Nat) (e : ParseError)
    (outs : List (List Nat)) (hframes : Frames c.input ms rest) (herr : Parse rest = .error e)
    (hresp : responses mapUpper c.commandHandler ms store = some (outs, store2)) :
    c.Handle mapUpper store = ⟨c.output ++ outs.flatten, store2, .parseError e⟩ := by
  have hlen := Frames_length ms c.input rest hframes
  exact handleLoop_frames mapUpper c.commandHandler ms (c.input.length + 1) c.input c.output
    store store2 rest e outs hframes herr hresp (by omega)

/-- C27. Request/response ordering: when the input is `k` complete request
frames followed by the end of the stream, and every response serializes, the
bytes the connection loop writes are the serialized responses that
`processCommand` gives for frame 1, frame 2, ..., frame `k`, in this order,
each computed against the store the previous ones left. -/
theorem Handle_responses_in_order (mapUpper : List Nat → List Nat) (c : Connection)
    (store store2 : MemoryStore) (ms : List Message) (outs : List (List Nat))
    (hframes : Frames c.input ms [])
    (hresp : responses mapUpper c.commandHandler ms store = some (outs, store2)) :
    (c.Handle mapUpper store).output = c.output ++ outs.flatten ∧
      (c.Handle mapUpper store).store = store2 ∧
      (c.Handle mapUpper store).ended = .parseError (.readMessageType .EOF) ∧
      (∀ (m : Message) (rest : List Message) (st st2 : MemoryStore) (s : List Nat)
          (os : List (List Nat)),
        responses mapUpper c.commandHandler (m :: rest) st = some (s :: os, st2) →
        ∃ response st1,
          c.processCommand mapUpper st m = .ok (some response, st1) ∧
            SerializeToString response = .ok s ∧
            responses mapUpper c.commandHandler rest st1 = some (os, st2)) ∧
      ((NewConnection (ascii "*1\r\n$4\r\nPING\r\n")
          ((NewCommandHandler.Register PingCommand.command).Register
            EchoCommand.command)).Handle mapUpper NewMemoryStore).output =
        ascii "+PONG\r\n" ∧
      ((NewConnection (ascii "*2\r\n$4\r\nECHO\r\n$5\r\nhello\r\n")
          ((NewCommandHandler.Register PingCommand.command).Register
            EchoCommand.command)).Handle mapUpper NewMemoryStore).output =
        ascii "$5\r\nhello\r\n" ∧
      ((NewConnection (ascii "*1\r\n$7\r\nUNKNOWN\r\n")
          ((NewCommandHandler.Register PingCommand.command).Register
            EchoCommand.command)).Handle mapUpper NewMemoryStore).output =
        ascii "-ERR unknown command 'UNKNOWN'\r\n" := by
  have h := Handle_frames mapUpper c store store2 ms [] _ outs hframes Parse_nil hresp
  refine ⟨by rw [h], by rw [h], by rw [h], ?_, rfl, rfl, rfl⟩
  intro m rest st st2 s os hr
  obtain ⟨response, st1, s1, outs1, hp, hs, hr1, heq⟩ :=
    responses_cons mapUpper c.commandHandler m rest st st2 (s :: os) hr
  simp only [List.cons.injEq] at heq
  obtain ⟨rfl, rfl⟩ := heq
  refine ⟨response, st1, ?_, hs, hr1⟩
  rw [processCommand_handler mapUpper c ⟨[], [], c.commandHandler⟩ rfl st m, hp]

theorem Handle_responses_in_order_witness :
    Frames (NewConnection (ascii
        "*1\r\n$4\r\nPING\r\n*2\r\n$4\r\nECHO\r\n$5\r\nhello\r\n*1\r\n$7\r\nUNKNOWN\r\n")
        (NewServer [] 6379).commandHandler).input
      [NewArray [NewBulkString (ascii "PING")],
        NewArray [NewBulkString (ascii "ECHO"), NewBulkString (ascii "hello")],
        NewArray [NewBulkString (ascii "UNKNOWN")]] [] ∧
      responses id (NewServer [] 6379).commandHandler
        [NewArray [NewBulkString (ascii "PING")],
          NewArray [NewBulkString (ascii "ECHO"), NewBulkString (ascii "hello")],
          NewArray [NewBulkString (ascii "UNKNOWN")]] NewMemoryStore =
        some ([ascii "+PONG\r\n", ascii "$5\r\nhello\r\n",
          ascii "-ERR unknown command 'UNKNOWN'\r\n"], NewMemoryStore) ∧
      ((NewConnection (ascii
          "*1\r\n$4\r\nPING\r\n*2\r\n$4\r\nECHO\r\n$5\r\nhello\r\n*1\r\n$7\r\nUNKNOWN\r\n")
          (NewServer [] 6379).commandHandler).Handle id NewMemoryStore).output =
        [] ++ [ascii "+PONG\r\n", ascii "$5\r\nhello\r\n",
          ascii "-ERR unknown command 'UNKNOWN'\r\n"].flatten :=
  ⟨⟨_, rfl, _, rfl, _, rfl, rfl⟩, rfl,
    (Handle_responses_in_order id (NewConnection (ascii
        "*1\r\n$4\r\nPING\r\n*2\r\n$4\r\nECHO\r\n$5\r\nhello\r\n*1\r\n$7\r\nUNKNOWN\r\n")
        (NewServer [] 6379).commandHandler) NewMemoryStore NewMemoryStore
      [NewArray [NewBulkString (ascii "PING")],
        NewArray [NewBulkString (ascii "ECHO"), NewBulkString (ascii "hello")],
        NewArray [NewBulkString (ascii "UNKNOWN")]]
      [ascii "+PONG\r\n", ascii "$5\r\nhello\r\n", ascii "-ERR unknown command 'UNKNOWN'\r\n"]
      ⟨_, rfl, _, rfl, _, rfl, rfl⟩ rfl).1⟩


/-- C28, at the failing input. The registry that `NewServer` constructs holds
PING and ECHO and neither GET nor SET: on a connection handled with it, the
SET request of the claim is answered "-ERR unknown command 'SET'\r\n" and
the two GET requests "-ERR unknown command 'GET'\r\n", where the claim has
"+OK\r\n", "$3\r\nbar\r\n" and "$-1\r\n". -/
theorem NewServer_does_not_register_GET_SET (mapUpper : List Nat → List Nat)
    (address : List Nat) (port : Int) :
    (NewServer address port).commandHandler.GetCommand (ascii "SET") = none ∧
      (NewServer address port).commandHandler.GetCommand (ascii "GET") = none ∧
      ((NewServer address port).commandHandler.GetCommand (ascii "PING")).isSome = true ∧
      ((NewServer address port).commandHandler.GetCommand (ascii "ECHO")).isSome = true ∧
      ((NewConnection (ascii "*3\r\n$3\r\nSET\r\n$3\r\nfoo\r\n$3\r\nbar\r\n")
          (NewServer address port).commandHandler).Handle mapUpper NewMemoryStore).output =
        ascii "-ERR unknown command 'SET'\r\n" ∧
      ((NewConnection (ascii "*3\r\n$3\r\nSET\r\n$3\r\nfoo\r\n$3\r\nbar\r\n")
          (NewServer address port).commandHandler).Handle mapUpper NewMemoryStore).store =
        NewMemoryStore ∧
      ((NewConnection (ascii
          "*3\r\n$3\r\nSET\r\n$3\r\nfoo\r\n$3\r\nbar\r\n*2\r\n$3\r\nGET\r\n$3\r\nfoo\r\n")
          (NewServer address port).commandHandler).Handle mapUpper NewMemoryStore).output =
        ascii "-ERR unknown command 'SET'\r\n-ERR unknown command 'GET'\r\n" ∧
      ((NewConnection (ascii "*2\r\n$3\r\nGET\r\n$7\r\nmissing\r\n")
          (NewServer address port).commandHandler).Handle mapUpper NewMemoryStore).output =
        ascii "-ERR unknown command 'GET'\r\n" :=
  ⟨rfl, rfl, rfl, rfl, rfl, rfl, rfl, rfl⟩

/-- C29, at the failing input. The request "*1\r\n$3\r\na\nb\r\n" parses; its
command name is unknown, and the error message that answers it repeats the
name with its LF, so the serializer refuses the response: the loop ends
without writing a byte and the PING request that follows is never read.  A
PING whose argument is a simple string with a bare CR ends the loop the same
way. -/
theorem Handle_user_error_ends_the_loop (mapUpper : List Nat → List Nat)
    (address : List Nat) (port : Int) :
    Parse (ascii "*1\r\n$3\r\na\nb\r\n*1\r\n$4\r\nPING\r\n") =
        .ok (NewArray [NewBulkString (ascii "a\nb")], ascii "*1\r\n$4\r\nPING\r\n") ∧
      (NewConnection [] (NewServer address port).commandHandler).processCommand mapUpper
          NewMemoryStore (NewArray [NewBulkString (ascii "a\nb")]) =
        .ok (some (NewError (ascii "ERR unknown command 'A\nB'")), NewMemoryStore) ∧
      SerializeToString (NewError (ascii "ERR unknown command 'A\nB'")) = .error .errorCRLF ∧
      ((NewConnection (ascii "*1\r\n$3\r\na\nb\r\n*1\r\n$4\r\nPING\r\n")
          (NewServer address port).commandHandler).Handle mapUpper NewMemoryStore).output = [] ∧
      ((NewConnection (ascii "*1\r\n$3\r\na\nb\r\n*1\r\n$4\r\nPING\r\n")
          (NewServer address port).commandHandler).Handle mapUpper NewMemoryStore).ended =
        .serializeError .errorCRLF ∧
      ((NewConnection (ascii "*2\r\n$4\r\nPING\r\n+a\rb\r\n*1\r\n$4\r\nPING\r\n")
          (NewServer address port).commandHandler).Handle mapUpper NewMemoryStore).output = [] ∧
      ((NewConnection (ascii "*2\r\n$4\r\nPING\r\n+a\rb\r\n*1\r\n$4\r\nPING\r\n")
          (NewServer address port).commandHandler).Handle mapUpper NewMemoryStore).ended =
        .serializeError .simpleStringCRLF :=
  ⟨rfl, rfl, rfl, rfl, rfl, rfl, rfl⟩

/-! ## The store -/

theorem MemoryStore_Get_of_lookup (s : MemoryStore) (k : List Nat) :
    s.Get k = (match s.data.lookup k with
      | some v => (v, true)
      | none => ([], false)) := rfl

theorem MemoryStore_keys_length_insert (d : AList (fun _ : List Nat => List Nat))
    (k v : List Nat) :
    (d.insert k v).keys.length = if k ∈ d.keys then d.keys.length else d.keys.length + 1 := by
  rw [AList.keys_insert]
  by_cases h : k ∈ d.keys
  · simp only [h, if_true, List.length_cons]
    have e := @List.length_erase_of_mem _ instBEqOfDecidableEq _ k d.keys h
    have : 0 < d.keys.length := List.length_pos_of_mem h
    omega
  · simp only [h, if_false, List.length_cons]
    have e := @List.erase_of_not_mem _ instBEqOfDecidableEq _ k d.keys h
    rw [e]

theorem MemoryStore_keys_length_erase (d : AList (fun _ : List Nat => List Nat))
    (k : List Nat) (h : k ∈ d.keys) : (d.erase k).keys.length + 1 = d.keys.length := by
  rw [AList.keys_erase]
  have e := @List.length_erase_of_mem _ instBEqOfDecidableEq _ k d.keys h
  have : 0 < d.keys.length := List.length_pos_of_mem h
  omega

theorem MemoryStore_Exists_iff (s : MemoryStore) (k : List Nat) :
    s.Exists k = true ↔ k ∈ s.data.keys := by
  unfold MemoryStore.Exists
  rw [AList.lookup_isSome, AList.mem_keys]

/-- C31. Store write/read: for every store state, key `k` and value `v` (the
empty string included), `Set(k, v)` returns no error; afterwards `Get(k)`
returns `(v, true)` and `Exists(k)` is true, and for every other key the
results of `Get` and `Exists` are as before; `Get` of a key that is not in
the store returns `("", false)`. -/
theorem MemoryStore_Set_Get (s : MemoryStore) (k v : List Nat) :
    (s.Set k v).2 = none ∧
      (s.Set k v).1.Get k = (v, true) ∧
      (s.Set k v).1.Exists k = true ∧
      (∀ k2, k2 ≠ k → (s.Set k v).1.Get k2 = s.Get k2 ∧
        (s.Set k v).1.Exists k2 = s.Exists k2) ∧
      (∀ k2, s.Exists k2 = false → s.Get k2 = ([], false)) ∧
      (s.Set k []).1.Get k = ([], true) ∧
      (∀ k2, NewMemoryStore.Get k2 = ([], false)) := by
  refine ⟨rfl, ?_, ?_, ?_, ?_, ?_, fun _ => rfl⟩
  · simp [MemoryStore.Set, MemoryStore.Get, AList.lookup_insert]
  · simp [MemoryStore.Set, MemoryStore.Exists, AList.lookup_insert]
  · intro k2 hne
    simp [MemoryStore.Set, MemoryStore.Get, MemoryStore.Exists, AList.lookup_insert_ne hne]
  · intro k2 h
    unfold MemoryStore.Exists at h
    unfold MemoryStore.Get
    cases hl : s.data.lookup k2 with
    | none => rfl
    | some x => rw [hl] at h; simp at h
  · simp [MemoryStore.Set, MemoryStore.Get, AList.lookup_insert]

theorem MemoryStore_Set_Get_witness :
    ascii "key2" ≠ ascii "key1" ∧
      ((NewMemoryStore.Set (ascii "key2") (ascii "v")).1.Set (ascii "key1") []).1.Get
          (ascii "key2") = (NewMemoryStore.Set (ascii "key2") (ascii "v")).1.Get (ascii "key2") ∧
      ((NewMemoryStore.Set (ascii "key2") (ascii "v")).1.Set (ascii "key1") []).1.Exists
          (ascii "key2") =
        (NewMemoryStore.Set (ascii "key2") (ascii "v")).1.Exists (ascii "key2") ∧
      NewMemoryStore.Exists (ascii "nonexistent") = false ∧
      NewMemoryStore.Get (ascii "nonexistent") = ([], false) :=
  ⟨by decide,
    ((MemoryStore_Set_Get (NewMemoryStore.Set (ascii "key2") (ascii "v")).1 (ascii "key1")
      []).2.2.2.1 (ascii "key2") (by decide)).1,
    ((MemoryStore_Set_Get (NewMemoryStore.Set (ascii "key2") (ascii "v")).1 (ascii "key1")
      []).2.2.2.1 (ascii "key2") (by decide)).2,
    rfl,
    (MemoryStore_Set_Get NewMemoryStore [] []).2.2.2.2.1 (ascii "nonexistent") rfl⟩

/-- C32. Last write wins: for every store state, key `k` and values `v1`,
`v2`, the state after `Set(k, v1)` and then `Set(k, v2)` is the state after
`Set(k, v2)` alone, and `Get(k)` then returns `v2`; `Size()` is unchanged by a
`Set` on a key that exists and grows by exactly 1 by a `Set` on a key that
does not, so two `Set` on the same key of an empty store leave `Size() = 1`. -/
theorem MemoryStore_Set_overwrite (s : MemoryStore) (k v1 v2 : List Nat) :
    ((s.Set k v1).1.Set k v2).1 = (s.Set k v2).1 ∧
      ((s.Set k v1).1.Set k v2).1.Get k = (v2, true) ∧
      (s.Exists k = true → (s.Set k v1).1.Size = s.Size) ∧
      (s.Exists k = false → (s.Set k v1).1.Size = s.Size + 1) ∧
      ((NewMemoryStore.Set k v1).1.Set k v2).1.Size = 1 := by
  have hsize : ∀ (t : MemoryStore) (v : List Nat),
      (t.Set k v).1.Size = if k ∈ t.data.keys then t.Size else t.Size + 1 := by
    intro t v
    exact MemoryStore_keys_length_insert t.data k v
  refine ⟨?_, ?_, ?_, ?_, ?_⟩
  · simp [MemoryStore.Set, AList.insert_insert]
  · simp [MemoryStore.Set, MemoryStore.Get, AList.lookup_insert]
  · intro h
    rw [hsize, if_pos ((MemoryStore_Exists_iff s k).1 h)]
  · intro h
    have hn : ¬ k ∈ s.data.keys := by
      intro hm
      rw [(MemoryStore_Exists_iff s k).2 hm] at h
      cases h
    rw [hsize, if_neg hn]
  · have h1 : (NewMemoryStore.Set k v1).1.Exists k = true := by
      simp [MemoryStore.Set, MemoryStore.Exists, AList.lookup_insert]
    rw [hsize, if_pos ((MemoryStore_Exists_iff _ k).1 h1), hsize]
    rfl

theorem MemoryStore_Set_overwrite_witness :
    (NewMemoryStore.Set (ascii "k") (ascii "v1")).1.Exists (ascii "k") = true ∧
      ((NewMemoryStore.Set (ascii "k") (ascii "v1")).1.Set (ascii "k") (ascii "v2")).1.Size =
        (NewMemoryStore.Set (ascii "k") (ascii "v1")).1.Size ∧
      NewMemoryStore.Exists (ascii "k") = false ∧
      (NewMemoryStore.Set (ascii "k") (ascii "v1")).1.Size = NewMemoryStore.Size + 1 :=
  ⟨rfl,
    (MemoryStore_Set_overwrite (NewMemoryStore.Set (ascii "k") (ascii "v1")).1 (ascii "k")
      (ascii "v2") []).2.2.1 rfl,
    rfl,
    (MemoryStore_Set_overwrite NewMemoryStore (ascii "k") (ascii "v1") []).2.2.2.1 rfl⟩


/-- C33. Delete: for every store state and key `k`, `Delete(k)` returns true
if and only if `k` was present; afterwards `Get(k)` returns `("", false)` and
`Exists(k)` is false; every other key keeps its mapping; `Size()` decreases
by exactly 1 when `k` was present and is unchanged otherwise; a second
`Delete(k)` returns false and changes nothing. -/
theorem MemoryStore_Delete_spec (s : MemoryStore) (k : List Nat) :
    ((s.Delete k).2 = true ↔ s.Exists k = true) ∧
      (s.Delete k).1.Get k = ([], false) ∧
      (s.Delete k).1.Exists k = false ∧
      (∀ k2, k2 ≠ k → (s.Delete k).1.Get k2 = s.Get k2 ∧
        (s.Delete k).1.Exists k2 = s.Exists k2) ∧
      (s.Exists k = true → (s.Delete k).1.Size + 1 = s.Size) ∧
      (s.Exists k = false → (s.Delete k).1 = s) ∧
      ((s.Delete k).1.Delete k = ((s.Delete k).1, false)) := by
  have hafter : (s.Delete k).1.data.lookup k = none := by
    unfold MemoryStore.Delete
    cases hl : s.data.lookup k with
    | none => simpa using hl
    | some x => simp [AList.lookup_erase]
  refine ⟨?_, ?_, ?_, ?_, ?_, ?_, ?_⟩
  · unfold MemoryStore.Delete MemoryStore.Exists
    cases hl : s.data.lookup k <;> simp
  · rw [MemoryStore_Get_of_lookup, hafter]
  · unfold MemoryStore.Exists
    rw [hafter]
    rfl
  · intro k2 hne
    unfold MemoryStore.Delete
    cases hl : s.data.lookup k with
    | none => exact ⟨rfl, rfl⟩
    | some x =>
      simp [MemoryStore.Get, MemoryStore.Exists, AList.lookup_erase_ne hne]
  · intro h
    have hm := (MemoryStore_Exists_iff s k).1 h
    unfold MemoryStore.Exists at h
    unfold MemoryStore.Delete
    cases hl : s.data.lookup k with
    | none => rw [hl] at h; simp at h
    | some x => exact MemoryStore_keys_length_erase s.data k hm
  · intro h
    unfold MemoryStore.Exists at h
    unfold MemoryStore.Delete
    cases hl : s.data.lookup k with
    | none => rfl
    | some x => rw [hl] at h; simp at h
  · have : (s.Delete k).1.Delete k = (match (s.Delete k).1.data.lookup k with
        | some _ => (⟨(s.Delete k).1.data.erase k⟩, true)
        | none => ((s.Delete k).1, false)) := rfl
    rw [this, hafter]

theorem MemoryStore_Delete_spec_witness :
    ascii "key2" ≠ ascii "key1" ∧
      (((NewMemoryStore.Set (ascii "key1") (ascii "a")).1.Set (ascii "key2") (ascii "b")).1.Delete
          (ascii "key1")).1.Get (ascii "key2") = (ascii "b", true) ∧
      ((NewMemoryStore.Set (ascii "key1") (ascii "a")).1.Set (ascii "key2") (ascii "b")).1.Exists
          (ascii "key1") = true ∧
      (((NewMemoryStore.Set (ascii "key1") (ascii "a")).1.Set (ascii "key2") (ascii "b")).1.Delete
          (ascii "key1")).1.Size + 1 = 2 ∧
      NewMemoryStore.Exists (ascii "nonexistent") = false ∧
      (NewMemoryStore.Delete (ascii "nonexistent")).1 = NewMemoryStore :=
  ⟨by decide,
    ((MemoryStore_Delete_spec
      ((NewMemoryStore.Set (ascii "key1") (ascii "a")).1.Set (ascii "key2") (ascii "b")).1
      (ascii "key1")).2.2.2.1 (ascii "key2") (by decide)).1,
    rfl,
    (MemoryStore_Delete_spec
      ((NewMemoryStore.Set (ascii "key1") (ascii "a")).1.Set (ascii "key2") (ascii "b")).1
      (ascii "key1")).2.2.2.2.1 rfl,
    rfl,
    (MemoryStore_Delete_spec NewMemoryStore (ascii "nonexistent")).2.2.2.2.2.1 rfl⟩

/-- C34. Clear: for every store state, after `Clear()` the size is 0 and, for
every key, `Exists` is false and `Get` returns `("", false)`; the store is
then the store `NewMemoryStore` creates, whose size is 0. -/
theorem MemoryStore_Clear_spec (s : MemoryStore) :
    s.Clear.Size = 0 ∧
      (∀ k, s.Clear.Exists k = false ∧ s.Clear.Get k = ([], false)) ∧
      s.Clear = NewMemoryStore ∧
      NewMemoryStore.Size = 0 :=
  ⟨rfl, fun _ => ⟨rfl, rfl⟩, rfl, rfl⟩

/-! ## The server -/

/-- C35. Stop on a server that is not running, never started or already
stopped, returns no error and leaves every field of the server as it is; so a
`Stop` after a `Stop` that returned changes nothing: the state is the one the
first `Stop` left, and the channel `shutdown` is not closed a second time. -/
theorem Server_Stop_not_running (closeListener : Nat → Option (List Nat)) (s : Server) :
    (s.running = false → s.Stop closeListener = .ok (s, none)) ∧
      (∀ s1 err, s.Stop closeListener = .ok (s1, err) →
        s1.running = false ∧ s1.Stop closeListener = .ok (s1, none)) ∧
      (∀ address port, (NewServer address port).running = false ∧
        (NewServer address port).Stop closeListener = .ok (NewServer address port, none)) := by
  have hnot : ∀ t : Server, t.running = false → t.Stop closeListener = .ok (t, none) := by
    intro t ht
    simp [Server.Stop, ht]
  refine ⟨hnot s, ?_, fun address port => ⟨rfl, hnot _ rfl⟩⟩
  intro s1 err h
  have hr : s1.running = false := by
    unfold Server.Stop at h
    cases hb : s.running with
    | false =>
      rw [hb] at h
      simp only [if_true, Except.ok.injEq, Prod.mk.injEq] at h
      rw [← h.1]
      exact hb
    | true =>
      rw [hb] at h
      simp only [Bool.true_eq_false, if_false] at h
      cases hl : s.listener.bind closeListener with
      | some e =>
        rw [hl] at h
        simp only [Except.ok.injEq, Prod.mk.injEq] at h
        rw [← h.1]
      | none =>
        rw [hl] at h
        simp only at h
        cases hc : s.shutdownClosed with
        | true => rw [hc] at h; simp at h
        | false =>
          rw [hc] at h
          simp only [Bool.false_eq_true, if_false, Except.ok.injEq, Prod.mk.injEq] at h
          rw [← h.1]
  exact ⟨hr, hnot s1 hr⟩

theorem Server_Stop_not_running_witness :
    (NewServer (ascii "127.0.0.1") 6379).running = false ∧
      (NewServer (ascii "127.0.0.1") 6379).Stop (fun _ => none) =
        .ok (NewServer (ascii "127.0.0.1") 6379, none) ∧
      ({ NewServer (ascii "127.0.0.1") 6379 with running := true, listener := some 1 }
          : Server).Stop (fun _ => none) =
        .ok ({ NewServer (ascii "127.0.0.1") 6379 with
          listener := some 1, shutdownClosed := true }, none) ∧
      ({ NewServer (ascii "127.0.0.1") 6379 with
          listener := some 1, shutdownClosed := true } : Server).Stop (fun _ => none) =
        .ok ({ NewServer (ascii "127.0.0.1") 6379 with
          listener := some 1, shutdownClosed := true }, none) :=
  ⟨rfl, (Server_Stop_not_running (fun _ => none) (NewServer (ascii "127.0.0.1") 6379)).1 rfl,
    rfl,
    ((Server_Stop_not_running (fun _ => none)
      ({ NewServer (ascii "127.0.0.1") 6379 with running := true, listener := some 1 }
        : Server)).2.1 _ _ rfl).2⟩


/-! ## Totality of `Parse` -/

theorem parseElements_error (p : List Nat → ParseResult Message)
    (hp : ∀ y m r, p y = .ok (m, r) → r.length ≤ y.length)
    (n i : Nat) (x : List Nat) (e : ParseError) (h : parseElements p n i x = .error e) :
    ∃ j y e1, e = .arrayElement j e1 ∧ p y = .error e1 ∧ y.length ≤ x.length := by
  induction n generalizing i x with
  | zero => simp [parseElements] at h
  | succ n ih =>
    unfold parseElements at h
    cases h1 : p x with
    | error e1 =>
      simp only [h1, Except.error.injEq] at h
      exact ⟨i, x, e1, h.symm, h1, Nat.le_refl _⟩
    | ok q =>
      obtain ⟨element, rest⟩ := q
      simp only [h1] at h
      cases h2 : parseElements p n (i + 1) rest with
      | ok q2 => simp only [h2] at h; cases h
      | error e2 =>
        simp only [h2, Except.error.injEq] at h
        subst h
        obtain ⟨j, y, e1, he, hy, hlen⟩ := ih (i + 1) rest h2
        have := hp _ _ _ h1
        exact ⟨j, y, e1, he, hy, by omega⟩

theorem parseArray_error (p : List Nat → ParseResult Message)
    (hp : ∀ y m r, p y = .ok (m, r) → r.length ≤ y.length)
    (x : List Nat) (e : ParseError) (h : parseArray p x = .error e) :
    e.reachedDepth = false ∨
      ∃ j y e1, e = .arrayElement j e1 ∧ p y = .error e1 ∧ y.length ≤ x.length := by
  unfold parseArray at h
  cases hl : readLine x with
  | error e1 =>
    rw [hl] at h
    simp only [Except.error.injEq] at h
    subst h
    exact Or.inl rfl
  | ok q =>
    obtain ⟨line, rest⟩ := q
    rw [hl] at h
    have hlen := readLine_length _ _ _ hl
    cases ha : Atoi line with
    | error e1 =>
      simp only [ha, Except.error.injEq] at h
      subst h
      exact Or.inl rfl
    | ok v =>
      simp only [ha] at h
      split at h
      · cases h
      · split at h
        · simp only [Except.error.injEq] at h
          subst h
          exact Or.inl rfl
        · cases he : parseElements p v.toNat 0 rest with
          | ok q2 => simp only [he] at h; cases h
          | error e2 =>
            simp only [he, Except.error.injEq] at h
            subst h
            obtain ⟨j, y, e1, hj, hy, hyl⟩ := parseElements_error p hp _ _ _ _ he
            exact Or.inr ⟨j, y, e1, hj, hy, by omega⟩

theorem parseSimpleString_error (x : List Nat) (e : ParseError)
    (h : parseSimpleString x = .error e) : e.reachedDepth = false := by
  unfold parseSimpleString at h
  cases hl : readLine x with
  | error e1 => rw [hl] at h; simp only [Except.error.injEq] at h; subst h; rfl
  | ok q => rw [hl] at h; cases h

theorem parseError_error (x : List Nat) (e : ParseError)
    (h : parseError x = .error e) : e.reachedDepth = false := by
  unfold parseError at h
  cases hl : readLine x with
  | error e1 => rw [hl] at h; simp only [Except.error.injEq] at h; subst h; rfl
  | ok q => rw [hl] at h; cases h

theorem parseInteger_error (x : List Nat) (e : ParseError)
    (h : parseInteger x = .error e) : e.reachedDepth = false := by
  unfold parseInteger at h
  cases hl : readLine x with
  | error e1 => rw [hl] at h; simp only [Except.error.injEq] at h; subst h; rfl
  | ok q =>
    obtain ⟨line, rest⟩ := q
    rw [hl] at h
    cases hp : ParseInt line with
    | error e1 => simp only [hp, Except.error.injEq] at h; subst h; rfl
    | ok v => simp only [hp] at h; cases h

theorem parseBulkString_error (x : List Nat) (e : ParseError)
    (h : parseBulkString x = .error e) : e.reachedDepth = false := by
  unfold parseBulkString at h
  cases hl : readLine x with
  | error e1 => rw [hl] at h; simp only [Except.error.injEq] at h; subst h; rfl
  | ok q =>
    obtain ⟨line, rest⟩ := q
    rw [hl] at h
    cases hp : Atoi line with
    | error e1 => simp only [hp, Except.error.injEq] at h; subst h; rfl
    | ok v =>
      simp only [hp] at h
      split at h
      · cases h
      · split at h
        · simp only [Except.error.injEq] at h; subst h; rfl
        · cases hf : ReadFull v.toNat rest with
          | error e1 => simp only [hf, Except.error.injEq] at h; subst h; rfl
          | ok q2 =>
            obtain ⟨data, rest1⟩ := q2
            simp only [hf] at h
            cases hc : expectCRLF rest1 with
            | error e1 => simp only [hc, Except.error.injEq] at h; subst h; rfl
            | ok r2 => simp only [hc] at h; cases h

theorem parseMessage_error_depth (p : List Nat → ParseResult Message)
    (hp : ∀ y m r, p y = .ok (m, r) → r.length ≤ y.length) (input : List Nat)
    (hrec : ∀ y e1, y.length < input.length → p y = .error e1 → e1.reachedDepth = false)
    (e : ParseError) (h : parseMessage p input = .error e) : e.reachedDepth = false := by
  cases input with
  | nil =>
    simp only [parseMessage, ReadByte, Except.error.injEq] at h
    subst h
    rfl
  | cons b rest =>
    simp only [parseMessage, ReadByte] at h
    split at h
    · exact parseSimpleString_error _ _ h
    · split at h
      · exact parseError_error _ _ h
      · split at h
        · exact parseInteger_error _ _ h
        · split at h
          · exact parseBulkString_error _ _ h
          · split at h
            · rcases parseArray_error p hp rest e h with h0 | ⟨j, y, e1, rfl, hy, hlen⟩
              · exact h0
              · exact hrec y e1 (by simp only [List.length_cons]; omega) hy
            · simp only [Except.error.injEq] at h
              subst h
              rfl

theorem ParseN_error_depth (d : Nat) (input : List Nat) (hd : input.length < d)
    (e : ParseError) (h : ParseN d input = .error e) : e.reachedDepth = false := by
  induction d generalizing input e with
  | zero => omega
  | succ d ih =>
    exact parseMessage_error_depth (ParseN d)
      (fun y m r hy => Nat.le_of_lt (ParseN_length d y m r hy)) input
      (fun y e1 hy he => ih y (by omega) e1 he) e h

/-! ## `Execute` under `Validate` -/

theorem PingCommand_Execute_ok (args : List Message) :
    ∃ m, PingCommand.Execute args = .ok ⟨some m, none⟩ := by
  cases args with
  | nil => exact ⟨_, rfl⟩
  | cons arg rest =>
    cases arg with
    | SimpleString v => exact ⟨_, rfl⟩
    | BulkString v => cases v <;> exact ⟨_, rfl⟩
    | Error v => exact ⟨_, rfl⟩
    | Integer v => exact ⟨_, rfl⟩
    | Array v => exact ⟨_, rfl⟩

theorem EchoCommand_Execute_ok (args : List Message) (h : EchoCommand.Validate args = none) :
    ∃ m, EchoCommand.Execute args = .ok ⟨some m, none⟩ := by
  cases args with
  | nil => simp [EchoCommand.Validate] at h
  | cons arg rest =>
    cases arg with
    | SimpleString v => exact ⟨_, rfl⟩
    | BulkString v => cases v <;> exact ⟨_, rfl⟩
    | Error v => exact ⟨_, rfl⟩
    | Integer v => exact ⟨_, rfl⟩
    | Array v => exact ⟨_, rfl⟩

theorem GetCommand_Execute_ok (args : List Message) (store : MemoryStore)
    (h : GetCommand.Validate args = none) :
    ∃ m, GetCommand.Execute args store = .ok (⟨some m, none⟩, store) := by
  cases args with
  | nil => simp [GetCommand.Validate] at h
  | cons keyArg rest =>
    simp only [GetCommand.Execute]
    cases hk : keyOf keyArg with
    | error response => exact ⟨response, rfl⟩
    | ok key =>
      simp only [MemoryStore.Get]
      cases store.data.lookup key with
      | none => exact ⟨_, rfl⟩
      | some v => exact ⟨_, rfl⟩

theorem SetCommand_Execute_ok (args : List Message) (store : MemoryStore)
    (h : SetCommand.Validate args = none) :
    ∃ m store1, SetCommand.Execute args store = .ok (⟨some m, none⟩, store1) := by
  cases args with
  | nil => simp [SetCommand.Validate] at h
  | cons keyArg rest =>
    cases rest with
    | nil => simp [SetCommand.Validate] at h
    | cons valueArg rest2 =>
      simp only [SetCommand.Execute]
      cases hk : keyOf keyArg with
      | error response => exact ⟨response, store, rfl⟩
      | ok key =>
        cases hv : valueOf valueArg with
        | error response => exact ⟨response, store, rfl⟩
        | ok value => exact ⟨_, _, rfl⟩

/-- The four commands of the repository, as a handler registers them. -/
theorem builtin_Execute_ok (command : Command)
    (hc : command = PingCommand.command ∨ command = EchoCommand.command ∨
      command = GetCommand.command ∨ command = SetCommand.command)
    (args : List Message) (store : MemoryStore) (h : command.Validate args = none) :
    ∃ m store1, command.Execute args store = .ok (⟨some m, none⟩, store1) := by
  rcases hc with rfl | rfl | rfl | rfl
  · obtain ⟨m, hm⟩ := PingCommand_Execute_ok args
    exact ⟨m, store, by simp [PingCommand.command, withoutStore, hm]⟩
  · obtain ⟨m, hm⟩ := EchoCommand_Execute_ok args h
    exact ⟨m, store, by simp [EchoCommand.command, withoutStore, hm]⟩
  · obtain ⟨m, hm⟩ := GetCommand_Execute_ok args store h
    exact ⟨m, store, hm⟩
  · exact SetCommand_Execute_ok args store h

theorem CommandHandler_Execute_ok (h : CommandHandler)
    (hb : ∀ name command, h.GetCommand name = some command →
      command = PingCommand.command ∨ command = EchoCommand.command ∨
        command = GetCommand.command ∨ command = SetCommand.command)
    (name : List Nat) (args : List Message) (store : MemoryStore) :
    ∃ m store1, h.Execute name args store = .ok (⟨some m, none⟩, store1) := by
  unfold CommandHandler.Execute
  cases hl : h.commands name with
  | none => exact ⟨_, store, rfl⟩
  | some command =>
    simp only
    cases hv : command.Validate args with
    | some err => exact ⟨_, store, rfl⟩
    | none => exact builtin_Execute_ok command (hb name command hl) args store hv

/-- C38. `Execute` is safe under `Validate`: for each of PING, ECHO, GET and
SET and every argument list that its `Validate` accepts, `Execute` does not
read an argument index out of range and returns a message with no Go error
(the payload of a constructor-built message has the type of its variant, so
no type assertion can fail); hence `CommandHandler.Execute` on a registry of
these commands, and `processCommand` on every message, returns a message and
does not fault. -/
theorem Execute_safe_under_Validate (args : List Message) (store : MemoryStore) :
    (PingCommand.Validate args = none →
        ∃ m, PingCommand.Execute args = .ok ⟨some m, none⟩) ∧
      (EchoCommand.Validate args = none →
        ∃ m, EchoCommand.Execute args = .ok ⟨some m, none⟩) ∧
      (GetCommand.Validate args = none →
        ∃ m, GetCommand.Execute args store = .ok (⟨some m, none⟩, store)) ∧
      (SetCommand.Validate args = none →
        ∃ m store1, SetCommand.Execute args store = .ok (⟨some m, none⟩, store1)) ∧
      (∀ (h : CommandHandler) (name : List Nat),
        (∀ n command, h.GetCommand n = some command →
          command = PingCommand.command ∨ command = EchoCommand.command ∨
            command = GetCommand.command ∨ command = SetCommand.command) →
        ∃ m store1, h.Execute name args store = .ok (⟨some m, none⟩, store1)) ∧
      (∀ (mapUpper : List Nat → List Nat) (c : Connection) (message : Message),
        (∀ n command, c.commandHandler.GetCommand n = some command →
          command = PingCommand.command ∨ command = EchoCommand.command ∨
            command = GetCommand.command ∨ command = SetCommand.command) →
        ∃ m store1, c.processCommand mapUpper store message = .ok (some m, store1)) := by
  refine ⟨fun _ => PingCommand_Execute_ok args, EchoCommand_Execute_ok args,
    GetCommand_Execute_ok args store, SetCommand_Execute_ok args store,
    fun h name hb => CommandHandler_Execute_ok h hb name args store, ?_⟩
  intro mapUpper c message hb
  have hdisp : ∀ (name : List Nat) (as : List Message),
      ∃ m store1, responseOf (c.commandHandler.Execute name as store) =
        .ok (some m, store1) := by
    intro name as
    obtain ⟨m, store1, hm⟩ := CommandHandler_Execute_ok c.commandHandler hb name as store
    exact ⟨m, store1, by rw [hm]; rfl⟩
  cases message with
  | SimpleString v => exact ⟨_, store, rfl⟩
  | Error v => exact ⟨_, store, rfl⟩
  | Integer v => exact ⟨_, store, rfl⟩
  | BulkString v => exact ⟨_, store, rfl⟩
  | Array v =>
    cases v with
    | none => exact ⟨_, store, rfl⟩
    | some elements =>
      cases elements with
      | nil => exact ⟨_, store, rfl⟩
      | cons first rest =>
        cases first with
        | SimpleString n => exact hdisp _ rest
        | BulkString b =>
          cases b with
          | none => exact ⟨_, store, rfl⟩
          | some n => exact hdisp _ rest
        | Error v => exact ⟨_, store, rfl⟩
        | Integer v => exact ⟨_, store, rfl⟩
        | Array v => exact ⟨_, store, rfl⟩

theorem NewServer_commands_builtin (address : List Nat) (port : Int) (n : List Nat)
    (command : Command)
    (h : (NewServer address port).commandHandler.GetCommand n = some command) :
    command = PingCommand.command ∨ command = EchoCommand.command ∨
      command = GetCommand.command ∨ command = SetCommand.command := by
  simp only [NewServer, CommandHandler.GetCommand, CommandHandler.Register,
    NewCommandHandler] at h
  split at h
  · simp only [Option.some.injEq] at h
    exact Or.inr (Or.inl h.symm)
  · split at h
    · simp only [Option.some.injEq] at h
      exact Or.inl h.symm
    · cases h

theorem Execute_safe_under_Validate_witness :
    SetCommand.Validate [NewBulkString (ascii "k"), NewInteger 1] = none ∧
      (∃ m store1, SetCommand.Execute [NewBulkString (ascii "k"), NewInteger 1]
        NewMemoryStore = .ok (⟨some m, none⟩, store1)) ∧
      EchoCommand.Validate [NewNullArray] = none ∧
      (∃ m, EchoCommand.Execute [NewNullArray] = .ok ⟨some m, none⟩) ∧
      (∃ m store1, (NewConnection [] (NewServer [] 6379).commandHandler).processCommand id
        NewMemoryStore (NewArray [NewBulkString (ascii "echo")]) = .ok (some m, store1)) :=
  ⟨rfl,
    (Execute_safe_under_Validate [NewBulkString (ascii "k"), NewInteger 1]
      NewMemoryStore).2.2.2.1 rfl,
    rfl,
    (Execute_safe_under_Validate [NewNullArray] NewMemoryStore).2.1 rfl,
    (Execute_safe_under_Validate [] NewMemoryStore).2.2.2.2.2 id
      (NewConnection [] (NewServer [] 6379).commandHandler)
      (NewArray [NewBulkString (ascii "echo")])
      (fun n command h => NewServer_commands_builtin [] 6379 n command h)⟩


/-! ## What a failing serialization leaves on the writer; non-canonical input -/

theorem Serialize_array_error_writer (w : List Nat) (pre : List Message)
    (outs : List (List Nat))
    (h : List.Forall₂ (fun m s => SerializeToString m = .ok s) pre outs) (m : Message)
    (e : SerializeError) (hm : Serialize m [] = ([], some e)) (post : List Message) :
    Serialize (NewArray (pre ++ m :: post)) w =
      (w ++ (42 :: decimal (pre ++ m :: post).length ++ [CR, LF] ++ outs.flatten),
        some (.arrayElement pre.length e)) := by
  have hme : SerializeToString m = .error e := by
    rw [SerializeToString_error_iff, hm]
  simp only [NewArray, Serialize]
  rw [serializeElements_of_error pre outs h m e hme post, hm, formatInt_natCast]
  simp

/-- C39. Array serialization is not atomic on the writer: when `Serialize`
fails on a non-null array of `n` elements whose first failing element, at
index `i`, is a simple string or an error containing CR or LF, the writer has
received exactly `'*' ++ decimal n ++ CRLF` and the complete serializations
of the elements before `i`, and the error names `i`; `SerializeToString` and
`SerializeToBytes` return the error and no bytes. -/
theorem Serialize_array_not_atomic (w : List Nat) (pre : List Message)
    (outs : List (List Nat)) (s : List Nat) (post : List Message)
    (hpre : List.Forall₂ (fun m out => SerializeToString m = .ok out) pre outs)
    (hs : CR ∈ s ∨ LF ∈ s) :
    Serialize (NewArray (pre ++ NewSimpleString s :: post)) w =
        (w ++ (42 :: decimal (pre ++ NewSimpleString s :: post).length ++ [CR, LF] ++
          outs.flatten), some (.arrayElement pre.length .simpleStringCRLF)) ∧
      Serialize (NewArray (pre ++ NewError s :: post)) w =
        (w ++ (42 :: decimal (pre ++ NewError s :: post).length ++ [CR, LF] ++
          outs.flatten), some (.arrayElement pre.length .errorCRLF)) ∧
      SerializeToString (NewArray (pre ++ NewSimpleString s :: post)) =
        .error (.arrayElement pre.length .simpleStringCRLF) ∧
      SerializeToBytes (NewArray (pre ++ NewSimpleString s :: post)) =
        .error (.arrayElement pre.length .simpleStringCRLF) ∧
      SerializeToString (NewArray (pre ++ NewError s :: post)) =
        .error (.arrayElement pre.length .errorCRLF) ∧
      SerializeToBytes (NewArray (pre ++ NewError s :: post)) =
        .error (.arrayElement pre.length .errorCRLF) := by
  have hc := containsCRLF_eq_true s hs
  have h1 : Serialize (NewSimpleString s) [] = ([], some .simpleStringCRLF) := by
    simp [NewSimpleString, Serialize, serializeSimpleString, hc]
  have h2 : Serialize (NewError s) [] = ([], some .errorCRLF) := by
    simp [NewError, Serialize, serializeError, hc]
  have e1 : SerializeToString (NewSimpleString s) = .error .simpleStringCRLF := by
    rw [SerializeToString_error_iff, h1]
  have e2 : SerializeToString (NewError s) = .error .errorCRLF := by
    rw [SerializeToString_error_iff, h2]
  have a1 := SerializeToString_array_error pre outs hpre (NewSimpleString s) _ e1 post
  have a2 := SerializeToString_array_error pre outs hpre (NewError s) _ e2 post
  refine ⟨Serialize_array_error_writer w pre outs hpre _ _ h1 post,
    Serialize_array_error_writer w pre outs hpre _ _ h2 post, a1, ?_, a2, ?_⟩
  · simp [SerializeToBytes, a1]
  · simp [SerializeToBytes, a2]

theorem Serialize_array_not_atomic_witness :
    List.Forall₂ (fun m out => SerializeToString m = .ok out)
        [NewInteger 1, NewBulkString (ascii "a")] [ascii ":1\r\n", ascii "$1\r\na\r\n"] ∧
      (CR ∈ ascii "x\ny" ∨ LF ∈ ascii "x\ny") ∧
      Serialize (NewArray ([NewInteger 1, NewBulkString (ascii "a")] ++
          NewSimpleString (ascii "x\ny") :: [NewInteger 2])) [] =
        ([] ++ (42 :: decimal ([NewInteger 1, NewBulkString (ascii "a")] ++
            NewSimpleString (ascii "x\ny") :: [NewInteger 2]).length ++ [CR, LF] ++
          [ascii ":1\r\n", ascii "$1\r\na\r\n"].flatten),
          some (.arrayElement [NewInteger 1, NewBulkString (ascii "a")].length
            .simpleStringCRLF)) ∧
      (Serialize (NewArray [NewInteger 1, NewBulkString (ascii "a"),
          NewSimpleString (ascii "x\ny"), NewInteger 2]) []).1 =
        ascii "*4\r\n:1\r\n$1\r\na\r\n" :=
  ⟨.cons rfl (.cons rfl .nil), Or.inr (by decide),
    (Serialize_array_not_atomic [] [NewInteger 1, NewBulkString (ascii "a")]
      [ascii ":1\r\n", ascii "$1\r\na\r\n"] (ascii "x\ny") [NewInteger 2]
      (.cons rfl (.cons rfl .nil)) (Or.inr (by decide))).1,
    rfl⟩

/-- C40. The parser accepts non-canonical encodings: on ":+1\r\n", ":007\r\n"
and "$03\r\nfoo\r\n" `Parse` succeeds with a message whose serialization
succeeds and differs from the input, and parsing that serialization gives the
same message again. -/
theorem Parse_accepts_non_canonical :
    (ParseString (ascii ":+1\r\n") = .ok (NewInteger 1) ∧
        SerializeToString (NewInteger 1) = .ok (ascii ":1\r\n") ∧
        ascii ":1\r\n" ≠ ascii ":+1\r\n" ∧
        ParseString (ascii ":1\r\n") = .ok (NewInteger 1)) ∧
      (ParseString (ascii ":007\r\n") = .ok (NewInteger 7) ∧
        SerializeToString (NewInteger 7) = .ok (ascii ":7\r\n") ∧
        ascii ":7\r\n" ≠ ascii ":007\r\n" ∧
        ParseString (ascii ":7\r\n") = .ok (NewInteger 7)) ∧
      (ParseString (ascii "$03\r\nfoo\r\n") = .ok (NewBulkString (ascii "foo")) ∧
        SerializeToString (NewBulkString (ascii "foo")) = .ok (ascii "$3\r\nfoo\r\n") ∧
        ascii "$3\r\nfoo\r\n" ≠ ascii "$03\r\nfoo\r\n" ∧
        ParseString (ascii "$3\r\nfoo\r\n") = .ok (NewBulkString (ascii "foo"))) ∧
      (∃ (s : List Nat) (m : Message) (t : List Nat),
        Parse s = .ok (m, []) ∧ SerializeToString m = .ok t ∧ t ≠ s ∧
          Parse t = .ok (m, [])) ∧
      (ParseString (ascii "*01\r\n:-0\r\n") = .ok (NewArray [NewInteger 0]) ∧
        SerializeToString (NewArray [NewInteger 0]) = .ok (ascii "*1\r\n:0\r\n")) :=
  ⟨⟨rfl, rfl, by decide, rfl⟩, ⟨rfl, rfl, by decide, rfl⟩, ⟨rfl, rfl, by decide, rfl⟩,
    ⟨ascii ":+1\r\n", NewInteger 1, ascii ":1\r\n", rfl, rfl, by decide, rfl⟩,
    ⟨rfl, rfl⟩⟩


/-! ## `Parse` with the outcome of `make` -/

theorem Runtime_parseBulkString_cases (rt : Runtime) (input : List Nat) :
    rt.parseBulkString input = .error .makeslice ∨
      rt.parseBulkString input = .ok (parseBulkString input) := by
  unfold Runtime.parseBulkString parseBulkString
  cases readLine input with
  | error e => exact Or.inr rfl
  | ok p =>
    obtain ⟨line, rest⟩ := p
    simp only
    cases Atoi line with
    | error e => exact Or.inr rfl
    | ok length =>
      simp only
      by_cases h1 : length = -1
      · simp [h1]
      · by_cases h2 : length < 0
        · simp [h1, h2]
        · cases hm : rt.makeBytes length.toNat with
          | false => simp [h1, h2]
          | true =>
            simp only [h1, h2, if_false, Bool.true_eq_false]
            right
            cases ReadFull length.toNat rest with
            | error e => rfl
            | ok q =>
              obtain ⟨data, rest1⟩ := q
              simp only
              cases expectCRLF rest1 with
              | error e => rfl
              | ok rest2 => rfl

theorem Runtime_parseElements_cases (p : List Nat → Except Panic (ParseResult Message))
    (q : List Nat → ParseResult Message)
    (h : ∀ y, p y = .error .makeslice ∨ p y = .ok (q y)) (n i : Nat) (input : List Nat) :
    Runtime.parseElements p n i input = .error .makeslice ∨
      Runtime.parseElements p n i input = .ok (parseElements q n i input) := by
  induction n generalizing i input with
  | zero => exact Or.inr rfl
  | succ n ih =>
    unfold Runtime.parseElements parseElements
    rcases h input with h1 | h1
    · rw [h1]; exact Or.inl rfl
    · rw [h1]
      cases q input with
      | error e => exact Or.inr rfl
      | ok r =>
        obtain ⟨element, rest⟩ := r
        simp only
        rcases ih (i + 1) rest with h2 | h2
        · rw [h2]; exact Or.inl rfl
        · rw [h2]
          right
          cases parseElements q n (i + 1) rest with
          | error e => rfl
          | ok r2 => rfl

theorem Runtime_parseArray_cases (rt : Runtime)
    (p : List Nat → Except Panic (ParseResult Message)) (q : List Nat → ParseResult Message)
    (h : ∀ y, p y = .error .makeslice ∨ p y = .ok (q y)) (input : List Nat) :
    rt.parseArray p input = .error .makeslice ∨
      rt.parseArray p input = .ok (parseArray q input) := by
  unfold Runtime.parseArray parseArray
  cases readLine input with
  | error e => exact Or.inr rfl
  | ok r =>
    obtain ⟨line, rest⟩ := r
    simp only
    cases Atoi line with
    | error e => exact Or.inr rfl
    | ok length =>
      simp only
      by_cases h1 : length = -1
      · simp [h1]
      · by_cases h2 : length < 0
        · simp [h1, h2]
        · cases hm : rt.makeMessages length.toNat with
          | false => simp [h1, h2]
          | true =>
            simp only [h1, h2, if_false, Bool.true_eq_false]
            rcases Runtime_parseElements_cases p q h length.toNat 0 rest with h3 | h3
            · rw [h3]; exact Or.inl rfl
            · rw [h3]
              right
              cases parseElements q length.toNat 0 rest with
              | error e => rfl
              | ok r2 => rfl

theorem Runtime_parseMessage_cases (rt : Runtime)
    (p : List Nat → Except Panic (ParseResult Message)) (q : List Nat → ParseResult Message)
    (h : ∀ y, p y = .error .makeslice ∨ p y = .ok (q y)) (input : List Nat) :
    rt.parseMessage p input = .error .makeslice ∨
      rt.parseMessage p input = .ok (parseMessage q input) := by
  cases input with
  | nil => exact Or.inr rfl
  | cons b rest =>
    simp only [Runtime.parseMessage, parseMessage, ReadByte]
    by_cases h1 : b = 43
    · simp [h1]
    · by_cases h2 : b = 45
      · simp [h1, h2]
      · by_cases h3 : b = 58
        · simp [h1, h2, h3]
        · by_cases h4 : b = 36
          · simp only [h1, h2, h3, h4, if_false, if_true]
            exact Runtime_parseBulkString_cases rt rest
          · by_cases h5 : b = 42
            · simp only [h1, h2, h3, h4, h5, if_false, if_true]
              exact Runtime_parseArray_cases rt p q h rest
            · simp [h1, h2, h3, h4, h5]

theorem Runtime_ParseN_cases (rt : Runtime) (d : Nat) (input : List Nat) :
    rt.ParseN d input = .error .makeslice ∨ rt.ParseN d input = .ok (ParseN d input) := by
  induction d generalizing input with
  | zero => exact Or.inr rfl
  | succ d ih => exact Runtime_parseMessage_cases rt _ _ ih input

/-- The method `Parse` either panics in `make`, or returns what `Parse` returns
on a run in which `make` returns. -/
theorem Runtime_Parse_cases (rt : Runtime) (input : List Nat) :
    rt.Parse input = .error .makeslice ∨ rt.Parse input = .ok (Parse input) :=
  Runtime_ParseN_cases rt _ input

theorem Runtime_ParseN_model (rt : Runtime) (d : Nat) (input : List Nat)
    (r : ParseResult Message) (h : rt.ParseN d input = .ok r) : ParseN d input = r := by
  rcases Runtime_ParseN_cases rt d input with h1 | h1
  · rw [h1] at h; cases h
  · rw [h1] at h
    simp only [Except.ok.injEq] at h
    exact h

theorem Runtime_Parse_model (rt : Runtime) (input : List Nat)
    (r : ParseResult Message) (h : rt.Parse input = .ok r) : Parse input = r :=
  Runtime_ParseN_model rt _ input r h

theorem Runtime_ParseN_length (rt : Runtime) (d : Nat) (input : List Nat) (m : Message)
    (r : List Nat) (h : rt.ParseN d input = .ok (.ok (m, r))) : r.length < input.length :=
  ParseN_length d input m r (Runtime_ParseN_model rt d input _ h)

theorem Runtime_parseElements_congr (p q : List Nat → Except Panic (ParseResult Message))
    (L : Nat) (hpq : ∀ y, y.length ≤ L → p y = q y)
    (hp : ∀ y m r, p y = .ok (.ok (m, r)) → r.length ≤ y.length)
    (n i : Nat) (input : List Nat) (hL : input.length ≤ L) :
    Runtime.parseElements p n i input = Runtime.parseElements q n i input := by
  induction n generalizing i input with
  | zero => simp [Runtime.parseElements]
  | succ n ih =>
    unfold Runtime.parseElements
    rw [← hpq input hL]
    cases h1 : p input with
    | error e => rfl
    | ok r =>
      cases r with
      | error e => rfl
      | ok r1 =>
        obtain ⟨element, rest⟩ := r1
        have := hp _ _ _ h1
        simp only
        rw [ih (i + 1) rest (by omega)]

theorem Runtime_parseArray_congr (rt : Runtime)
    (p q : List Nat → Except Panic (ParseResult Message)) (input : List Nat)
    (hpq : ∀ y, y.length ≤ input.length → p y = q y)
    (hp : ∀ y m r, p y = .ok (.ok (m, r)) → r.length ≤ y.length) :
    rt.parseArray p input = rt.parseArray q input := by
  unfold Runtime.parseArray
  cases hl : readLine input with
  | error e => rfl
  | ok r =>
    obtain ⟨line, rest⟩ := r
    have := readLine_length _ _ _ hl
    have he : ∀ n, Runtime.parseElements p n 0 rest = Runtime.parseElements q n 0 rest :=
      fun n => Runtime_parseElements_congr p q input.length hpq hp n 0 rest (by omega)
    simp only [he]

theorem Runtime_parseMessage_congr (rt : Runtime)
    (p q : List Nat → Except Panic (ParseResult Message)) (input : List Nat)
    (hpq : ∀ y, y.length < input.length → p y = q y)
    (hp : ∀ y m r, p y = .ok (.ok (m, r)) → r.length ≤ y.length) :
    rt.parseMessage p input = rt.parseMessage q input := by
  cases input with
  | nil => rfl
  | cons b rest =>
    simp only [Runtime.parseMessage, ReadByte]
    rw [Runtime_parseArray_congr rt p q rest
      (fun y hy => hpq y (by simp only [List.length_cons]; omega)) hp]

theorem Runtime_ParseN_succ (rt : Runtime) (d : Nat) (input : List Nat) (h : input.length < d) :
    rt.ParseN (d + 1) input = rt.ParseN d input := by
  induction d generalizing input with
  | zero => omega
  | succ d ih =>
    show rt.parseMessage (rt.ParseN (d + 1)) input = rt.parseMessage (rt.ParseN d) input
    exact Runtime_parseMessage_congr rt _ _ input (fun y hy => ih y (by omega))
      (fun y m r hy => Nat.le_of_lt (Runtime_ParseN_length rt _ y m r hy))

/-- Every depth bound above the length of the input gives the result of
`Parse`, a panic included. -/
theorem Runtime_ParseN_eq_Parse (rt : Runtime) (d : Nat) (input : List Nat)
    (h : input.length < d) : rt.ParseN d input = rt.Parse input := by
  unfold Runtime.Parse
  induction d with
  | zero => omega
  | succ d ih =>
    by_cases hd : input.length < d
    · rw [Runtime_ParseN_succ rt d input hd, ih hd]
    · have : d = input.length := by omega
      subst this
      rfl

theorem Runtime_Parse_eq (rt : Runtime) (input : List Nat) :
    rt.Parse input = rt.parseMessage rt.Parse input := by
  show rt.parseMessage (rt.ParseN input.length) input = rt.parseMessage rt.Parse input
  exact Runtime_parseMessage_congr rt _ _ input (fun y hy => Runtime_ParseN_eq_Parse rt _ y hy)
    (fun y m r hy => Nat.le_of_lt (Runtime_ParseN_length rt _ y m r hy))

theorem Runtime_Parse_cons (rt : Runtime) (typeByte : Nat) (rest : List Nat) :
    rt.Parse (typeByte :: rest) =
      if typeByte = 43 then .ok (parseSimpleString rest)
      else if typeByte = 45 then .ok (parseError rest)
      else if typeByte = 58 then .ok (parseInteger rest)
      else if typeByte = 36 then rt.parseBulkString rest
      else if typeByte = 42 then rt.parseArray rt.Parse rest
      else .ok (.error (.invalidMessageType typeByte)) := by
  rw [Runtime_Parse_eq]
  rfl

theorem Runtime_Parse_length (rt : Runtime) (input : List Nat) (m : Message) (r : List Nat)
    (h : rt.Parse input = .ok (.ok (m, r))) : r.length < input.length :=
  Runtime_ParseN_length rt _ input m r h

theorem Runtime_Parse_bulk_header (rt : Runtime) (N : Nat) (data : List Nat) (hN : N < 2 ^ 63) :
    rt.Parse (36 :: decimal N ++ [CR, LF] ++ data) =
      if rt.makeBytes N = false then .error .makeslice
      else .ok (Parse (36 :: decimal N ++ [CR, LF] ++ data)) := by
  have e : 36 :: decimal N ++ [CR, LF] ++ data = 36 :: (decimal N ++ CR :: LF :: data) := by simp
  have h1 : ¬ ((N : Int) = -1) := by omega
  have h2 : ¬ ((N : Int) < 0) := by omega
  rw [e, Runtime_Parse_cons, Parse_cons]
  simp only [show ¬ (36 = 43) by decide, show ¬ (36 = 45) by decide,
    show ¬ (36 = 58) by decide, if_false, if_true]
  unfold Runtime.parseBulkString parseBulkString
  rw [readLine_append _ _ (decimal_not_mem_LF _)]
  simp only [Atoi_decimal _ hN, h1, h2, if_false, Int.toNat_ofNat]
  cases rt.makeBytes N with
  | false => rfl
  | true =>
    simp only [Bool.true_eq_false, if_false]
    cases ReadFull N data with
    | error e => rfl
    | ok q =>
      obtain ⟨d, rest1⟩ := q
      simp only
      cases expectCRLF rest1 with
      | error e => rfl
      | ok rest2 => rfl

theorem Runtime_Parse_bulk_header_range (rt : Runtime) (N : Nat) (data : List Nat)
    (hN : 2 ^ 63 ≤ N) :
    rt.Parse (36 :: decimal N ++ [CR, LF] ++ data) =
      .ok (.error (.invalidBulkStringLengthText (decimal N))) := by
  have e : 36 :: decimal N ++ [CR, LF] ++ data = 36 :: (decimal N ++ CR :: LF :: data) := by simp
  obtain ⟨err, herr⟩ := Atoi_decimal_error N hN
  rw [e, Runtime_Parse_cons]
  simp only [show ¬ (36 = 43) by decide, show ¬ (36 = 45) by decide,
    show ¬ (36 = 58) by decide, if_false, if_true]
  unfold Runtime.parseBulkString
  rw [readLine_append _ _ (decimal_not_mem_LF _)]
  simp only [herr]

theorem Runtime_Parse_array_header (rt : Runtime) (N : Nat) (body : List Nat)
    (hN : N < 2 ^ 63) :
    rt.Parse (42 :: decimal N ++ [CR, LF] ++ body) =
      if rt.makeMessages N = false then .error .makeslice
      else
        match Runtime.parseElements rt.Parse N 0 body with
        | .error p => .error p
        | .ok (.error e) => .ok (.error e)
        | .ok (.ok (elements, rest1)) => .ok (.ok (NewArray elements, rest1)) := by
  have e : 42 :: decimal N ++ [CR, LF] ++ body = 42 :: (decimal N ++ CR :: LF :: body) := by simp
  have h1 : ¬ ((N : Int) = -1) := by omega
  have h2 : ¬ ((N : Int) < 0) := by omega
  rw [e, Runtime_Parse_cons]
  simp only [show ¬ (42 = 43) by decide, show ¬ (42 = 45) by decide,
    show ¬ (42 = 58) by decide, show ¬ (42 = 36) by decide, if_false, if_true]
  unfold Runtime.parseArray
  rw [readLine_append _ _ (decimal_not_mem_LF _)]
  simp only [Atoi_decimal _ hN, h1, h2, if_false, Int.toNat_ofNat]

theorem Runtime_Parse_array_header_range (rt : Runtime) (N : Nat) (body : List Nat)
    (hN : 2 ^ 63 ≤ N) :
    rt.Parse (42 :: decimal N ++ [CR, LF] ++ body) =
      .ok (.error (.invalidArrayLengthText (decimal N))) := by
  have e : 42 :: decimal N ++ [CR, LF] ++ body = 42 :: (decimal N ++ CR :: LF :: body) := by simp
  obtain ⟨err, herr⟩ := Atoi_decimal_error N hN
  rw [e, Runtime_Parse_cons]
  simp only [show ¬ (42 = 43) by decide, show ¬ (42 = 45) by decide,
    show ¬ (42 = 58) by decide, show ¬ (42 = 36) by decide, if_false, if_true]
  unfold Runtime.parseArray
  rw [readLine_append _ _ (decimal_not_mem_LF _)]
  simp only [herr]

/-- A declared bulk length that `make` refuses is a panic, whatever follows
the header. -/
theorem Runtime_Parse_bulk_makeslice (rt : Runtime) (N : Nat) (data : List Nat)
    (hN : N < 2 ^ 63) (hm : rt.makeBytes N = false) :
    rt.Parse (36 :: decimal N ++ [CR, LF] ++ data) = .error .makeslice := by
  rw [Runtime_Parse_bulk_header rt N data hN, hm]
  rfl

/-- A declared array length that `make` refuses is a panic, whatever follows
the header. -/
theorem Runtime_Parse_array_makeslice (rt : Runtime) (N : Nat) (body : List Nat)
    (hN : N < 2 ^ 63) (hm : rt.makeMessages N = false) :
    rt.Parse (42 :: decimal N ++ [CR, LF] ++ body) = .error .makeslice := by
  rw [Runtime_Parse_array_header rt N body hN, hm]
  rfl

theorem Runtime_Frames_model (rt : Runtime) (ms : List Message) (body rest : List Nat)
    (h : rt.Frames body ms rest) : Frames body ms rest := by
  induction ms generalizing body with
  | nil => exact h
  | cons m ms ih =>
    obtain ⟨r, h1, h2⟩ := h
    exact ⟨r, Runtime_Parse_model rt body _ h1, ih r h2⟩

theorem Runtime_parseElements_of_Frames (rt : Runtime) (ms : List Message) (i : Nat)
    (body rest : List Nat) (h : rt.Frames body ms rest) :
    Runtime.parseElements rt.Parse ms.length i body = .ok (.ok (ms, rest)) := by
  induction ms generalizing i body with
  | nil =>
    simp only [Runtime.Frames] at h
    simp [Runtime.parseElements, h]
  | cons m ms ih =>
    obtain ⟨r, h1, h2⟩ := h
    simp only [List.length_cons, Runtime.parseElements, h1, ih (i + 1) r h2]

theorem Runtime_Frames_of_parseElements (rt : Runtime) (n i : Nat) (body : List Nat)
    (ms : List Message) (rest : List Nat)
    (h : Runtime.parseElements rt.Parse n i body = .ok (.ok (ms, rest))) :
    ms.length = n ∧ rt.Frames body ms rest := by
  induction n generalizing i body ms with
  | zero =>
    simp only [Runtime.parseElements, Except.ok.injEq, Prod.mk.injEq] at h
    obtain ⟨rfl, rfl⟩ := h
    exact ⟨rfl, rfl⟩
  | succ n ih =>
    unfold Runtime.parseElements at h
    cases h1 : rt.Parse body with
    | error p => simp only [h1] at h; cases h
    | ok q =>
      cases q with
      | error e => simp only [h1] at h; cases h
      | ok q1 =>
        obtain ⟨element, r⟩ := q1
        simp only [h1] at h
        cases h2 : Runtime.parseElements rt.Parse n (i + 1) r with
        | error p => simp only [h2] at h; cases h
        | ok q2 =>
          cases q2 with
          | error e => simp only [h2] at h; cases h
          | ok q3 =>
            obtain ⟨elements, rest1⟩ := q3
            simp only [h2, Except.ok.injEq, Prod.mk.injEq] at h
            obtain ⟨rfl, rfl⟩ := h
            obtain ⟨hl, hf⟩ := ih (i + 1) r elements h2
            exact ⟨by simp [hl], r, h1, hf⟩

/-- The loop of `parseArray` stops at the first frame that `Parse` does not
return a message for, with the result `stop` that this `Parse` makes of it. -/
theorem Runtime_parseElements_stop_of_Frames (rt : Runtime) (ms : List Message) (n i : Nat)
    (body r : List Nat) (hf : rt.Frames body ms r) (hn : ms.length < n) :
    Runtime.parseElements rt.Parse n i body =
      match rt.Parse r with
      | .error p => .error p
      | .ok (.error e) => .ok (.error (.arrayElement (i + ms.length) e))
      | .ok (.ok (element, rest)) =>
        match Runtime.parseElements rt.Parse (n - ms.length - 1) (i + ms.length + 1) rest with
        | .error p => .error p
        | .ok (.error e) => .ok (.error e)
        | .ok (.ok (elements, rest1)) => .ok (.ok (ms ++ element :: elements, rest1)) := by
  induction ms generalizing n i body with
  | nil =>
    simp only [Runtime.Frames] at hf
    subst hf
    obtain ⟨k, rfl⟩ : ∃ k, n = k + 1 := ⟨n - 1, by simp at hn; omega⟩
    simp only [Runtime.parseElements, List.length_nil, Nat.add_zero, Nat.sub_zero,
      Nat.add_sub_cancel, List.nil_append]
  | cons m ms ih =>
    obtain ⟨r1, h1, h2⟩ := hf
    simp only [List.length_cons] at hn
    obtain ⟨k, rfl⟩ : ∃ k, n = k + 1 := ⟨n - 1, by omega⟩
    simp only [Runtime.parseElements, h1, ih k (i + 1) r1 h2 (by omega)]
    have e1 : i + 1 + ms.length = i + (m :: ms).length := by simp; omega
    have e2 : k - ms.length - 1 = k + 1 - (m :: ms).length - 1 := by simp
    rw [e1, e2]
    cases rt.Parse r with
    | error p => rfl
    | ok q =>
      cases q with
      | error e => rfl
      | ok q1 =>
        obtain ⟨element, rest⟩ := q1
        simp only
        cases Runtime.parseElements rt.Parse (k + 1 - (m :: ms).length - 1)
            (i + (m :: ms).length + 1) rest with
        | error p => rfl
        | ok q2 =>
          cases q2 with
          | error e => rfl
          | ok q3 => rfl

theorem Runtime_Frames_length (rt : Runtime) (ms : List Message) (body rest : List Nat)
    (h : rt.Frames body ms rest) : ms.length + rest.length ≤ body.length :=
  Frames_length ms body rest (Runtime_Frames_model rt ms body rest h)

theorem Runtime_parseBulkString_granted (rt : Runtime) (hb : ∀ n, rt.makeBytes n = true)
    (input : List Nat) : rt.parseBulkString input = .ok (parseBulkString input) := by
  unfold Runtime.parseBulkString parseBulkString
  cases readLine input with
  | error e => rfl
  | ok p =>
    obtain ⟨line, rest⟩ := p
    simp only
    cases Atoi line with
    | error e => rfl
    | ok length =>
      simp only
      by_cases h1 : length = -1
      · simp [h1]
      · by_cases h2 : length < 0
        · simp [h1, h2]
        · simp only [h1, h2, hb, if_false, Bool.true_eq_false]
          cases ReadFull length.toNat rest with
          | error e => rfl
          | ok q =>
            obtain ⟨data, rest1⟩ := q
            simp only
            cases expectCRLF rest1 with
            | error e => rfl
            | ok rest2 => rfl

theorem Runtime_parseElements_granted (p : List Nat → Except Panic (ParseResult Message))
    (q : List Nat → ParseResult Message) (h : ∀ y, p y = .ok (q y)) (n i : Nat)
    (input : List Nat) :
    Runtime.parseElements p n i input = .ok (parseElements q n i input) := by
  induction n generalizing i input with
  | zero => rfl
  | succ n ih =>
    unfold Runtime.parseElements parseElements
    rw [h input]
    cases q input with
    | error e => rfl
    | ok r =>
      obtain ⟨element, rest⟩ := r
      simp only
      rw [ih (i + 1) rest]
      cases parseElements q n (i + 1) rest with
      | error e => rfl
      | ok r2 => rfl

theorem Runtime_parseArray_granted (rt : Runtime) (hm : ∀ n, rt.makeMessages n = true)
    (p : List Nat → Except Panic (ParseResult Message)) (q : List Nat → ParseResult Message)
    (h : ∀ y, p y = .ok (q y)) (input : List Nat) :
    rt.parseArray p input = .ok (parseArray q input) := by
  unfold Runtime.parseArray parseArray
  cases readLine input with
  | error e => rfl
  | ok r =>
    obtain ⟨line, rest⟩ := r
    simp only
    cases Atoi line with
    | error e => rfl
    | ok length =>
      simp only
      by_cases h1 : length = -1
      · simp [h1]
      · by_cases h2 : length < 0
        · simp [h1, h2]
        · simp only [h1, h2, hm, if_false, Bool.true_eq_false]
          rw [Runtime_parseElements_granted p q h length.toNat 0 rest]
          cases parseElements q length.toNat 0 rest with
          | error e => rfl
          | ok r2 => rfl

theorem Runtime_parseMessage_granted (rt : Runtime) (hb : ∀ n, rt.makeBytes n = true)
    (hm : ∀ n, rt.makeMessages n = true)
    (p : List Nat → Except Panic (ParseResult Message)) (q : List Nat → ParseResult Message)
    (h : ∀ y, p y = .ok (q y)) (input : List Nat) :
    rt.parseMessage p input = .ok (parseMessage q input) := by
  cases input with
  | nil => rfl
  | cons b rest =>
    simp only [Runtime.parseMessage, parseMessage, ReadByte]
    by_cases h1 : b = 43
    · simp [h1]
    · by_cases h2 : b = 45
      · simp [h1, h2]
      · by_cases h3 : b = 58
        · simp [h1, h2, h3]
        · by_cases h4 : b = 36
          · simp only [h1, h2, h3, h4, if_false, if_true]
            exact Runtime_parseBulkString_granted rt hb rest
          · by_cases h5 : b = 42
            · simp only [h1, h2, h3, h4, h5, if_false, if_true]
              exact Runtime_parseArray_granted rt hm p q h rest
            · simp [h1, h2, h3, h4, h5]

theorem Runtime_ParseN_granted (rt : Runtime) (hb : ∀ n, rt.makeBytes n = true)
    (hm : ∀ n, rt.makeMessages n = true) (d : Nat) (input : List Nat) :
    rt.ParseN d input = .ok (ParseN d input) := by
  induction d generalizing input with
  | zero => rfl
  | succ d ih => exact Runtime_parseMessage_granted rt hb hm _ _ ih input

/-- On a run in which every `make` returns, the method `Parse` returns, and
what it returns is `Parse input`. -/
theorem Runtime_Parse_granted (rt : Runtime) (hb : ∀ n, rt.makeBytes n = true)
    (hm : ∀ n, rt.makeMessages n = true) (input : List Nat) :
    rt.Parse input = .ok (Parse input) :=
  Runtime_ParseN_granted rt hb hm _ input

theorem Runtime_Parse_bulk_granted (rt : Runtime) (N : Nat) (data : List Nat)
    (hm : rt.makeBytes N = true) :
    rt.Parse (36 :: decimal N ++ [CR, LF] ++ data) =
      .ok (Parse (36 :: decimal N ++ [CR, LF] ++ data)) := by
  by_cases hN : N < 2 ^ 63
  · rw [Runtime_Parse_bulk_header rt N data hN, hm]
    rfl
  · rw [Runtime_Parse_bulk_header_range rt N data (by omega),
      Parse_bulk_header_range N data (by omega)]

/-- The loop of `Handle` on frames that are parsed and answered, followed by
bytes on which the loop ends as `ended` without writing: it writes the
responses in order and ends as `ended`. -/
theorem Runtime_handleLoop_frames (rt : Runtime) (mapUpper : List Nat → List Nat)
    (commandHandler : CommandHandler) (ms : List Message) (steps : Nat)
    (input output : List Nat) (store store2 : MemoryStore) (rest : List Nat)
    (ended : HandleEnd) (outs : List (List Nat))
    (hframes : rt.Frames input ms rest)
    (hstop : ∀ k out st,
      rt.handleLoop mapUpper commandHandler (k + 1) rest out st = ⟨out, st, ended⟩)
    (hresp : responses mapUpper commandHandler ms store = some (outs, store2))
    (hsteps : ms.length < steps) :
    rt.handleLoop mapUpper commandHandler steps input output store =
      ⟨output ++ outs.flatten, store2, ended⟩ := by
  induction ms generalizing steps input output store outs with
  | nil =>
    simp only [Runtime.Frames] at hframes
    subst hframes
    simp only [responses, Option.some.injEq, Prod.mk.injEq] at hresp
    obtain ⟨rfl, rfl⟩ := hresp
    obtain ⟨k, rfl⟩ : ∃ k, steps = k + 1 := ⟨steps - 1, by simp at hsteps; omega⟩
    rw [hstop k output store]
    simp
  | cons m ms ih =>
    obtain ⟨r, hparse, hrest⟩ := hframes
    obtain ⟨response, store1, s, outs1, hp, hs, hr, rfl⟩ :=
      responses_cons mapUpper commandHandler m ms store store2 outs hresp
    simp only [List.length_cons] at hsteps
    obtain ⟨k, rfl⟩ : ∃ k, steps = k + 1 := ⟨steps - 1, by omega⟩
    have hp2 : Connection.processCommand mapUpper ⟨r, output, commandHandler⟩ store m =
        .ok (some response, store1) := by
      rw [processCommand_handler mapUpper ⟨r, output, commandHandler⟩
        ⟨[], [], commandHandler⟩ rfl store m, hp]
    have hser := Serialize_of_ok response s output hs
    simp only [Runtime.handleLoop, hparse, hp2, hser]
    rw [ih k r (output ++ s) store1 outs1 hrest hr (by omega)]
    simp

theorem Runtime_Handle_frames_error (rt : Runtime) (mapUpper : List Nat → List Nat)
    (c : Connection) (store store2 : MemoryStore) (ms : List Message) (rest : List Nat)
    (e : ParseError) (outs : List (List Nat)) (hframes : rt.Frames c.input ms rest)
    (herr : rt.Parse rest = .ok (.error e))
    (hresp : responses mapUpper c.commandHandler ms store = some (outs, store2)) :
    rt.Handle mapUpper c store = ⟨c.output ++ outs.flatten, store2, .parseError e⟩ := by
  have hlen := Runtime_Frames_length rt ms c.input rest hframes
  exact Runtime_handleLoop_frames rt mapUpper c.commandHandler ms (c.input.length + 1) c.input
    c.output store store2 rest _ outs hframes
    (fun k out st => by simp [Runtime.handleLoop, herr]) hresp (by omega)

theorem Runtime_Handle_frames_panic (rt : Runtime) (mapUpper : List Nat → List Nat)
    (c : Connection) (store store2 : MemoryStore) (ms : List Message) (rest : List Nat)
    (p : Panic) (outs : List (List Nat)) (hframes : rt.Frames c.input ms rest)
    (hpanic : rt.Parse rest = .error p)
    (hresp : responses mapUpper c.commandHandler ms store = some (outs, store2)) :
    rt.Handle mapUpper c store = ⟨c.output ++ outs.flatten, store2, .panic p⟩ := by
  have hlen := Runtime_Frames_length rt ms c.input rest hframes
  exact Runtime_handleLoop_frames rt mapUpper c.commandHandler ms (c.input.length + 1) c.input
    c.output store store2 rest _ outs hframes
    (fun k out st => by simp [Runtime.handleLoop, hpanic]) hresp (by omega)

/-- C3, at the failing input.  Binary-safe bulk parsing, for every `N` and
every input `'$' ++ decimal N ++ CRLF ++ data`.  A declared length that
`make([]byte, N)` refuses is not rejected: `Parse` panics, whatever `data`
is, also when the payload is shorter than declared.  When `make([]byte, N)`
returns, `Parse` returns a message if and only if `data` has at least `N + 2`
bytes with CR and LF at `N` and `N + 1`, and returns an error otherwise.  A
message that `Parse` returns is the bulk string of the first `N` bytes of
`data`, whatever these bytes are, and the bytes after the CR LF stay unread. -/
theorem Runtime_parseBulkString_binary_safe (rt : Runtime) (N : Nat) (data : List Nat)
    (hlen : data.length < 2 ^ 63) :
    (N < 2 ^ 63 → rt.makeBytes N = false →
        rt.Parse (36 :: decimal N ++ [CR, LF] ++ data) = .error .makeslice) ∧
      (rt.makeBytes N = true →
        ((∃ r, rt.Parse (36 :: decimal N ++ [CR, LF] ++ data) = .ok (.ok r)) ↔
          (N + 2 ≤ data.length ∧ data[N]? = some CR ∧ data[N + 1]? = some LF)) ∧
        (¬ (N + 2 ≤ data.length ∧ data[N]? = some CR ∧ data[N + 1]? = some LF) →
          ∃ e, rt.Parse (36 :: decimal N ++ [CR, LF] ++ data) = .ok (.error e))) ∧
      (∀ r, rt.Parse (36 :: decimal N ++ [CR, LF] ++ data) = .ok (.ok r) →
        r = (NewBulkString (data.take N), data.drop (N + 2))) := by
  refine ⟨fun hN hm => Runtime_Parse_bulk_makeslice rt N data hN hm, fun hm => ?_, ?_⟩
  · have hg := Runtime_Parse_bulk_granted rt N data hm
    have hiff := (Parse_bulk_iff N data hlen).1
    refine ⟨?_, ?_⟩
    · rw [hg, ← hiff]
      constructor
      · rintro ⟨r, hr⟩
        simp only [Except.ok.injEq] at hr
        exact ⟨r, hr⟩
      · rintro ⟨r, hr⟩
        exact ⟨r, by rw [hr]⟩
    · intro hno
      rw [hg]
      cases hp : Parse (36 :: decimal N ++ [CR, LF] ++ data) with
      | error e => exact ⟨e, rfl⟩
      | ok r => exact absurd (hiff.1 ⟨r, hp⟩) hno
  · intro r hr
    exact (Parse_bulk_iff N data hlen).2 r (Runtime_Parse_model rt _ _ hr)

theorem Runtime_parseBulkString_binary_safe_witness :
    (ascii "foo\r\n").length < 2 ^ 63 ∧
      ascii "$9223372036854775807\r\nfoo\r\n" =
        36 :: decimal 9223372036854775807 ++ [CR, LF] ++ ascii "foo\r\n" ∧
      Runtime.amd64.makeBytes 9223372036854775807 = false ∧
      Runtime.amd64.Parse (36 :: decimal 9223372036854775807 ++ [CR, LF] ++ ascii "foo\r\n") =
        .error .makeslice ∧
      Runtime.amd64.makeBytes 5 = true ∧
      (∃ e, Runtime.amd64.Parse (36 :: decimal 5 ++ [CR, LF] ++ ascii "foo\r\n") =
        .ok (.error e)) ∧
      Runtime.amd64.ParseString (ascii "$5\r\nfoo\r\n") =
        .ok (.error (.missingCRLF (.read .EOF))) ∧
      Runtime.amd64.ParseString (ascii "$5\r\na\r\n\x00b\r\n") =
        .ok (.ok (NewBulkString (ascii "a\r\n\x00b"))) :=
  ⟨by decide, rfl, rfl,
    (Runtime_parseBulkString_binary_safe Runtime.amd64 9223372036854775807 (ascii "foo\r\n")
      (by decide)).1 (by decide) rfl,
    rfl,
    ((Runtime_parseBulkString_binary_safe Runtime.amd64 5 (ascii "foo\r\n")
      (by decide)).2.1 rfl).2 (by decide),
    rfl, rfl⟩

/-- C5, at the failing input.  Array parsing, for every `N` and every input
`'*' ++ decimal N ++ CRLF ++ body`.  A declared length that
`make([]*Message, N)` refuses makes `Parse` panic before any sub-frame is
read, also when the stream ends before `N` frames: no error is returned and
no index is named.  When `make([]*Message, N)` returns, `Parse` returns a
message if and only if `N` consecutive frames are parsed from `body`, the
message is the array of exactly these frames in order, and when the first
`i < N` frames are parsed and the next one fails, `Parse` returns the error
naming the index `i` (or panics as the sub-frame does).  A declared
`N >= 2^63` is no Go `int`: `Parse` returns the error of an invalid length. -/
theorem Runtime_parseArray_frames (rt : Runtime) (N : Nat) (body : List Nat) :
    (N < 2 ^ 63 → rt.makeMessages N = false →
        rt.Parse (42 :: decimal N ++ [CR, LF] ++ body) = .error .makeslice) ∧
      (N < 2 ^ 63 → rt.makeMessages N = true →
        ((∃ r, rt.Parse (42 :: decimal N ++ [CR, LF] ++ body) = .ok (.ok r)) ↔
          ∃ ms rest, ms.length = N ∧ rt.Frames body ms rest) ∧
        (∀ m rest, rt.Parse (42 :: decimal N ++ [CR, LF] ++ body) = .ok (.ok (m, rest)) ↔
          ∃ ms, m = NewArray ms ∧ ms.length = N ∧ rt.Frames body ms rest) ∧
        (∀ i ms r e, i < N → ms.length = i → rt.Frames body ms r →
          rt.Parse r = .ok (.error e) →
          rt.Parse (42 :: decimal N ++ [CR, LF] ++ body) = .ok (.error (.arrayElement i e))) ∧
        (∀ i ms r p, i < N → ms.length = i → rt.Frames body ms r → rt.Parse r = .error p →
          rt.Parse (42 :: decimal N ++ [CR, LF] ++ body) = .error p)) ∧
      (2 ^ 63 ≤ N →
        rt.Parse (42 :: decimal N ++ [CR, LF] ++ body) =
          .ok (.error (.invalidArrayLengthText (decimal N)))) := by
  refine ⟨fun hN hm => Runtime_Parse_array_makeslice rt N body hN hm, fun hN hm => ?_,
    fun hN => Runtime_Parse_array_header_range rt N body hN⟩
  have hdr := Runtime_Parse_array_header rt N body hN
  simp only [hm, Bool.true_eq_false, if_false] at hdr
  have key : ∀ m rest, rt.Parse (42 :: decimal N ++ [CR, LF] ++ body) = .ok (.ok (m, rest)) ↔
      ∃ ms, m = NewArray ms ∧ ms.length = N ∧ rt.Frames body ms rest := by
    intro m rest
    rw [hdr]
    constructor
    · intro h
      cases he : Runtime.parseElements rt.Parse N 0 body with
      | error p => simp only [he] at h; cases h
      | ok q =>
        cases q with
        | error e => simp only [he] at h; cases h
        | ok q1 =>
          obtain ⟨elements, rest1⟩ := q1
          simp only [he, Except.ok.injEq, Prod.mk.injEq] at h
          obtain ⟨rfl, rfl⟩ := h
          obtain ⟨hl, hf⟩ := Runtime_Frames_of_parseElements rt N 0 body elements rest1 he
          exact ⟨elements, rfl, hl, hf⟩
    · rintro ⟨ms, rfl, rfl, hf⟩
      rw [Runtime_parseElements_of_Frames rt ms 0 body rest hf]
  refine ⟨?_, key, ?_, ?_⟩
  · constructor
    · rintro ⟨⟨m, rest⟩, h⟩
      obtain ⟨ms, _, hl, hf⟩ := (key m rest).1 h
      exact ⟨ms, rest, hl, hf⟩
    · rintro ⟨ms, rest, hl, hf⟩
      exact ⟨(NewArray ms, rest), (key _ rest).2 ⟨ms, rfl, hl, hf⟩⟩
  · intro i ms r e hi hl hf he
    subst hl
    rw [hdr, Runtime_parseElements_stop_of_Frames rt ms N 0 body r hf hi, he]
    simp
  · intro i ms r p hi hl hf hp
    subst hl
    rw [hdr, Runtime_parseElements_stop_of_Frames rt ms N 0 body r hf hi, hp]

theorem Runtime_parseArray_frames_witness :
    ascii "*9223372036854775807\r\n" = 42 :: decimal 9223372036854775807 ++ [CR, LF] ++ [] ∧
      9223372036854775807 < 2 ^ 63 ∧
      Runtime.amd64.makeMessages 9223372036854775807 = false ∧
      Runtime.amd64.Parse (42 :: decimal 9223372036854775807 ++ [CR, LF] ++ []) =
        .error .makeslice ∧
      Runtime.amd64.makeMessages 2 = true ∧
      Runtime.amd64.Frames (ascii "$3\r\nfoo\r\n") [NewBulkString (ascii "foo")] [] ∧
      Runtime.amd64.Parse (42 :: decimal 2 ++ [CR, LF] ++ ascii "$3\r\nfoo\r\n") =
        .ok (.error (.arrayElement 1 (.readMessageType .EOF))) ∧
      Runtime.amd64.ParseString (ascii "*2\r\n$3\r\nfoo\r\n:7\r\n") =
        .ok (.ok (NewArray [NewBulkString (ascii "foo"), NewInteger 7])) ∧
      Runtime.amd64.ParseString (ascii "*9223372036854775808\r\n") =
        .ok (.error (.invalidArrayLengthText (ascii "9223372036854775808"))) :=
  ⟨rfl, by decide, rfl,
    (Runtime_parseArray_frames Runtime.amd64 9223372036854775807 []).1 (by decide) rfl,
    rfl, ⟨_, rfl, rfl⟩,
    ((Runtime_parseArray_frames Runtime.amd64 2 (ascii "$3\r\nfoo\r\n")).2.1 (by decide)
      rfl).2.2.1 1 [NewBulkString (ascii "foo")] [] (.readMessageType .EOF) (by decide) rfl
      ⟨_, rfl, rfl⟩ rfl,
    rfl, rfl⟩

/-- C30, at the failing input.  When the frames `ms` are parsed and answered
and `Parse` returns an error on what follows them, the connection loop ends
there: it has written exactly the responses to `ms`, nothing for the failing
frame, and the store is the one the requests `ms` left.  When what follows is
a frame whose declared length `make` refuses, also one cut by the end of the
stream, `Parse` returns no error: it panics, `Handle` has no `recover`, and
the loop ends in the panic and not in a closed connection. -/
theorem Runtime_Handle_parse_fault (rt : Runtime) (mapUpper : List Nat → List Nat)
    (c : Connection) (store store2 : MemoryStore) (ms : List Message) (rest : List Nat)
    (outs : List (List Nat)) (hframes : rt.Frames c.input ms rest)
    (hresp : responses mapUpper c.commandHandler ms store = some (outs, store2)) :
    (∀ e, rt.Parse rest = .ok (.error e) →
        rt.Handle mapUpper c store = ⟨c.output ++ outs.flatten, store2, .parseError e⟩) ∧
      (∀ p, rt.Parse rest = .error p →
        rt.Handle mapUpper c store = ⟨c.output ++ outs.flatten, store2, .panic p⟩) ∧
      (∀ (N : Nat) (tail : List Nat), N < 2 ^ 63 → rt.makeBytes N = false →
        rest = 36 :: decimal N ++ [CR, LF] ++ tail →
        rt.Handle mapUpper c store =
          ⟨c.output ++ outs.flatten, store2, .panic .makeslice⟩) ∧
      (∀ (N : Nat) (tail : List Nat), N < 2 ^ 63 → rt.makeMessages N = false →
        rest = 42 :: decimal N ++ [CR, LF] ++ tail →
        rt.Handle mapUpper c store =
          ⟨c.output ++ outs.flatten, store2, .panic .makeslice⟩) := by
  refine ⟨fun e he => Runtime_Handle_frames_error rt mapUpper c store store2 ms rest e outs
      hframes he hresp,
    fun p hp => Runtime_Handle_frames_panic rt mapUpper c store store2 ms rest p outs
      hframes hp hresp, ?_, ?_⟩
  · intro N tail hN hm hrest
    exact Runtime_Handle_frames_panic rt mapUpper c store store2 ms rest _ outs hframes
      (by rw [hrest]; exact Runtime_Parse_bulk_makeslice rt N tail hN hm) hresp
  · intro N tail hN hm hrest
    exact Runtime_Handle_frames_panic rt mapUpper c store store2 ms rest _ outs hframes
      (by rw [hrest]; exact Runtime_Parse_array_makeslice rt N tail hN hm) hresp

theorem Runtime_Handle_parse_fault_witness :
    Runtime.amd64.Frames
        (NewConnection (ascii "*1\r\n$4\r\nPING\r\n$9223372036854775807\r\n")
          (NewServer [] 6379).commandHandler).input
        [NewArray [NewBulkString (ascii "PING")]] (ascii "$9223372036854775807\r\n") ∧
      responses id (NewServer [] 6379).commandHandler
        [NewArray [NewBulkString (ascii "PING")]] NewMemoryStore =
        some ([ascii "+PONG\r\n"], NewMemoryStore) ∧
      Runtime.amd64.Parse (ascii "$9223372036854775807\r\n") = .error .makeslice ∧
      Runtime.amd64.Handle id
          (NewConnection (ascii "*1\r\n$4\r\nPING\r\n$9223372036854775807\r\n")
            (NewServer [] 6379).commandHandler) NewMemoryStore =
        ⟨[] ++ [ascii "+PONG\r\n"].flatten, NewMemoryStore, .panic .makeslice⟩ ∧
      Runtime.amd64.Parse (ascii "$abc\r\n") =
        .ok (.error (.invalidBulkStringLengthText (ascii "abc"))) ∧
      Runtime.amd64.Handle id
          (NewConnection (ascii "*1\r\n$4\r\nPING\r\n$abc\r\n")
            (NewServer [] 6379).commandHandler) NewMemoryStore =
        ⟨[] ++ [ascii "+PONG\r\n"].flatten, NewMemoryStore,
          .parseError (.invalidBulkStringLengthText (ascii "abc"))⟩ :=
  ⟨⟨_, rfl, rfl⟩, rfl, rfl,
    (Runtime_Handle_parse_fault Runtime.amd64 id
      (NewConnection (ascii "*1\r\n$4\r\nPING\r\n$9223372036854775807\r\n")
        (NewServer [] 6379).commandHandler) NewMemoryStore NewMemoryStore
      [NewArray [NewBulkString (ascii "PING")]] (ascii "$9223372036854775807\r\n")
      [ascii "+PONG\r\n"] ⟨_, rfl, rfl⟩ rfl).2.1 .makeslice rfl,
    rfl,
    (Runtime_Handle_parse_fault Runtime.amd64 id
      (NewConnection (ascii "*1\r\n$4\r\nPING\r\n$abc\r\n")
        (NewServer [] 6379).commandHandler) NewMemoryStore NewMemoryStore
      [NewArray [NewBulkString (ascii "PING")]] (ascii "$abc\r\n")
      [ascii "+PONG\r\n"] ⟨_, rfl, rfl⟩ rfl).1 _ rfl⟩

/-- C37, at the failing input.  `Parse` is a function of the input and of what
`make` does: on every finite input it returns a message, returns an error, or
panics in `make`, and any depth bound above the length of the input gives the
same outcome; an error is never the mark of an exhausted depth bound, a
returned message has read at least one byte, and `parseArray` calls `Parse`
on strictly shorter inputs only.  An array or bulk header whose declared
length `make` refuses ends in neither a message nor an error: `Parse` panics,
whatever follows.  When `make` returns, an array whose declared length exceeds
the number of frames present ends in the error of the first missing frame;
and on a run in which every `make` returns, `Parse` always returns. -/
theorem Runtime_Parse_total (rt : Runtime) (input : List Nat) :
    ((∃ m rest, rt.Parse input = .ok (.ok (m, rest))) ∨
        (∃ e, rt.Parse input = .ok (.error e)) ∨ rt.Parse input = .error .makeslice) ∧
      (∀ e, rt.Parse input = .ok (.error e) → e.reachedDepth = false) ∧
      (∀ d, input.length < d → rt.ParseN d input = rt.Parse input) ∧
      (∀ m rest, rt.Parse input = .ok (.ok (m, rest)) → rest.length < input.length) ∧
      rt.Parse input = rt.parseMessage rt.Parse input ∧
      (∀ p q : List Nat → Except Panic (ParseResult Message),
        (∀ y, y.length < input.length → p y = q y) →
        (∀ y m r, p y = .ok (.ok (m, r)) → r.length ≤ y.length) →
        rt.parseMessage p input = rt.parseMessage q input) ∧
      (∀ N, N < 2 ^ 63 → rt.makeMessages N = false →
        rt.Parse (42 :: decimal N ++ [CR, LF] ++ input) = .error .makeslice) ∧
      (∀ N, N < 2 ^ 63 → rt.makeBytes N = false →
        rt.Parse (36 :: decimal N ++ [CR, LF] ++ input) = .error .makeslice) ∧
      (∀ (N : Nat) (ms : List Message), N < 2 ^ 63 → rt.makeMessages N = true →
        rt.Frames input ms [] → ms.length < N →
        rt.Parse (42 :: decimal N ++ [CR, LF] ++ input) =
          .ok (.error (.arrayElement ms.length (.readMessageType .EOF)))) ∧
      ((∀ n, rt.makeBytes n = true) → (∀ n, rt.makeMessages n = true) →
        (∃ m rest, rt.Parse input = .ok (.ok (m, rest))) ∨
          ∃ e, rt.Parse input = .ok (.error e)) := by
  refine ⟨?_, ?_, fun d hd => Runtime_ParseN_eq_Parse rt d input hd,
    Runtime_Parse_length rt input, Runtime_Parse_eq rt input,
    fun p q hpq hp => Runtime_parseMessage_congr rt p q input hpq hp,
    fun N hN hm => Runtime_Parse_array_makeslice rt N input hN hm,
    fun N hN hm => Runtime_Parse_bulk_makeslice rt N input hN hm, ?_, ?_⟩
  · rcases Runtime_Parse_cases rt input with h | h
    · exact Or.inr (Or.inr h)
    · rw [h]
      cases Parse input with
      | error e => exact Or.inr (Or.inl ⟨e, rfl⟩)
      | ok r => exact Or.inl ⟨r.1, r.2, rfl⟩
  · intro e he
    exact ParseN_error_depth (input.length + 1) input (Nat.lt_succ_self _) e
      (Runtime_Parse_model rt input _ he)
  · intro N ms hN hm hf hlt
    have hnil : rt.Parse [] = .ok (.error (.readMessageType .EOF)) := rfl
    rw [Runtime_Parse_array_header rt N input hN, hm,
      Runtime_parseElements_stop_of_Frames rt ms N 0 input [] hf hlt, hnil]
    simp
  · intro hb hm
    rw [Runtime_Parse_granted rt hb hm input]
    cases Parse input with
    | error e => exact Or.inr ⟨e, rfl⟩
    | ok r => exact Or.inl ⟨r.1, r.2, rfl⟩

theorem Runtime_Parse_total_witness :
    ascii "*4611686018427387904\r\n$3\r\nfoo\r\n" =
        42 :: decimal 4611686018427387904 ++ [CR, LF] ++ ascii "$3\r\nfoo\r\n" ∧
      4611686018427387904 < 2 ^ 63 ∧
      Runtime.amd64.makeMessages 4611686018427387904 = false ∧
      Runtime.amd64.Parse
          (42 :: decimal 4611686018427387904 ++ [CR, LF] ++ ascii "$3\r\nfoo\r\n") =
        .error .makeslice ∧
      Runtime.amd64.ParseN 100 (ascii "*4611686018427387904\r\n$3\r\nfoo\r\n") =
        Runtime.amd64.Parse (ascii "*4611686018427387904\r\n$3\r\nfoo\r\n") ∧
      Runtime.amd64.Frames (ascii "$3\r\nfoo\r\n") [NewBulkString (ascii "foo")] [] ∧
      Runtime.amd64.Parse (42 :: decimal 2 ++ [CR, LF] ++ ascii "$3\r\nfoo\r\n") =
        .ok (.error (.arrayElement [NewBulkString (ascii "foo")].length
          (.readMessageType .EOF))) :=
  ⟨rfl, by decide, rfl,
    (Runtime_Parse_total Runtime.amd64 (ascii "$3\r\nfoo\r\n")).2.2.2.2.2.2.1
      4611686018427387904 (by decide) rfl,
    (Runtime_Parse_total Runtime.amd64
      (ascii "*4611686018427387904\r\n$3\r\nfoo\r\n")).2.2.1 100 (by decide),
    ⟨_, rfl, rfl⟩,
    (Runtime_Parse_total Runtime.amd64 (ascii "$3\r\nfoo\r\n")).2.2.2.2.2.2.2.2.1 2
      [NewBulkString (ascii "foo")] (by decide) rfl ⟨_, rfl, rfl⟩ (by decide)⟩

end Resp
